import Mathlib

/-!
# NtyCo coroutine scheduler: shallow embedding

Embedding of `src/core/nty_schedule.c` and `src/core/nty_coroutine.c`.

* Coroutine objects live in a memory `mem : Ptr → nty_coroutine`; a C pointer
  is a natural number and `NULL` is `none`.
* The two red-black trees generated by `RB_GENERATE` (BSD `sys/tree.h`) are
  kept as the in-order list of their nodes.  Every node also records the key
  the element carried when it was linked in; the tree operations themselves only
  ever look at the current fields of the elements, exactly as the comparators
  `nty_coroutine_sleep_cmp` and `nty_coroutine_wait_cmp` do.
* `uint64_t` arithmetic is arithmetic on `Nat` reduced modulo `2 ^ 64`.
* Clock readings (`nty_coroutine_usec_now`) are inputs of the functions that
  read the clock.
* The entry function of a coroutine is the list of the runtime calls it makes
  (`Call`); `swapcontext` runs a coroutine up to its next switch back to the
  scheduler.  A failed `assert` is the result `none`.
* The scheduler carries an observation log (`log`) of the calls of
  `nty_coroutine_resume` and `nty_coroutine_free` and of the removals from the
  ready queue; the runtime never reads it.
* The stack copier works on byte lists and is embedded apart from the scheduler
  state (`co_stack`, `_save_stack`, `_load_stack`).
-/

namespace NtyCo

/-! ## Declarations of the header `nty_coroutine.h` -/

/-- A pointer to a coroutine object. -/
abbrev Ptr := Nat

/-- Modelled from the spec: the enumeration `nty_coroutine_status` is declared in
`nty_coroutine.h`, which is not among the sources; the spec lists the status
bit-set as NEW, READY, EXITED, SLEEPING, EXPIRED, WAIT_READ, WAIT_WRITE, FDEOF,
DETACH, and the bit positions follow that order. -/
def NTY_COROUTINE_STATUS_NEW : Nat := 0

/-- Modelled from the spec: status bit READY (see `NTY_COROUTINE_STATUS_NEW`). -/
def NTY_COROUTINE_STATUS_READY : Nat := 1

/-- Modelled from the spec: status bit EXITED (see `NTY_COROUTINE_STATUS_NEW`). -/
def NTY_COROUTINE_STATUS_EXITED : Nat := 2

/-- Modelled from the spec: status bit SLEEPING (see `NTY_COROUTINE_STATUS_NEW`). -/
def NTY_COROUTINE_STATUS_SLEEPING : Nat := 3

/-- Modelled from the spec: status bit EXPIRED (see `NTY_COROUTINE_STATUS_NEW`). -/
def NTY_COROUTINE_STATUS_EXPIRED : Nat := 4

/-- Modelled from the spec: status bit WAIT_READ (see `NTY_COROUTINE_STATUS_NEW`). -/
def NTY_COROUTINE_STATUS_WAIT_READ : Nat := 5

/-- Modelled from the spec: status bit WAIT_WRITE (see `NTY_COROUTINE_STATUS_NEW`). -/
def NTY_COROUTINE_STATUS_WAIT_WRITE : Nat := 6

/-- Modelled from the spec: status bit FDEOF (see `NTY_COROUTINE_STATUS_NEW`). -/
def NTY_COROUTINE_STATUS_FDEOF : Nat := 7

/-- Modelled from the spec: status bit DETACH (see `NTY_COROUTINE_STATUS_NEW`). -/
def NTY_COROUTINE_STATUS_DETACH : Nat := 8

/-- Modelled from the spec: the macro `BIT(x)` of `nty_coroutine.h` (not among the
sources), the mask with only bit `x` of the status bit-set. -/
def BIT (x : Nat) : Nat := 1 <<< x

/-- Modelled from the spec: the macro `CLEARBIT(x)` of `nty_coroutine.h` (not among
the sources), the 32-bit mask with every bit but `x`; `status &= CLEARBIT(x)`
clears bit `x`. -/
def CLEARBIT (x : Nat) : Nat := (2 ^ 32 - 1) ^^^ BIT x

/-- The truth value of the C condition `status & BIT(x)`. -/
def tst (status x : Nat) : Bool := (status &&& BIT x) != 0

/-- Width of `uint64_t`. -/
def U64 : Nat := 2 ^ 64

/-- Modelled from the spec: `nty_coroutine_diff_usecs(t1, t2)` of `nty_coroutine.h`
(not among the sources), the delta `t2 - t1` of two microsecond timestamps in
`uint64_t`. -/
def nty_coroutine_diff_usecs (t1 t2 : Nat) : Nat := (t2 + U64 - t1 % U64) % U64

/-- The constant `POLLIN` of `poll.h`. -/
def POLLIN : Nat := 1

/-- The constant `POLLOUT` of `poll.h`. -/
def POLLOUT : Nat := 4

/-- The constant `EPOLLHUP` of `sys/epoll.h`. -/
def EPOLLHUP : Nat := 16

/-- Modelled from the spec: `NO_TIMEOUT` of `nty_coroutine.h` (not among the
sources), the reserved sentinel `UINT64_MAX`. -/
def NO_TIMEOUT : Nat := U64 - 1

/-- A call of the runtime made by the entry function of a coroutine; the
coroutine it acts on is the running one (`sched->curr_thread`).  The entry
function of a coroutine is embedded as the list of the calls it makes. -/
inductive Call where
  /-- The call `nty_coroutine_sleep(msecs)`. -/
  | sleep (msecs : Nat)
  /-- The call `nty_coroutine_detach()`. -/
  | detach
  /-- The call `nty_coroutine_renice(co)` on the running coroutine. -/
  | renice
  /-- The call `nty_coroutine_yield(co)` on the running coroutine. -/
  | yield
  /-- The call `nty_schedule_sched_wait(co, fd, events, timeout)` on the running
  coroutine. -/
  | sched_wait (fd : Int) (events : Nat) (timeout : Nat)
  /-- The call `nty_schedule_desched_wait(fd)`. -/
  | desched_wait (fd : Int)
  /-- The call `nty_schedule_search_wait(fd)`. -/
  | search_wait (fd : Int)
  /-- The call `nty_schedule_cancel_wait(co)` on the running coroutine. -/
  | cancel_wait
  /-- The call `nty_coroutine_create(&new_co, func, arg)`. -/
  | create (func : List Call)

/-- The fields of `struct _nty_coroutine` that the scheduler reads or writes.
The saved-stack fields are embedded separately in `co_stack`; `ctx` is the
machine context: the calls the entry function has still to make. -/
structure nty_coroutine where
  id : Nat
  status : Nat
  fd : Int
  events : Nat
  sleep_usecs : Nat
  ops : Nat
  is_freed : Bool
  func : List Call
  ctx : List Call

/-- The object `calloc` returns: every field zero. -/
def nty_coroutine.zero : nty_coroutine :=
  { id := 0, status := 0, fd := 0, events := 0, sleep_usecs := 0, ops := 0,
    is_freed := false, func := [], ctx := [] }

/-- A node of a tree generated by `RB_GENERATE`: the element linked in and the
key it carried at that moment. -/
structure rb_node (κ : Type) where
  key : κ
  elm : Ptr
deriving DecidableEq, Repr

/-- One entry of `sched->eventlist`: `data.fd` and `events` of a
`struct epoll_event`. -/
structure epoll_event where
  fd : Int
  events : Nat
deriving DecidableEq, Repr

/-- An entry of the observation log kept beside the scheduler: a call of
`nty_coroutine_resume(co)` with the status of `co` and its membership in the sleep
and wait trees at the moment of the call, a call of `nty_coroutine_free(co)` with
`co != NULL`, or the removal of the head of the ready queue by the scheduler
loop. -/
inductive dispatch where
  | resume (co : Ptr) (status : Nat) (sleeping waiting : Bool)
  | free (co : Ptr)
  | pop (co : Ptr)
deriving DecidableEq, Repr

/-- The fields of `struct _nty_schedule` together with the coroutine objects
allocated on it (`mem`), the next address `calloc` hands out (`brk`) and the
observation log (`log`), which no function of the runtime reads. -/
structure nty_schedule where
  birth : Nat
  stack_size : Nat
  spawned_coroutines : Int
  default_timeout : Nat
  sleeping : List (rb_node Nat)
  waiting : List (rb_node Int)
  ready : List Ptr
  busy : List Ptr
  curr_thread : Option Ptr
  num_new_events : Nat
  eventlist : List epoll_event
  mem : Ptr → nty_coroutine
  brk : Ptr
  log : List dispatch

/-- Assignment through a coroutine pointer: `co->field = ...`. -/
def nty_schedule.upd (s : nty_schedule) (co : Ptr) (f : nty_coroutine → nty_coroutine) :
    nty_schedule :=
  { s with mem := Function.update s.mem co (f (s.mem co)) }

/-! ## The red-black trees (`RB_GENERATE`) -/

/-- `nty_coroutine_sleep_cmp`. -/
def nty_coroutine_sleep_cmp (co1 co2 : nty_coroutine) : Int :=
  if co1.sleep_usecs < co2.sleep_usecs then -1
  else if co1.sleep_usecs = co2.sleep_usecs then 0
  else 1

/-- `nty_coroutine_wait_cmp`. -/
def nty_coroutine_wait_cmp (co1 co2 : nty_coroutine) : Int :=
  if co1.fd < co2.fd then -1
  else if co1.fd = co2.fd then 0
  else 1

/-- Modelled from the spec: `RB_FIND(name, head, elm)`, generated by `RB_GENERATE`
from the tree header, which is not among the sources; the spec keeps each tree as
an ordered set of coroutines with one element per key.  The node that compares
equal to `elm`, or `NULL`. -/
def RB_FIND {κ : Type} (cmp : nty_coroutine → nty_coroutine → Int) (mem : Ptr → nty_coroutine)
    (head : List (rb_node κ)) (elm : nty_coroutine) : Option Ptr :=
  (head.find? (fun n => cmp elm (mem n.elm) == 0)).map (fun n => n.elm)

/-- Modelled from the spec: the linking step of `RB_INSERT` (tree header not among
the sources), which puts a new node at its place in the order given by the
comparator. -/
def rb_link {κ : Type} (cmp : nty_coroutine → nty_coroutine → Int) (mem : Ptr → nty_coroutine) :
    List (rb_node κ) → rb_node κ → List (rb_node κ)
  | [], n => [n]
  | m :: ms, n =>
    if cmp (mem n.elm) (mem m.elm) < 0 then n :: m :: ms else m :: rb_link cmp mem ms n

/-- Modelled from the spec: `RB_INSERT(name, head, elm)` (tree header not among the
sources; the spec has an insertion collide on an equal key).  Returns the node
that already compares equal to `elm` and leaves the tree as it is, or links
`elm` in and returns `NULL`.  `key`
reads the key field, which the new node records. -/
def RB_INSERT {κ : Type} (cmp : nty_coroutine → nty_coroutine → Int) (key : nty_coroutine → κ)
    (mem : Ptr → nty_coroutine) (head : List (rb_node κ)) (elm : Ptr) :
    Option Ptr × List (rb_node κ) :=
  match RB_FIND cmp mem head (mem elm) with
  | some tmp => (some tmp, head)
  | none => (none, rb_link cmp mem head { key := key (mem elm), elm := elm })

/-- Modelled from the spec: `RB_REMOVE(name, head, elm)` (tree header not among the
sources), which unlinks the node `elm`. -/
def RB_REMOVE {κ : Type} (head : List (rb_node κ)) (elm : Ptr) : List (rb_node κ) :=
  head.filter (fun n => n.elm != elm)

/-- Modelled from the spec: `RB_MIN(name, head)` (tree header not among the
sources), the leftmost node, or `NULL`. -/
def RB_MIN {κ : Type} (head : List (rb_node κ)) : Option Ptr :=
  head.head?.map (fun n => n.elm)

/-- The elements linked in a tree. -/
def rb_elms {κ : Type} (head : List (rb_node κ)) : List Ptr := head.map (fun n => n.elm)

/-! ## `nty_schedule.c` -/

/-- The state changes of `nty_coroutine_yield(co)` before it switches to the
scheduler context: `co->ops = 0`.  (`_save_stack` only writes the saved-stack
fields, see `co_stack`; the switch itself ends the run of the coroutine in
`nty_coroutine_resume`.) -/
def nty_coroutine_yield (s : nty_schedule) (co : Ptr) : nty_schedule :=
  s.upd co (fun c => { c with ops := 0 })

/-- The loop `while (msecs)` of `nty_schedule_sched_sleepdown` for `msecs != 0`:
`RB_INSERT` until it succeeds, `co->sleep_usecs++` after each collision.  The
first argument bounds the number of iterations. -/
def sleep_insert_loop : Nat → nty_schedule → Ptr → nty_schedule
  | 0, s, _ => s
  | fuel + 1, s, co =>
    match RB_INSERT nty_coroutine_sleep_cmp (fun c => c.sleep_usecs) s.mem s.sleeping co with
    | (some _, _) =>
      sleep_insert_loop fuel
        (s.upd co (fun c => { c with sleep_usecs := (c.sleep_usecs + 1) % U64 })) co
    | (none, t) =>
      { s with sleeping := t }.upd co
        (fun c => { c with status := c.status ||| BIT NTY_COROUTINE_STATUS_SLEEPING })

/-- `nty_schedule_sched_sleepdown(co, msecs)` up to the switch to the scheduler;
`now` is the value `nty_coroutine_usec_now()` returns. -/
def nty_schedule_sched_sleepdown (s : nty_schedule) (co : Ptr) (msecs now : Nat) :
    nty_schedule :=
  let usecs := (msecs * 1000) % U64
  let s1 : nty_schedule :=
    match RB_FIND nty_coroutine_sleep_cmp s.mem s.sleeping (s.mem co) with
    | some co_tmp => { s with sleeping := RB_REMOVE s.sleeping co_tmp }
    | none => s
  let s2 := s1.upd co
    (fun c => { c with sleep_usecs := (nty_coroutine_diff_usecs s1.birth now + usecs) % U64 })
  let s3 := if msecs ≠ 0 then sleep_insert_loop (s2.sleeping.length + 1) s2 co else s2
  nty_coroutine_yield s3 co

/-- `nty_schedule_desched_sleepdown(co)`. -/
def nty_schedule_desched_sleepdown (s : nty_schedule) (co : Ptr) : nty_schedule :=
  if tst (s.mem co).status NTY_COROUTINE_STATUS_SLEEPING then
    let s1 : nty_schedule := { s with sleeping := RB_REMOVE s.sleeping co }
    let s2 := s1.upd co (fun c => { c with status := c.status &&& CLEARBIT NTY_COROUTINE_STATUS_SLEEPING })
    let s3 := s2.upd co (fun c => { c with status := c.status &&& CLEARBIT NTY_COROUTINE_STATUS_EXPIRED })
    s3.upd co (fun c => { c with status := c.status ||| BIT NTY_COROUTINE_STATUS_READY })
  else s

/-- `nty_schedule_search_wait(fd)`: the waiter found (or `NULL`) and the state
after the call. -/
def nty_schedule_search_wait (s : nty_schedule) (fd : Int) : Option Ptr × nty_schedule :=
  let find_it : nty_coroutine := { nty_coroutine.zero with fd := fd }
  match RB_FIND nty_coroutine_wait_cmp s.mem s.waiting find_it with
  | none => (none, s)
  | some co => (some co, s.upd co (fun c => { c with status := 0 }))

/-- `nty_schedule_sched_wait(co, fd, events, timeout)` up to its return or to the
switch to the scheduler inside `nty_schedule_sched_sleepdown`; `none` is a failed
`assert`.  `events` is an `unsigned short`. -/
def nty_schedule_sched_wait (s : nty_schedule) (co : Ptr) (fd : Int) (events : Nat)
    (timeout now : Nat) : Option nty_schedule :=
  if tst (s.mem co).status NTY_COROUTINE_STATUS_WAIT_READ
      || tst (s.mem co).status NTY_COROUTINE_STATUS_WAIT_WRITE then none
  else
    let bit : Option Nat :=
      if events &&& POLLIN != 0 then some NTY_COROUTINE_STATUS_WAIT_READ
      else if events &&& POLLOUT != 0 then some NTY_COROUTINE_STATUS_WAIT_WRITE
      else none
    match bit with
    | none => none
    | some b =>
      let s1 := s.upd co (fun c => { c with status := c.status ||| BIT b })
      let s2 := s1.upd co (fun c => { c with fd := fd })
      let s3 := s2.upd co (fun c => { c with events := events })
      match RB_INSERT nty_coroutine_wait_cmp (fun c => c.fd) s3.mem s3.waiting co with
      | (some _, _) => none
      | (none, t) =>
        let s4 : nty_schedule := { s3 with waiting := t }
        if timeout = NO_TIMEOUT then some s4
        else some (nty_schedule_sched_sleepdown s4 co timeout now)

/-- `nty_schedule_desched_wait(fd)`: the returned pointer and the state after
the call. -/
def nty_schedule_desched_wait (s : nty_schedule) (fd : Int) : Option Ptr × nty_schedule :=
  match nty_schedule_search_wait s fd with
  | (none, s1) => (none, s1)
  | (some co, s1) =>
    let s2 : nty_schedule := { s1 with waiting := RB_REMOVE s1.waiting co }
    let s3 := s2.upd co (fun c => { c with status := 0 })
    (some co, nty_schedule_desched_sleepdown s3 co)

/-- `nty_schedule_cancel_wait(co)`. -/
def nty_schedule_cancel_wait (s : nty_schedule) (co : Ptr) : nty_schedule :=
  { s with waiting := RB_REMOVE s.waiting co }

/-- `nty_schedule_expired(sched)`: the expired coroutine (or `NULL`) and the
state after the call; `now` is the value `nty_coroutine_usec_now()` returns. -/
def nty_schedule_expired (s : nty_schedule) (now : Nat) : Option Ptr × nty_schedule :=
  let t_diff_usecs := nty_coroutine_diff_usecs s.birth now
  match RB_MIN s.sleeping with
  | none => (none, s)
  | some co =>
    if (s.mem co).sleep_usecs ≤ t_diff_usecs then
      (some co, { s with sleeping := RB_REMOVE s.sleeping co })
    else (none, s)

/-- Modelled from the spec: `NTY_CO_MAX_STACKSIZE` of `nty_coroutine.h` (not among
the sources); the default shared stack of 128 KiB is this bound. -/
def NTY_CO_MAX_STACKSIZE : Nat := 128 * 1024

/-- `nty_schedule_create(stack_size)` when the allocations succeed: the scheduler
it installs; `now` is the value `nty_coroutine_usec_now()` returns. -/
def nty_schedule_create (stack_size : Nat) (now : Nat) : nty_schedule :=
  { birth := now,
    stack_size := if stack_size ≠ 0 then stack_size else NTY_CO_MAX_STACKSIZE,
    spawned_coroutines := 0, default_timeout := 3000000,
    sleeping := [], waiting := [], ready := [], busy := [], curr_thread := none,
    num_new_events := 0, eventlist := [], mem := fun _ => nty_coroutine.zero, brk := 1,
    log := [] }

/-- `nty_schedule_min_timeout(sched)`; `now` is the value
`nty_coroutine_usec_now()` returns. -/
def nty_schedule_min_timeout (s : nty_schedule) (now : Nat) : Nat :=
  let t_diff_usecs := nty_coroutine_diff_usecs s.birth now
  match RB_MIN s.sleeping with
  | none => s.default_timeout
  | some co =>
    let min := (s.mem co).sleep_usecs
    if min > t_diff_usecs then min - t_diff_usecs else 0

/-- `nty_schedule_epoll(sched)`: `evs` is what `nty_epoller_wait` writes to
`sched->eventlist` when it is called (its return value is the number of events). -/
def nty_schedule_epoll (s : nty_schedule) (now : Nat) (evs : List epoll_event) : nty_schedule :=
  let s1 : nty_schedule := { s with num_new_events := 0 }
  let usecs := nty_schedule_min_timeout s1 now
  if usecs ≠ 0 && s1.ready.isEmpty then
    { s1 with eventlist := evs, num_new_events := evs.length }
  else s1

/-! ## `nty_coroutine.c` -/

/-- `nty_coroutine_free(co)`. -/
def nty_coroutine_free (s : nty_schedule) (co : Option Ptr) : nty_schedule :=
  match co with
  | none => s
  | some co =>
    let s0 : nty_schedule := { s with log := s.log ++ [dispatch.free co] }
    let s1 : nty_schedule := { s0 with spawned_coroutines := s0.spawned_coroutines - 1 }
    if (s1.mem co).is_freed then s1
    else s1.upd co (fun c => { c with is_freed := true })

/-- `nty_coroutine_init(co)`: `makecontext` points the context at `_exec`, which
starts the entry function. -/
def nty_coroutine_init (s : nty_schedule) (co : Ptr) : nty_schedule :=
  let s1 := s.upd co (fun c => { c with ctx := c.func })
  s1.upd co (fun c => { c with status := BIT NTY_COROUTINE_STATUS_READY })

/-- `nty_coroutine_create(&new_co, func, arg)` on a thread that has its scheduler,
when `calloc` succeeds: the new coroutine and the state after the call. -/
def nty_coroutine_create (s : nty_schedule) (func : List Call) : Ptr × nty_schedule :=
  let co := s.brk
  let s1 : nty_schedule := { s with brk := s.brk + 1, mem := Function.update s.mem co nty_coroutine.zero }
  let s2 := s1.upd co (fun c => { c with status := BIT NTY_COROUTINE_STATUS_NEW })
  let s3 := s2.upd co (fun c => { c with id := (s2.spawned_coroutines % (U64 : Int)).toNat })
  let s4 : nty_schedule := { s3 with spawned_coroutines := s3.spawned_coroutines + 1 }
  let s5 := s4.upd co (fun c => { c with func := func })
  let s6 := s5.upd co (fun c => { c with fd := -1 })
  let s7 := s6.upd co (fun c => { c with events := 0 })
  (co, { s7 with ready := s7.ready ++ [co] })

/-- `nty_coroutine_sleep(msecs)` called by the running coroutine `co`, up to the
switch to the scheduler. -/
def nty_coroutine_sleep (s : nty_schedule) (co : Ptr) (msecs now : Nat) : nty_schedule :=
  if msecs = 0 then
    nty_coroutine_yield { s with ready := s.ready ++ [co] } co
  else nty_schedule_sched_sleepdown s co msecs now

/-- `nty_coroutine_detach()` called by the running coroutine `co`. -/
def nty_coroutine_detach (s : nty_schedule) (co : Ptr) : nty_schedule :=
  s.upd co (fun c => { c with status := c.status ||| BIT NTY_COROUTINE_STATUS_DETACH })

/-- `nty_coroutine_renice(co)`: the state after the call and whether the call
switched to the scheduler. -/
def nty_coroutine_renice (s : nty_schedule) (co : Ptr) : nty_schedule × Bool :=
  let s1 := s.upd co (fun c => { c with ops := c.ops + 1 })
  if (s1.mem co).ops < 5 then (s1, false)
  else (nty_coroutine_yield { s1 with ready := s1.ready ++ [co] } co, true)

/-- The run of coroutine `co` from `swapcontext(&sched->ctx, &co->ctx)` to the
next switch back to the scheduler: the calls of the entry function are made in
turn until one of them switches; when none is left `_exec` sets
EXITED, FDEOF and DETACH and yields.  The calls not yet made are kept in
`co->ctx`.  `none` is a failed `assert`; every clock reading during the run
returns `now`. -/
def swapcontext : List Call → nty_schedule → Ptr → Nat → Option nty_schedule
  | [], s, co, _ =>
    let s1 := s.upd co (fun c => { c with ctx := [] })
    let s2 := s1.upd co (fun c => { c with status := c.status |||
      (BIT NTY_COROUTINE_STATUS_EXITED ||| BIT NTY_COROUTINE_STATUS_FDEOF |||
        BIT NTY_COROUTINE_STATUS_DETACH) })
    some (nty_coroutine_yield s2 co)
  | Call.sleep msecs :: rest, s, co, now =>
    some (nty_coroutine_sleep (s.upd co (fun c => { c with ctx := rest })) co msecs now)
  | Call.detach :: rest, s, co, now =>
    swapcontext rest (nty_coroutine_detach s co) co now
  | Call.renice :: rest, s, co, now =>
    match nty_coroutine_renice s co with
    | (s1, true) => some (s1.upd co (fun c => { c with ctx := rest }))
    | (s1, false) => swapcontext rest s1 co now
  | Call.yield :: rest, s, co, _ =>
    some (nty_coroutine_yield (s.upd co (fun c => { c with ctx := rest })) co)
  | Call.sched_wait fd events timeout :: rest, s, co, now =>
    match nty_schedule_sched_wait s co fd events timeout now with
    | none => none
    | some s1 =>
      if timeout = NO_TIMEOUT then swapcontext rest s1 co now
      else some (s1.upd co (fun c => { c with ctx := rest }))
  | Call.desched_wait fd :: rest, s, co, now =>
    swapcontext rest (nty_schedule_desched_wait s fd).2 co now
  | Call.search_wait fd :: rest, s, co, now =>
    swapcontext rest (nty_schedule_search_wait s fd).2 co now
  | Call.cancel_wait :: rest, s, co, now =>
    swapcontext rest (nty_schedule_cancel_wait s co) co now
  | Call.create func :: rest, s, co, now =>
    swapcontext rest (nty_coroutine_create s func).2 co now

/-- `nty_coroutine_resume(co)`: the state when the call returns, `none` when an
`assert` fails while `co` runs.  (The return value, `-1` for an exited coroutine
and `0` otherwise, is used by no caller.) -/
def nty_coroutine_resume (s : nty_schedule) (co : Ptr) (now : Nat) : Option nty_schedule :=
  let s0 : nty_schedule :=
    { s with log := s.log ++ [dispatch.resume co (s.mem co).status
        (decide (co ∈ rb_elms s.sleeping)) (decide (co ∈ rb_elms s.waiting))] }
  let s1 := if tst (s0.mem co).status NTY_COROUTINE_STATUS_NEW then nty_coroutine_init s0 co else s0
  let s2 : nty_schedule := { s1 with curr_thread := some co }
  match swapcontext (s2.mem co).ctx s2 co now with
  | none => none
  | some s3 =>
    let s4 : nty_schedule := { s3 with curr_thread := none }
    if tst (s4.mem co).status NTY_COROUTINE_STATUS_EXITED then
      if tst (s4.mem co).status NTY_COROUTINE_STATUS_DETACH then
        some (nty_coroutine_free s4 (some co))
      else some s4
    else some s4

/-! ## The scheduler loop `nty_schedule_run` -/

/-- Step 1 of one iteration of `nty_schedule_run`: the loop
`while ((expired = nty_schedule_expired(sched)) != NULL) nty_coroutine_resume(expired)`.
The first argument bounds the number of iterations. -/
def run_expired : Nat → nty_schedule → Nat → Option nty_schedule
  | 0, s, _ => some s
  | fuel + 1, s, now =>
    match nty_schedule_expired s now with
    | (none, s1) => some s1
    | (some expired, s1) =>
      match nty_coroutine_resume s1 expired now with
      | none => none
      | some s2 => run_expired fuel s2 now

/-- Step 2 of one iteration of `nty_schedule_run`: the loop
`while (!TAILQ_EMPTY(&sched->ready))` with `last_co_ready` the tail of the ready
queue taken before it.  The first argument bounds the number of iterations. -/
def run_ready : Nat → Option Ptr → nty_schedule → Nat → Option nty_schedule
  | 0, _, s, _ => some s
  | fuel + 1, last_co_ready, s, now =>
    match s.ready with
    | [] => some s
    | co :: rest =>
      let s1 : nty_schedule := { s with ready := rest, log := s.log ++ [dispatch.pop co] }
      if tst (s1.mem co).status NTY_COROUTINE_STATUS_FDEOF then
        run_ready fuel last_co_ready (nty_coroutine_free s1 (some co)) now
      else
        match nty_coroutine_resume s1 co now with
        | none => none
        | some s2 =>
          if some co = last_co_ready then some s2
          else run_ready fuel last_co_ready s2 now

/-- The loop `while (sched->num_new_events)` of step 3 of one iteration of
`nty_schedule_run`; the first argument is `sched->num_new_events`. -/
def run_events : Nat → nty_schedule → Nat → Option nty_schedule
  | 0, s, _ => some s
  | idx + 1, s, now =>
    let s1 : nty_schedule := { s with num_new_events := idx }
    match s1.eventlist.get? idx with
    | none => none
    | some ev =>
      let is_eof := ev.events &&& EPOLLHUP
      match nty_schedule_search_wait s1 ev.fd with
      | (none, s2) => run_events idx s2 now
      | (some co, s2) =>
        let s3 := if is_eof ≠ 0 then
            s2.upd co (fun c => { c with status := c.status ||| BIT NTY_COROUTINE_STATUS_FDEOF })
          else s2
        match nty_coroutine_resume s3 co now with
        | none => none
        | some s4 => run_events idx s4 now

/-- What the environment supplies to one iteration of the scheduler loop: the
clock reading during the iteration and the events `nty_epoller_wait` reports if
it is called. -/
structure tick where
  now : Nat
  events : List epoll_event
deriving DecidableEq, Repr

/-- One iteration of the loop of `nty_schedule_run`; `fuel` bounds the iterations
of each of the loops of steps 1 and 2. -/
def run_iteration (fuel : Nat) (s : nty_schedule) (tk : tick) : Option nty_schedule :=
  match run_expired fuel s tk.now with
  | none => none
  | some s1 =>
    let last_co_ready := s1.ready.getLast?
    match run_ready fuel last_co_ready s1 tk.now with
    | none => none
    | some s2 =>
      let s3 := nty_schedule_epoll s2 tk.now tk.events
      run_events s3.num_new_events s3 tk.now

/-- The coroutines passed to `nty_coroutine_resume`, in the order of the calls. -/
def resumed : List dispatch → List Ptr
  | [] => []
  | dispatch.resume co _ _ _ :: l => co :: resumed l
  | _ :: l => resumed l

/-! ## The stack copier (`_save_stack`, `_load_stack`) -/

/-- The saved-stack fields of a coroutine: the heap buffer `co->stack` (a list of
bytes whose length is the size last passed to `realloc`; the empty list is
`NULL`) and `co->stack_size`. -/
structure co_stack where
  stack : List Nat
  stack_size : Nat
deriving DecidableEq, Repr

/-- `realloc(buf, n)` when it succeeds: a buffer of `n` bytes that keeps the old
contents up to the smaller of the two sizes. -/
def realloc (buf : List Nat) (n : Nat) : List Nat :=
  buf.take n ++ List.replicate (n - buf.length) 0

/-- `memcpy(dst + off, src, n)` with `src` the list of the `n` bytes copied: the
destination with its `n` bytes from `off` on replaced.  The result is `none` when
`off + n` exceeds the size of the destination: the C call would write past the
end of the destination, which is undefined. -/
def memcpy (dst : List Nat) (off : Nat) (src : List Nat) : Option (List Nat) :=
  if off + src.length ≤ dst.length then
    some (dst.take off ++ src ++ dst.drop (off + src.length))
  else none

/-- `_save_stack(co)`: `shared` is the shared stack `co->sched->stack` (its length
is `co->sched->stack_size`, index 0 the lowest address) and `sp` the offset of
`&dummy` in it; `none` is a failed `assert` or a `memcpy` past the end of the
heap buffer. -/
def _save_stack (shared : List Nat) (sp : Nat) (co : co_stack) : Option co_stack :=
  let top := shared.length
  if ¬ (top - sp ≤ NTY_CO_MAX_STACKSIZE) then none
  else
    let buf := if co.stack_size < top - sp then realloc co.stack (top - sp) else co.stack
    let stack_size := top - sp
    match memcpy buf 0 ((shared.drop sp).take stack_size) with
    | none => none
    | some stack => some { stack := stack, stack_size := stack_size }

/-- `_load_stack(co)`: the shared stack after the copy; `none` when the copy
reads past the end of the heap buffer (`co->stack_size` exceeds its size) or
writes outside the shared stack. -/
def _load_stack (shared : List Nat) (co : co_stack) : Option (List Nat) :=
  if co.stack.length < co.stack_size then none
  else memcpy shared (shared.length - co.stack_size) (co.stack.take co.stack_size)

/-! ## Invariants, example states and observations used in the statements -/

/-- The sleep-tree invariant on a memory and a tree: every node records the
current `sleep_usecs` of its element, and the keys increase strictly along the
tree (so they are pairwise distinct). -/
def sleep_tree_ok (mem : Ptr → nty_coroutine) (t : List (rb_node Nat)) : Prop :=
  (∀ n ∈ t, n.key = (mem n.elm).sleep_usecs) ∧ (t.map (fun n => n.key)).Pairwise (fun a b => a < b)

instance (mem : Ptr → nty_coroutine) (t : List (rb_node Nat)) : Decidable (sleep_tree_ok mem t) := by
  unfold sleep_tree_ok; infer_instance

/-- Insertion of a node into a list of nodes ordered by recorded key: the place
`rb_link` chooses when every recorded key is the current key of its element. -/
def key_link : List (rb_node Nat) → rb_node Nat → List (rb_node Nat)
  | [], n => [n]
  | m :: ms, n => if n.key < m.key then n :: m :: ms else m :: key_link ms n

/-- The sleep tree after the first statements of `nty_schedule_sched_sleepdown`:
the node `RB_FIND` returns for `co`, if any, is unlinked. -/
def sleepdown_unlinked (s : nty_schedule) (co : Ptr) : List (rb_node Nat) :=
  match RB_FIND nty_coroutine_sleep_cmp s.mem s.sleeping (s.mem co) with
  | some co_tmp => RB_REMOVE s.sleeping co_tmp
  | none => s.sleeping

/-- The wait-tree invariant on a memory and a tree: every node records the
current `fd` of its element, and the keys increase strictly along the tree (so
they are pairwise distinct). -/
def wait_tree_ok (mem : Ptr → nty_coroutine) (t : List (rb_node Int)) : Prop :=
  (∀ n ∈ t, n.key = (mem n.elm).fd) ∧ (t.map (fun n => n.key)).Pairwise (fun a b => a < b)

instance (mem : Ptr → nty_coroutine) (t : List (rb_node Int)) : Decidable (wait_tree_ok mem t) := by
  unfold wait_tree_ok; infer_instance

/-- A scheduler after one loop iteration at time 5 in which a new coroutine (at
address 1) has parked itself on descriptor 7 for reading with a timeout of
1000 ms; its next call is `nty_schedule_desched_wait(7)`. -/
def timed_wait_state : nty_schedule :=
  (run_iteration 4
    (nty_coroutine_create (nty_schedule_create 0 0)
      [Call.sched_wait 7 POLLIN 1000, Call.desched_wait 7]).2
    { now := 5, events := [] }).getD (nty_schedule_create 0 0)

/-- What a run of coroutine `co` may change, as far as the order of dispatch is
concerned: the log is untouched, the ready queue only grows at its tail, and no
other coroutine gets FDEOF set. -/
def run_frame (co : Ptr) (s s' : nty_schedule) : Prop :=
  s'.log = s.log ∧ s.ready <+: s'.ready ∧
  ∀ p, p ≠ co → tst (s'.mem p).status NTY_COROUTINE_STATUS_FDEOF = true →
    tst (s.mem p).status NTY_COROUTINE_STATUS_FDEOF = true

/-- A scheduler after one loop iteration at time 5 in which a new coroutine (at
address 1) has called `nty_coroutine_sleep(100)`. -/
def sleeping_state : nty_schedule :=
  (run_iteration 4 (nty_coroutine_create (nty_schedule_create 0 0) [Call.sleep 100]).2
    { now := 5, events := [] }).getD (nty_schedule_create 0 0)

/-- A scheduler on which one coroutine (at address 1) has been created. -/
def one_coroutine_state : nty_schedule :=
  (nty_coroutine_create (nty_schedule_create 0 0) []).2

/-- The scheduler after `nty_coroutine_create` (coroutine at address 1),
`nty_coroutine_create` (address 2), `nty_coroutine_free` of the first and a third
`nty_coroutine_create` (address 3). -/
def create_free_create : nty_schedule :=
  let s1 := (nty_coroutine_create (nty_schedule_create 0 0) []).2
  let s2 := (nty_coroutine_create s1 []).2
  let s3 := nty_coroutine_free s2 (some 1)
  (nty_coroutine_create s3 []).2

/-- The scheduler after `nty_coroutine_create` (coroutine at address 1) and one
`nty_coroutine_free` of it. -/
def create_free : nty_schedule :=
  nty_coroutine_free (nty_coroutine_create (nty_schedule_create 0 0) []).2 (some 1)

/-- The coroutines the scheduler loop took off the head of the ready queue, in
the order of the removals. -/
def popped : List dispatch → List Ptr
  | [] => []
  | dispatch.pop co :: l => co :: popped l
  | _ :: l => popped l

/-- A coroutine (address 1) created on a fresh scheduler whose entry function
returns at once, taken off the ready queue and initialised by its first
dispatch: DETACH is clear and it has no call left to make. -/
def returning_state : nty_schedule :=
  nty_coroutine_init
    { (nty_coroutine_create (nty_schedule_create 0 0) []).2 with ready := [] } 1

/-- A scheduler at the end of a loop iteration at time 5 in which two new
coroutines have parked themselves without timeout: coroutine 1 on descriptor 7
and coroutine 2 on descriptor 8, both for reading. -/
def two_waiters_state : nty_schedule :=
  (run_iteration 4
    (nty_coroutine_create
      (nty_coroutine_create (nty_schedule_create 0 0)
        [Call.sched_wait 7 POLLIN NO_TIMEOUT, Call.yield, Call.desched_wait 7]).2
      [Call.sched_wait 8 POLLIN NO_TIMEOUT, Call.yield, Call.desched_wait 8]).2
    { now := 5, events := [] }).getD (nty_schedule_create 0 0)

/-- The state `two_waiters_state` after `nty_schedule_epoll` at time 10, the
poller reporting descriptor 7 readable and then a hangup on descriptor 8. -/
def two_events_state : nty_schedule :=
  nty_schedule_epoll two_waiters_state 10
    [{ fd := 7, events := POLLIN }, { fd := 8, events := EPOLLHUP }]

/-- Repeated calls of `nty_schedule_expired(sched)` at one clock reading `now`,
with nothing done between them, until a call returns `NULL`: the coroutines
returned, in the order of the calls, and the state after the last call.  The
first argument bounds the number of calls. -/
def drain_expired : Nat → nty_schedule → Nat → List Ptr × nty_schedule
  | 0, s, _ => ([], s)
  | fuel + 1, s, now =>
    match nty_schedule_expired s now with
    | (none, s1) => ([], s1)
    | (some co, s1) => (co :: (drain_expired fuel s1 now).1, (drain_expired fuel s1 now).2)

/-- A scheduler on which three coroutines have been created and have then called
`nty_schedule_sched_sleepdown` at time 5 with 100, 50 and 200 ms: the sleep tree
holds coroutine 2 (deadline 50005), 1 (100005) and 3 (200005). -/
def three_sleepers_state : nty_schedule :=
  nty_schedule_sched_sleepdown
    (nty_schedule_sched_sleepdown
      (nty_schedule_sched_sleepdown
        (nty_coroutine_create
          (nty_coroutine_create (nty_coroutine_create (nty_schedule_create 0 0) []).2 []).2 []).2
        1 100 5)
      2 50 5)
    3 200 5

/-- A scheduler at the end of a loop iteration at time 5: coroutine 1 has parked
itself on descriptor 8 and coroutine 2 on descriptor 7; the poller has reported a
hangup on 7 and 8 readable; both coroutines have been resumed and have called
`nty_coroutine_sleep(0)`.  The ready queue is `[1, 2]` and coroutine 2, its tail,
has FDEOF set; coroutine 1 has two more calls of `nty_coroutine_sleep(0)` to
make. -/
def fdeof_tail_state : nty_schedule :=
  (run_iteration 4
    (nty_coroutine_create
      (nty_coroutine_create (nty_schedule_create 0 0)
        [Call.sched_wait 8 POLLIN NO_TIMEOUT, Call.yield, Call.sleep 0, Call.sleep 0,
          Call.sleep 0]).2
      [Call.sched_wait 7 POLLIN NO_TIMEOUT, Call.yield, Call.sleep 0]).2
    { now := 5, events := [{ fd := 7, events := EPOLLHUP }, { fd := 8, events := POLLIN }] }).getD
    (nty_schedule_create 0 0)

/-- A sequence of `_save_stack(co)` calls on one coroutine: each element gives the
shared stack and the offset of `&dummy` at that call; `none` when an `assert`
fails. -/
def save_stack_seq : List (List Nat × Nat) → co_stack → Option co_stack
  | [], co => some co
  | (shared, sp) :: rest, co =>
    match _save_stack shared sp co with
    | none => none
    | some co1 => save_stack_seq rest co1

/-- The saved-stack fields `nty_coroutine_create` sets: `co->stack = NULL` and
`co->stack_size = 0`. -/
def co_stack.empty : co_stack := { stack := [], stack_size := 0 }

/-- A scheduler (born at time 0) with two coroutines: coroutine 1 went to sleep
for 100 ms at time 5 and is linked in the sleep tree under 100005; coroutine 2
called `nty_schedule_sched_wait(co, 7, POLLIN, 0)` at time 100005, which stored
100005 in its `sleep_usecs` without linking it in the sleep tree. -/
def stale_key_state : nty_schedule :=
  (nty_schedule_sched_wait
    (nty_schedule_sched_sleepdown
      (nty_coroutine_create (nty_coroutine_create (nty_schedule_create 0 0) []).2 []).2
      1 100 5)
    2 7 POLLIN 0 100005).getD (nty_schedule_create 0 0)

/-- One call of the wait-tree interface of `nty_schedule.c`, with its arguments
(and, for `nty_schedule_sched_wait`, the clock reading a timed wait takes). -/
inductive wait_op where
  | sched_wait (co : Ptr) (fd : Int) (events timeout now : Nat)
  | search_wait (fd : Int)
  | desched_wait (fd : Int)
  | cancel_wait (co : Ptr)

/-- The state after one call of the wait-tree interface; `none` when the call
traps (a failed `assert` of `nty_schedule_sched_wait`). -/
def wait_step (s : nty_schedule) : wait_op → Option nty_schedule
  | wait_op.sched_wait co fd events timeout now =>
    nty_schedule_sched_wait s co fd events timeout now
  | wait_op.search_wait fd => some (nty_schedule_search_wait s fd).2
  | wait_op.desched_wait fd => some (nty_schedule_desched_wait s fd).2
  | wait_op.cancel_wait co => some (nty_schedule_cancel_wait s co)

/-- The state after a sequence of calls of the wait-tree interface, `none` when
one of them traps. -/
def wait_run : List wait_op → nty_schedule → Option nty_schedule
  | [], s => some s
  | op :: ops, s =>
    match wait_step s op with
    | none => none
    | some s1 => wait_run ops s1

/-- A scheduler on which two coroutines (at addresses 1 and 2) have been
created; both trees are empty. -/
def two_coroutines_state : nty_schedule :=
  (nty_coroutine_create (nty_coroutine_create (nty_schedule_create 0 0) []).2 []).2

/-- The heap buffer `co->stack` in `_save_stack(co)` after the `if` statement, at
the call of `memcpy`: reallocated to `top - sp` bytes when
`co->stack_size < top - sp`, the buffer as it was otherwise. -/
def save_stack_buffer (shared : List Nat) (sp : Nat) (co : co_stack) : List Nat :=
  if co.stack_size < shared.length - sp then realloc co.stack (shared.length - sp) else co.stack

theorem tst_eq_testBit (s b : Nat) : tst s b = s.testBit b := by
  unfold tst BIT
  rw [Nat.one_shiftLeft, Nat.and_two_pow]
  cases h : s.testBit b <;> simp

theorem tst_zero (b : Nat) : tst 0 b = false := by
  simp [tst_eq_testBit]

theorem tst_or_BIT (s b c : Nat) : tst (s ||| BIT b) c = (tst s c || decide (b = c)) := by
  simp [tst_eq_testBit, BIT, Nat.one_shiftLeft, Nat.testBit_two_pow]

theorem tst_and_CLEARBIT (s b c : Nat) (hc : c < 32) :
    tst (s &&& CLEARBIT b) c = (tst s c && !decide (b = c)) := by
  have h32 : Nat.testBit (2 ^ 32 - 1) c = true := by
    rw [Nat.testBit_two_pow_sub_one]; simpa using hc
  simp only [tst_eq_testBit, CLEARBIT, BIT, Nat.one_shiftLeft, Nat.testBit_and, Nat.testBit_xor,
    Nat.testBit_two_pow, h32]
  cases s.testBit c <;> cases decide (b = c) <;> rfl

theorem sleep_cmp_eq_zero (a b : nty_coroutine) :
    (nty_coroutine_sleep_cmp a b == 0) = decide (a.sleep_usecs = b.sleep_usecs) := by
  unfold nty_coroutine_sleep_cmp
  by_cases h1 : a.sleep_usecs < b.sleep_usecs
  · have : a.sleep_usecs ≠ b.sleep_usecs := by omega
    simp [h1, this]
  · by_cases h2 : a.sleep_usecs = b.sleep_usecs
    · simp [h2]
    · simp [h1, h2]

theorem sleep_cmp_neg (a b : nty_coroutine) :
    nty_coroutine_sleep_cmp a b < 0 ↔ a.sleep_usecs < b.sleep_usecs := by
  unfold nty_coroutine_sleep_cmp
  by_cases h1 : a.sleep_usecs < b.sleep_usecs
  · simp [h1]
  · by_cases h2 : a.sleep_usecs = b.sleep_usecs
    · simp [h2]
    · simp [h1, h2]

theorem RB_FIND_sleep_none {mem : Ptr → nty_coroutine} {t : List (rb_node Nat)} {c : nty_coroutine} :
    RB_FIND nty_coroutine_sleep_cmp mem t c = none ↔
      ∀ n ∈ t, (mem n.elm).sleep_usecs ≠ c.sleep_usecs := by
  unfold RB_FIND
  simp only [Option.map_eq_none', List.find?_eq_none, sleep_cmp_eq_zero, decide_eq_true_eq]
  constructor
  · intro h n hn e; exact h n hn e.symm
  · intro h n hn e; exact h n hn e.symm

theorem RB_FIND_sleep_some {mem : Ptr → nty_coroutine} {t : List (rb_node Nat)} {c : nty_coroutine}
    {p : Ptr} (h : RB_FIND nty_coroutine_sleep_cmp mem t c = some p) :
    ∃ n ∈ t, n.elm = p ∧ (mem n.elm).sleep_usecs = c.sleep_usecs := by
  unfold RB_FIND at h
  simp only [Option.map_eq_some'] at h
  obtain ⟨n, hn, rfl⟩ := h
  refine ⟨n, List.mem_of_find?_eq_some hn, rfl, ?_⟩
  have := List.find?_some hn
  simp only [sleep_cmp_eq_zero, decide_eq_true_eq] at this
  exact this.symm

theorem mem_rb_link {κ : Type} (cmp : nty_coroutine → nty_coroutine → Int)
    (mem : Ptr → nty_coroutine) (t : List (rb_node κ)) (n m : rb_node κ) :
    m ∈ rb_link cmp mem t n ↔ m = n ∨ m ∈ t := by
  induction t with
  | nil => simp [rb_link]
  | cons a t ih =>
    unfold rb_link
    split
    · simp
    · simp only [List.mem_cons, ih]
      tauto

theorem length_rb_link {κ : Type} (cmp : nty_coroutine → nty_coroutine → Int)
    (mem : Ptr → nty_coroutine) (t : List (rb_node κ)) (n : rb_node κ) :
    (rb_link cmp mem t n).length = t.length + 1 := by
  induction t with
  | nil => simp [rb_link]
  | cons a t ih =>
    unfold rb_link
    split
    · simp
    · simp [ih]

theorem rb_link_eq_key_link (mem : Ptr → nty_coroutine) (t : List (rb_node Nat)) (n : rb_node Nat)
    (hk : ∀ m ∈ t, m.key = (mem m.elm).sleep_usecs) (hn : n.key = (mem n.elm).sleep_usecs) :
    rb_link nty_coroutine_sleep_cmp mem t n = key_link t n := by
  induction t with
  | nil => rfl
  | cons a t ih =>
    have hka := hk a (List.mem_cons_self _ _)
    unfold rb_link key_link
    simp only [sleep_cmp_neg, ← hn, ← hka]
    rw [ih (fun m hm => hk m (List.mem_cons_of_mem _ hm))]

theorem mem_key_link (t : List (rb_node Nat)) (n m : rb_node Nat) :
    m ∈ key_link t n ↔ m = n ∨ m ∈ t := by
  induction t with
  | nil => simp [key_link]
  | cons a t ih =>
    unfold key_link
    split
    · simp
    · simp only [List.mem_cons, ih]
      tauto

theorem key_link_sorted (t : List (rb_node Nat)) (n : rb_node Nat)
    (hs : (t.map (fun n => n.key)).Pairwise (fun a b => a < b))
    (hfree : ∀ m ∈ t, m.key ≠ n.key) :
    ((key_link t n).map (fun n => n.key)).Pairwise (fun a b => a < b) := by
  induction t with
  | nil => simp [key_link]
  | cons a t ih =>
    have hfa := hfree a (List.mem_cons_self _ _)
    simp only [List.map_cons, List.pairwise_cons, List.mem_map, forall_exists_index, and_imp,
      forall_apply_eq_imp_iff₂] at hs
    unfold key_link
    split
    · rename_i hlt
      simp only [List.map_cons, List.pairwise_cons, List.mem_cons, List.mem_map, forall_eq_or_imp,
        forall_exists_index, and_imp, forall_apply_eq_imp_iff₂]
      exact ⟨⟨hlt, fun m hm => lt_trans hlt (hs.1 m hm)⟩, hs.1, hs.2⟩
    · rename_i hlt
      have hlt2 : a.key < n.key := by omega
      simp only [List.map_cons, List.pairwise_cons, List.mem_map, forall_exists_index, and_imp,
        forall_apply_eq_imp_iff₂, mem_key_link]
      refine ⟨?_, ih hs.2 (fun m hm => hfree m (List.mem_cons_of_mem _ hm))⟩
      rintro m (rfl | hm)
      · exact hlt2
      · exact hs.1 m hm

theorem mem_rb_elms {κ : Type} (t : List (rb_node κ)) (p : Ptr) :
    p ∈ rb_elms t ↔ ∃ n ∈ t, n.elm = p := by
  simp [rb_elms]

theorem update_other_of_not_mem {t : List (rb_node Nat)} {co : Ptr} (h : co ∉ rb_elms t)
    (mem : Ptr → nty_coroutine) (v : nty_coroutine) :
    ∀ n ∈ t, Function.update mem co v n.elm = mem n.elm := by
  intro n hn
  have : n.elm ≠ co := fun e => h ((mem_rb_elms t co).2 ⟨n, hn, e⟩)
  simp [Function.update, this]

theorem sleep_tree_ok_update {mem : Ptr → nty_coroutine} {t : List (rb_node Nat)} {co : Ptr}
    (h : sleep_tree_ok mem t) (hco : co ∉ rb_elms t) (v : nty_coroutine) :
    sleep_tree_ok (Function.update mem co v) t := by
  refine ⟨fun n hn => ?_, h.2⟩
  rw [update_other_of_not_mem hco mem v n hn]
  exact h.1 n hn

theorem sleep_insert_loop_spec (fuel : Nat) : ∀ (s : nty_schedule) (co : Ptr),
    sleep_tree_ok s.mem s.sleeping → co ∉ rb_elms s.sleeping →
    (s.sleeping.filter (fun n => decide ((s.mem co).sleep_usecs ≤ n.key))).length < fuel →
    (s.mem co).sleep_usecs + fuel ≤ U64 →
    ∃ k, (s.mem co).sleep_usecs ≤ k ∧ k < (s.mem co).sleep_usecs + fuel ∧
      (∀ j, (s.mem co).sleep_usecs ≤ j → j < k → ∃ n ∈ s.sleeping, n.key = j) ∧
      (∀ n ∈ s.sleeping, n.key ≠ k) ∧
      sleep_insert_loop fuel s co =
        { s with
          sleeping := key_link s.sleeping ⟨k, co⟩
          mem := Function.update s.mem co
            { s.mem co with
              sleep_usecs := k
              status := (s.mem co).status ||| BIT NTY_COROUTINE_STATUS_SLEEPING } } := by
  induction fuel with
  | zero => intro s co _ _ h; simp at h
  | succ fuel ih =>
    intro s co hok hco hcnt hbound
    unfold sleep_insert_loop RB_INSERT
    cases hfind : RB_FIND nty_coroutine_sleep_cmp s.mem s.sleeping (s.mem co) with
    | none =>
      rw [RB_FIND_sleep_none] at hfind
      refine ⟨(s.mem co).sleep_usecs, le_refl _, by omega, fun j h1 h2 => by omega, ?_, ?_⟩
      · intro n hn e
        exact hfind n hn (by rw [← hok.1 n hn]; exact e)
      · simp only [nty_schedule.upd]
        rw [rb_link_eq_key_link s.mem s.sleeping _ hok.1 rfl]
    | some tmp =>
      obtain ⟨n, hn, -, hkey⟩ := RB_FIND_sleep_some hfind
      rw [← hok.1 n hn] at hkey
      have hpos : 0 < (List.filter (fun n => decide ((s.mem co).sleep_usecs ≤ n.key))
          s.sleeping).length := by
        apply List.length_pos_of_mem (a := n)
        simp [hn, hkey]
      have hlt : (s.mem co).sleep_usecs + 1 < U64 := by omega
      have hmod : ((s.mem co).sleep_usecs + 1) % U64 = (s.mem co).sleep_usecs + 1 :=
        Nat.mod_eq_of_lt hlt
      simp only []
      have hs' : ((s.upd co (fun c => { c with sleep_usecs := (c.sleep_usecs + 1) % U64 })).mem co).sleep_usecs
          = (s.mem co).sleep_usecs + 1 := by
        simp [nty_schedule.upd, hmod]
      have := ih (s.upd co (fun c => { c with sleep_usecs := (c.sleep_usecs + 1) % U64 })) co
        (sleep_tree_ok_update hok hco _) hco
      rw [hs'] at this
      have hcnt' : (List.filter (fun n => decide ((s.mem co).sleep_usecs + 1 ≤ n.key))
          s.sleeping).length < fuel := by
        have h1 : (List.filter (fun n => decide ((s.mem co).sleep_usecs + 1 ≤ n.key)) s.sleeping)
            = List.filter (fun n => decide ((s.mem co).sleep_usecs + 1 ≤ n.key))
                (List.filter (fun n => decide ((s.mem co).sleep_usecs ≤ n.key)) s.sleeping) := by
          rw [List.filter_filter]
          apply List.filter_congr
          intro x _
          by_cases hx : (s.mem co).sleep_usecs + 1 ≤ x.key
          · have : (s.mem co).sleep_usecs ≤ x.key := by omega
            simp [hx, this]
          · simp [hx]
        rw [h1]
        have h2 : (List.filter (fun n => decide ((s.mem co).sleep_usecs + 1 ≤ n.key))
                (List.filter (fun n => decide ((s.mem co).sleep_usecs ≤ n.key)) s.sleeping)).length
              < (List.filter (fun n => decide ((s.mem co).sleep_usecs ≤ n.key)) s.sleeping).length := by
          rw [List.length_filter_lt_length_iff_exists]
          refine ⟨n, ?_, ?_⟩
          · simp [hn, hkey]
          · simp [hkey]
        omega
      obtain ⟨k, hk1, hk2, hk3, hk4, heq⟩ := this hcnt' (by omega)
      refine ⟨k, by omega, by omega, ?_, hk4, ?_⟩
      · intro j hj1 hj2
        by_cases hj : j = (s.mem co).sleep_usecs
        · exact ⟨n, hn, by rw [hkey, hj]⟩
        · exact hk3 j (by omega) hj2
      · rw [heq]
        simp [nty_schedule.upd]
theorem RB_REMOVE_sublist {κ : Type} (t : List (rb_node κ)) (p : Ptr) :
    (RB_REMOVE t p).Sublist t := by
  unfold RB_REMOVE; exact List.filter_sublist t

theorem mem_RB_REMOVE {κ : Type} (t : List (rb_node κ)) (p : Ptr) (n : rb_node κ) :
    n ∈ RB_REMOVE t p ↔ n ∈ t ∧ n.elm ≠ p := by
  simp [RB_REMOVE]

theorem not_mem_rb_elms_RB_REMOVE {κ : Type} (t : List (rb_node κ)) (p : Ptr) :
    p ∉ rb_elms (RB_REMOVE t p) := by
  simp [rb_elms, RB_REMOVE]

theorem sleep_tree_ok_sublist {mem : Ptr → nty_coroutine} {t u : List (rb_node Nat)}
    (h : sleep_tree_ok mem t) (hu : u.Sublist t) : sleep_tree_ok mem u :=
  ⟨fun n hn => h.1 n (hu.subset hn), h.2.sublist (hu.map _)⟩

theorem sleepdown_unlinked_sublist (s : nty_schedule) (co : Ptr) :
    (sleepdown_unlinked s co).Sublist s.sleeping := by
  unfold sleepdown_unlinked
  split
  · exact RB_REMOVE_sublist _ _
  · exact List.Sublist.refl _

theorem sleepdown_unlinked_not_mem {s : nty_schedule} {co : Ptr} (h : co ∉ rb_elms s.sleeping) :
    co ∉ rb_elms (sleepdown_unlinked s co) := by
  intro hm
  rw [mem_rb_elms] at hm
  obtain ⟨n, hn, e⟩ := hm
  exact h ((mem_rb_elms _ _).2 ⟨n, (sleepdown_unlinked_sublist s co).subset hn, e⟩)

theorem key_injective_of_pairwise {κ : Type} [LinearOrder κ] {t : List (rb_node κ)}
    (h : (t.map (fun n => n.key)).Pairwise (fun a b => a < b)) {a b : rb_node κ}
    (ha : a ∈ t) (hb : b ∈ t) (hk : a.key = b.key) : a = b := by
  induction t with
  | nil => cases ha
  | cons x t ih =>
    simp only [List.map_cons, List.pairwise_cons, List.mem_map, forall_exists_index, and_imp,
      forall_apply_eq_imp_iff₂] at h
    rcases List.mem_cons.1 ha with rfl | ha' <;> rcases List.mem_cons.1 hb with rfl | hb'
    · rfl
    · exact absurd hk (ne_of_lt (h.1 b hb'))
    · exact absurd hk.symm (ne_of_lt (h.1 a ha'))
    · exact ih h.2 ha' hb'

theorem sleep_tree_ok_congr {mem mem' : Ptr → nty_coroutine} {t : List (rb_node Nat)}
    (h : ∀ n ∈ t, (mem' n.elm).sleep_usecs = (mem n.elm).sleep_usecs)
    (hok : sleep_tree_ok mem t) : sleep_tree_ok mem' t :=
  ⟨fun n hn => by rw [h n hn]; exact hok.1 n hn, hok.2⟩

/-- In a sleep tree that satisfies its invariant the lookup of
`nty_schedule_sched_sleepdown` finds `co` itself when `co` is linked, so `co` is
not in the tree after the first statements of the function. -/
theorem sleepdown_unlinked_not_mem_of_ok {s : nty_schedule} {co : Ptr}
    (hok : sleep_tree_ok s.mem s.sleeping) : co ∉ rb_elms (sleepdown_unlinked s co) := by
  by_cases hco : co ∈ rb_elms s.sleeping
  · obtain ⟨n, hn, hne⟩ := (mem_rb_elms _ _).1 hco
    unfold sleepdown_unlinked
    cases hfind : RB_FIND nty_coroutine_sleep_cmp s.mem s.sleeping (s.mem co) with
    | none =>
      rw [RB_FIND_sleep_none] at hfind
      exact absurd (by rw [hne]) (hfind n hn)
    | some p =>
      obtain ⟨m, hm, hmp, hkey⟩ := RB_FIND_sleep_some hfind
      have hnm : m = n := by
        apply key_injective_of_pairwise hok.2 hm hn
        rw [hok.1 m hm, hok.1 n hn, hkey, hne]
      have hp : p = co := by rw [← hmp, hnm, hne]
      simp only [hp]
      exact not_mem_rb_elms_RB_REMOVE _ _
  · exact sleepdown_unlinked_not_mem hco

theorem nty_schedule_sched_sleepdown_spec (s : nty_schedule) (co : Ptr) (msecs now : Nat)
    (hok : sleep_tree_ok s.mem s.sleeping) (hms : msecs ≠ 0)
    (hno : nty_coroutine_diff_usecs s.birth now + msecs * 1000 + s.sleeping.length < U64) :
    ∃ k, nty_coroutine_diff_usecs s.birth now + msecs * 1000 ≤ k ∧
      (∀ j, nty_coroutine_diff_usecs s.birth now + msecs * 1000 ≤ j → j < k →
        ∃ n ∈ sleepdown_unlinked s co, n.key = j) ∧
      (∀ n ∈ sleepdown_unlinked s co, n.key ≠ k) ∧
      nty_schedule_sched_sleepdown s co msecs now =
        { s with
          sleeping := key_link (sleepdown_unlinked s co) ⟨k, co⟩
          mem := Function.update s.mem co
            { s.mem co with
              sleep_usecs := k
              status := (s.mem co).status ||| BIT NTY_COROUTINE_STATUS_SLEEPING
              ops := 0 } } := by
  have hsub := sleepdown_unlinked_sublist s co
  have hlen : (sleepdown_unlinked s co).length ≤ s.sleeping.length := hsub.length_le
  have hok1 := sleep_tree_ok_sublist hok hsub
  have hco1 : co ∉ rb_elms (sleepdown_unlinked s co) := sleepdown_unlinked_not_mem_of_ok hok
  set base := nty_coroutine_diff_usecs s.birth now + msecs * 1000 with hbase
  have hm1 : msecs * 1000 % U64 = msecs * 1000 := Nat.mod_eq_of_lt (by omega)
  have hm2 : base % U64 = base := Nat.mod_eq_of_lt (by omega)
  -- the state before the loop
  let s2 : nty_schedule :=
    { s with
      sleeping := sleepdown_unlinked s co
      mem := Function.update s.mem co { s.mem co with sleep_usecs := base } }
  have hs2 : (s2.mem co).sleep_usecs = base := by simp [s2]
  have hok2 : sleep_tree_ok s2.mem s2.sleeping := sleep_tree_ok_update hok1 hco1 _
  have hcnt : (s2.sleeping.filter (fun n => decide ((s2.mem co).sleep_usecs ≤ n.key))).length
      < s2.sleeping.length + 1 :=
    Nat.lt_succ_of_le (List.length_filter_le _ _)
  obtain ⟨k, hk1, -, hk3, hk4, heq⟩ :=
    sleep_insert_loop_spec (s2.sleeping.length + 1) s2 co hok2 hco1 hcnt
      (by rw [hs2]; show base + ((sleepdown_unlinked s co).length + 1) ≤ U64; omega)
  rw [hs2] at hk1 hk3
  refine ⟨k, hk1, hk3, hk4, ?_⟩
  have hdef : nty_schedule_sched_sleepdown s co msecs now
      = nty_coroutine_yield (sleep_insert_loop (s2.sleeping.length + 1) s2 co) co := by
    unfold nty_schedule_sched_sleepdown
    simp only [hms, ne_eq, not_false_eq_true, ↓reduceIte, hm1]
    congr 2
    · simp only [s2, sleepdown_unlinked]
      split <;> simp [nty_schedule.upd, hm2, hbase]
    · simp only [s2, sleepdown_unlinked]
      split <;> simp [nty_schedule.upd, hm2, hbase]
  rw [hdef, heq]
  simp [nty_coroutine_yield, nty_schedule.upd, s2]

theorem wait_cmp_eq_zero (a b : nty_coroutine) :
    (nty_coroutine_wait_cmp a b == 0) = decide (a.fd = b.fd) := by
  unfold nty_coroutine_wait_cmp
  by_cases h1 : a.fd < b.fd
  · have : a.fd ≠ b.fd := by omega
    simp [h1, this]
  · by_cases h2 : a.fd = b.fd
    · simp [h2]
    · simp [h1, h2]

theorem wait_cmp_neg (a b : nty_coroutine) :
    nty_coroutine_wait_cmp a b < 0 ↔ a.fd < b.fd := by
  unfold nty_coroutine_wait_cmp
  by_cases h1 : a.fd < b.fd
  · simp [h1]
  · by_cases h2 : a.fd = b.fd
    · simp [h2]
    · simp [h1, h2]

theorem find?_unique {α : Type} (p : α → Bool) (l : List α) (a : α) (ha : a ∈ l) (hp : p a = true)
    (hu : ∀ b ∈ l, p b = true → b = a) : l.find? p = some a := by
  induction l with
  | nil => cases ha
  | cons x l ih =>
    by_cases hx : p x = true
    · have := hu x (List.mem_cons_self _ _) hx
      subst this
      simp [List.find?, hx]
    · have hxa : a ≠ x := fun e => hx (e ▸ hp)
      have ha' : a ∈ l := by
        rcases List.mem_cons.1 ha with h | h
        · exact absurd h hxa
        · exact h
      simp only [List.find?, hx]
      exact ih ha' (fun b hb => hu b (List.mem_cons_of_mem _ hb))

theorem RB_FIND_wait_of_mem {mem : Ptr → nty_coroutine} {t : List (rb_node Int)}
    (hok : wait_tree_ok mem t) {fd : Int} {c : Ptr} (hc : ({ key := fd, elm := c } : rb_node Int) ∈ t)
    (probe : nty_coroutine) (hprobe : probe.fd = fd) :
    RB_FIND nty_coroutine_wait_cmp mem t probe = some c := by
  unfold RB_FIND
  rw [find?_unique _ t { key := fd, elm := c } hc]
  · rfl
  · rw [wait_cmp_eq_zero]
    have := hok.1 _ hc
    simp only at this
    simp [hprobe, ← this]
  · intro b hb hpb
    rw [wait_cmp_eq_zero, decide_eq_true_eq, hprobe, ← hok.1 b hb] at hpb
    exact key_injective_of_pairwise hok.2 hb hc hpb.symm

/-- C1 (as the code behaves): for every scheduler state in which coroutine `c` is
parked on descriptor `fd` with a timed wait (it is in the wait tree under `fd`,
it is in the sleep tree and has SLEEPING set), `nty_schedule_desched_wait(fd)`
returns `c` and removes it from the wait tree, but the sleep tree is left as it
was, so `c` is still in it, and the status of `c` is 0: READY is not set.
`nty_schedule_search_wait` has reset the status before
`nty_schedule_desched_sleepdown` tests SLEEPING. -/
theorem desched_wait_keeps_sleep_entry (s : nty_schedule) (fd : Int) (c : Ptr)
    (hw : wait_tree_ok s.mem s.waiting)
    (hc : ({ key := fd, elm := c } : rb_node Int) ∈ s.waiting)
    (hs : c ∈ rb_elms s.sleeping)
    (_hst : tst (s.mem c).status NTY_COROUTINE_STATUS_SLEEPING = true) :
    (nty_schedule_desched_wait s fd).1 = some c ∧
    c ∉ rb_elms (nty_schedule_desched_wait s fd).2.waiting ∧
    (nty_schedule_desched_wait s fd).2.sleeping = s.sleeping ∧
    c ∈ rb_elms (nty_schedule_desched_wait s fd).2.sleeping ∧
    ((nty_schedule_desched_wait s fd).2.mem c).status = 0 ∧
    tst ((nty_schedule_desched_wait s fd).2.mem c).status NTY_COROUTINE_STATUS_READY = false := by
  have hfind := RB_FIND_wait_of_mem hw hc { nty_coroutine.zero with fd := fd } rfl
  have hres : nty_schedule_desched_wait s fd =
      (some c, { s with
        waiting := RB_REMOVE s.waiting c
        mem := Function.update s.mem c { s.mem c with status := 0 } }) := by
    unfold nty_schedule_desched_wait nty_schedule_search_wait
    simp only [hfind]
    unfold nty_schedule_desched_sleepdown
    simp [nty_schedule.upd, tst_zero]
  rw [hres]
  refine ⟨rfl, not_mem_rb_elms_RB_REMOVE _ _, rfl, hs, ?_, ?_⟩
  · simp
  · simp [tst_zero]

/-- The failing input of C1: in `timed_wait_state` coroutine 1 is parked on
descriptor 7 with a timed wait, and after `nty_schedule_desched_wait(7)` it is
still in the sleep tree with status 0. -/
theorem desched_wait_keeps_sleep_entry_witness :
    (wait_tree_ok timed_wait_state.mem timed_wait_state.waiting ∧
      ({ key := 7, elm := 1 } : rb_node Int) ∈ timed_wait_state.waiting ∧
      1 ∈ rb_elms timed_wait_state.sleeping ∧
      tst (timed_wait_state.mem 1).status NTY_COROUTINE_STATUS_SLEEPING = true) ∧
    ((nty_schedule_desched_wait timed_wait_state 7).1 = some 1 ∧
      1 ∉ rb_elms (nty_schedule_desched_wait timed_wait_state 7).2.waiting ∧
      (nty_schedule_desched_wait timed_wait_state 7).2.sleeping = timed_wait_state.sleeping ∧
      1 ∈ rb_elms (nty_schedule_desched_wait timed_wait_state 7).2.sleeping ∧
      ((nty_schedule_desched_wait timed_wait_state 7).2.mem 1).status = 0 ∧
      tst ((nty_schedule_desched_wait timed_wait_state 7).2.mem 1).status
        NTY_COROUTINE_STATUS_READY = false) :=
  ⟨by decide, desched_wait_keeps_sleep_entry timed_wait_state 7 1 (by decide) (by decide)
    (by decide) (by decide)⟩

theorem sleep_insert_loop_shape (fuel : Nat) : ∀ (s : nty_schedule) (co : Ptr),
    ∃ t k st, sleep_insert_loop fuel s co
      = { s with
          sleeping := t
          mem := Function.update s.mem co { s.mem co with sleep_usecs := k, status := st } } := by
  induction fuel with
  | zero =>
    intro s co
    exact ⟨s.sleeping, (s.mem co).sleep_usecs, (s.mem co).status, by simp [sleep_insert_loop]⟩
  | succ fuel ih =>
    intro s co
    unfold sleep_insert_loop RB_INSERT
    cases RB_FIND nty_coroutine_sleep_cmp s.mem s.sleeping (s.mem co) with
    | none =>
      exact ⟨rb_link nty_coroutine_sleep_cmp s.mem s.sleeping ⟨(s.mem co).sleep_usecs, co⟩,
        (s.mem co).sleep_usecs, (s.mem co).status ||| BIT NTY_COROUTINE_STATUS_SLEEPING,
        by simp [nty_schedule.upd]⟩
    | some tmp =>
      obtain ⟨t, k, st, h⟩ :=
        ih (s.upd co (fun c => { c with sleep_usecs := (c.sleep_usecs + 1) % U64 })) co
      refine ⟨t, k, st, ?_⟩
      simp only []
      rw [h]
      simp [nty_schedule.upd]

theorem nty_schedule_sched_sleepdown_shape (s : nty_schedule) (co : Ptr) (msecs now : Nat) :
    ∃ t k st, nty_schedule_sched_sleepdown s co msecs now
      = { s with
          sleeping := t
          mem := Function.update s.mem co
            { s.mem co with sleep_usecs := k, status := st, ops := 0 } } := by
  unfold nty_schedule_sched_sleepdown
  simp only []
  generalize hs1 : (match RB_FIND nty_coroutine_sleep_cmp s.mem s.sleeping (s.mem co) with
    | some co_tmp => ({ s with sleeping := RB_REMOVE s.sleeping co_tmp } : nty_schedule)
    | none => s) = s1
  have h1 : ∃ t, s1 = { s with sleeping := t } := by
    rw [← hs1]; split
    · exact ⟨_, rfl⟩
    · exact ⟨s.sleeping, rfl⟩
  obtain ⟨t1, rfl⟩ := h1
  by_cases hm : msecs = 0
  · refine ⟨t1, (nty_coroutine_diff_usecs s.birth now + msecs * 1000 % U64) % U64,
      (s.mem co).status, ?_⟩
    simp [hm, nty_coroutine_yield, nty_schedule.upd]
  · simp only [hm, ne_eq, not_false_eq_true, ↓reduceIte]
    generalize hs2 : (({ s with sleeping := t1 } : nty_schedule).upd co fun c =>
        { c with sleep_usecs := (nty_coroutine_diff_usecs
          ({ s with sleeping := t1 } : nty_schedule).birth now + msecs * 1000 % U64) % U64 }) = s2
    obtain ⟨t, k, st, h⟩ := sleep_insert_loop_shape (s2.sleeping.length + 1) s2 co
    refine ⟨t, k, st, ?_⟩
    rw [h, ← hs2]
    simp [nty_coroutine_yield, nty_schedule.upd]

theorem nty_schedule_sched_wait_shape (s : nty_schedule) (co : Ptr) (fd : Int) (events timeout now : Nat)
    (s' : nty_schedule) (h : nty_schedule_sched_wait s co fd events timeout now = some s') :
    ∃ t w k st o, s' =
      { s with
        sleeping := t
        waiting := w
        mem := Function.update s.mem co
          { s.mem co with sleep_usecs := k, status := st, ops := o, fd := fd, events := events } } := by
  unfold nty_schedule_sched_wait at h
  split at h
  · cases h
  · simp only [] at h
    split at h
    · cases h
    · rename_i b _
      split at h
      · cases h
      · rename_i t _
        split at h
        · cases h
          exact ⟨s.sleeping, t, (s.mem co).sleep_usecs, (s.mem co).status ||| BIT b, (s.mem co).ops,
            by simp [nty_schedule.upd]⟩
        · cases h
          generalize hs4 : ({ ((s.upd co fun c => { c with status := c.status ||| BIT b }).upd co
              fun c => { c with fd := fd }).upd co fun c => { c with events := events }
              with waiting := t } : nty_schedule) = s4
          obtain ⟨t', k, st, hh⟩ := nty_schedule_sched_sleepdown_shape s4 co timeout now
          refine ⟨t', t, k, st, 0, ?_⟩
          rw [hh, ← hs4]
          simp [nty_schedule.upd]

theorem run_frame_refl (co : Ptr) (s : nty_schedule) : run_frame co s s :=
  ⟨rfl, List.prefix_refl _, fun _ _ h => h⟩

theorem run_frame_trans {co : Ptr} {s s1 s2 : nty_schedule} (h1 : run_frame co s s1)
    (h2 : run_frame co s1 s2) : run_frame co s s2 :=
  ⟨h2.1.trans h1.1, h1.2.1.trans h2.2.1, fun p hp h => h1.2.2 p hp (h2.2.2 p hp h)⟩

theorem run_frame_upd (co : Ptr) (s : nty_schedule) (f : nty_coroutine → nty_coroutine) :
    run_frame co s (s.upd co f) := by
  refine ⟨rfl, List.prefix_refl _, fun p hp h => ?_⟩
  simpa [nty_schedule.upd, Function.update, hp] using h

theorem run_frame_of_shape (co : Ptr) (s : nty_schedule) (t : List (rb_node Nat))
    (w : List (rb_node Int)) (c : nty_coroutine) :
    run_frame co s { s with sleeping := t, waiting := w, mem := Function.update s.mem co c } := by
  refine ⟨rfl, List.prefix_refl _, fun p hp h => ?_⟩
  simpa [Function.update, hp] using h

theorem run_frame_sched_sleepdown (co : Ptr) (s : nty_schedule) (msecs now : Nat) :
    run_frame co s (nty_schedule_sched_sleepdown s co msecs now) := by
  obtain ⟨t, k, st, h⟩ := nty_schedule_sched_sleepdown_shape s co msecs now
  rw [h]
  exact run_frame_of_shape co s t s.waiting _

theorem run_frame_sched_wait (co : Ptr) (s s' : nty_schedule) (fd : Int) (events timeout now : Nat)
    (h : nty_schedule_sched_wait s co fd events timeout now = some s') : run_frame co s s' := by
  obtain ⟨t, w, k, st, o, rfl⟩ := nty_schedule_sched_wait_shape s co fd events timeout now s' h
  exact run_frame_of_shape co s t w _

theorem run_frame_push_ready (co p : Ptr) (s : nty_schedule) :
    run_frame co s { s with ready := s.ready ++ [p] } :=
  ⟨rfl, List.prefix_append _ _, fun _ _ h => h⟩

theorem run_frame_sleep (co : Ptr) (s : nty_schedule) (msecs now : Nat) :
    run_frame co s (nty_coroutine_sleep s co msecs now) := by
  unfold nty_coroutine_sleep
  split
  · exact run_frame_trans (run_frame_push_ready co co s) (run_frame_upd co _ _)
  · exact run_frame_sched_sleepdown co s msecs now

theorem nty_schedule_search_wait_cases (s : nty_schedule) (fd : Int) :
    nty_schedule_search_wait s fd = (none, s) ∨
    ∃ q, nty_schedule_search_wait s fd = (some q, s.upd q (fun c => { c with status := 0 })) := by
  unfold nty_schedule_search_wait
  simp only []
  split
  · exact Or.inl rfl
  · exact Or.inr ⟨_, rfl⟩

theorem run_frame_status_zero (co q : Ptr) (s : nty_schedule) :
    run_frame co s (s.upd q (fun c => { c with status := 0 })) := by
  refine ⟨rfl, List.prefix_refl _, fun p _ h => ?_⟩
  by_cases hq : p = q
  · subst hq
    simp [nty_schedule.upd, tst_zero] at h
  · simpa [nty_schedule.upd, Function.update, hq] using h

theorem run_frame_search_wait (co : Ptr) (s : nty_schedule) (fd : Int) :
    run_frame co s (nty_schedule_search_wait s fd).2 := by
  rcases nty_schedule_search_wait_cases s fd with h | ⟨q, h⟩
  · rw [h]; exact run_frame_refl co s
  · rw [h]; exact run_frame_status_zero co q s

theorem nty_schedule_desched_wait_cases (s : nty_schedule) (fd : Int) :
    nty_schedule_desched_wait s fd = (none, s) ∨
    ∃ q, nty_schedule_desched_wait s fd =
      (some q, { s with
        waiting := RB_REMOVE s.waiting q
        mem := Function.update s.mem q { s.mem q with status := 0 } }) := by
  unfold nty_schedule_desched_wait
  rcases nty_schedule_search_wait_cases s fd with h | ⟨q, h⟩
  · rw [h]; exact Or.inl rfl
  · rw [h]
    refine Or.inr ⟨q, ?_⟩
    unfold nty_schedule_desched_sleepdown
    simp [nty_schedule.upd, tst_zero]

theorem run_frame_desched_wait (co : Ptr) (s : nty_schedule) (fd : Int) :
    run_frame co s (nty_schedule_desched_wait s fd).2 := by
  rcases nty_schedule_desched_wait_cases s fd with h | ⟨q, h⟩
  · rw [h]; exact run_frame_refl co s
  · rw [h]
    refine ⟨rfl, List.prefix_refl _, fun p _ h => ?_⟩
    by_cases hq : p = q
    · subst hq
      simp [tst_zero] at h
    · simpa [Function.update, hq] using h

theorem run_frame_cancel_wait (co : Ptr) (s : nty_schedule) :
    run_frame co s (nty_schedule_cancel_wait s co) :=
  ⟨rfl, List.prefix_refl _, fun _ _ h => h⟩

theorem nty_coroutine_create_eq (s : nty_schedule) (func : List Call) :
    nty_coroutine_create s func =
      (s.brk, { s with
        brk := s.brk + 1
        spawned_coroutines := s.spawned_coroutines + 1
        ready := s.ready ++ [s.brk]
        mem := Function.update s.mem s.brk
          { nty_coroutine.zero with
            status := BIT NTY_COROUTINE_STATUS_NEW
            id := (s.spawned_coroutines % (U64 : Int)).toNat
            func := func
            fd := -1
            events := 0 } }) := by
  simp [nty_coroutine_create, nty_schedule.upd, nty_coroutine.zero]

theorem run_frame_create (co : Ptr) (s : nty_schedule) (func : List Call) :
    run_frame co s (nty_coroutine_create s func).2 := by
  rw [nty_coroutine_create_eq]
  refine ⟨rfl, List.prefix_append _ _, fun p _ h => ?_⟩
  by_cases hq : p = s.brk
  · subst hq
    simp only [Function.update_same] at h
    have hne : tst (BIT NTY_COROUTINE_STATUS_NEW) NTY_COROUTINE_STATUS_FDEOF = false := by decide
    rw [hne] at h
    cases h
  · simpa [Function.update, hq] using h

theorem run_frame_renice (co : Ptr) (s : nty_schedule) :
    run_frame co s (nty_coroutine_renice s co).1 := by
  unfold nty_coroutine_renice
  simp only []
  split
  · exact run_frame_upd co s _
  · exact run_frame_trans (run_frame_upd co s _)
      (run_frame_trans (run_frame_push_ready co co _) (run_frame_upd co _ _))

theorem swapcontext_frame (calls : List Call) : ∀ (s s' : nty_schedule) (co : Ptr) (now : Nat),
    swapcontext calls s co now = some s' → run_frame co s s' := by
  induction calls with
  | nil =>
    intro s s' co now h
    simp only [swapcontext, Option.some.injEq] at h
    subst h
    exact run_frame_trans (run_frame_upd co s _)
      (run_frame_trans (run_frame_upd co _ _) (run_frame_upd co _ _))
  | cons c rest ih =>
    intro s s' co now h
    cases c with
    | sleep msecs =>
      simp only [swapcontext, Option.some.injEq] at h
      subst h
      exact run_frame_trans (run_frame_upd co s _) (run_frame_sleep co _ msecs now)
    | detach =>
      simp only [swapcontext] at h
      exact run_frame_trans (run_frame_upd co s _) (ih _ _ _ _ h)
    | renice =>
      simp only [swapcontext] at h
      have hr := run_frame_renice co s
      split at h
      · rename_i s1 heq
        simp only [Option.some.injEq] at h
        subst h
        rw [heq] at hr
        exact run_frame_trans hr (run_frame_upd co _ _)
      · rename_i s1 heq
        rw [heq] at hr
        exact run_frame_trans hr (ih _ _ _ _ h)
    | yield =>
      simp only [swapcontext, Option.some.injEq] at h
      subst h
      exact run_frame_trans (run_frame_upd co s _) (run_frame_upd co _ _)
    | sched_wait fd events timeout =>
      simp only [swapcontext] at h
      split at h
      · cases h
      · rename_i s1 heq
        have hw := run_frame_sched_wait co s s1 fd events timeout now heq
        split at h
        · exact run_frame_trans hw (ih _ _ _ _ h)
        · simp only [Option.some.injEq] at h
          subst h
          exact run_frame_trans hw (run_frame_upd co _ _)
    | desched_wait fd =>
      simp only [swapcontext] at h
      exact run_frame_trans (run_frame_desched_wait co s fd) (ih _ _ _ _ h)
    | search_wait fd =>
      simp only [swapcontext] at h
      exact run_frame_trans (run_frame_search_wait co s fd) (ih _ _ _ _ h)
    | cancel_wait =>
      simp only [swapcontext] at h
      exact run_frame_trans (run_frame_cancel_wait co s) (ih _ _ _ _ h)
    | create func =>
      simp only [swapcontext] at h
      exact run_frame_trans (run_frame_create co s func) (ih _ _ _ _ h)

theorem nty_coroutine_resume_frame (s s' : nty_schedule) (co : Ptr) (now : Nat)
    (h : nty_coroutine_resume s co now = some s') :
    (s'.log = s.log ++ [dispatch.resume co (s.mem co).status
        (decide (co ∈ rb_elms s.sleeping)) (decide (co ∈ rb_elms s.waiting))] ∨
      s'.log = s.log ++ [dispatch.resume co (s.mem co).status
        (decide (co ∈ rb_elms s.sleeping)) (decide (co ∈ rb_elms s.waiting)), dispatch.free co]) ∧
    s.ready <+: s'.ready ∧
    ∀ p, p ≠ co → tst (s'.mem p).status NTY_COROUTINE_STATUS_FDEOF = true →
      tst (s.mem p).status NTY_COROUTINE_STATUS_FDEOF = true := by
  unfold nty_coroutine_resume at h
  simp only [] at h
  generalize hs2 : ({ (if tst (s.mem co).status NTY_COROUTINE_STATUS_NEW = true then
      nty_coroutine_init { s with log := s.log ++ [dispatch.resume co (s.mem co).status
        (decide (co ∈ rb_elms s.sleeping)) (decide (co ∈ rb_elms s.waiting))] } co
    else { s with log := s.log ++ [dispatch.resume co (s.mem co).status
        (decide (co ∈ rb_elms s.sleeping)) (decide (co ∈ rb_elms s.waiting))] })
      with curr_thread := some co } : nty_schedule) = s2 at h
  have h2 : s2.log = s.log ++ [dispatch.resume co (s.mem co).status
        (decide (co ∈ rb_elms s.sleeping)) (decide (co ∈ rb_elms s.waiting))] ∧
      s2.ready = s.ready ∧ ∀ p, p ≠ co → s2.mem p = s.mem p := by
    rw [← hs2]
    split
    · refine ⟨rfl, rfl, fun p hp => ?_⟩
      simp [nty_coroutine_init, nty_schedule.upd, Function.update, hp]
    · exact ⟨rfl, rfl, fun p _ => rfl⟩
  split at h
  · cases h
  · rename_i s3 hsw
    have hf := swapcontext_frame _ _ _ _ _ hsw
    have hfree : ∀ x : nty_schedule,
        (nty_coroutine_free x (some co)).log = x.log ++ [dispatch.free co] ∧
        (nty_coroutine_free x (some co)).ready = x.ready ∧
        ∀ p, p ≠ co → (nty_coroutine_free x (some co)).mem p = x.mem p := by
      intro x
      unfold nty_coroutine_free
      simp only []
      split
      · exact ⟨rfl, rfl, fun _ _ => rfl⟩
      · refine ⟨rfl, rfl, fun p hp => ?_⟩
        simp [nty_schedule.upd, Function.update, hp]
    have hthen : ∀ p, p ≠ co → tst (s3.mem p).status NTY_COROUTINE_STATUS_FDEOF = true →
        tst (s.mem p).status NTY_COROUTINE_STATUS_FDEOF = true := by
      intro p hp hh
      have := hf.2.2 p hp hh
      rwa [h2.2.2 p hp] at this
    have hready : s.ready <+: s3.ready := by rw [← h2.2.1]; exact hf.2.1
    have hlog : s3.log = s.log ++ [dispatch.resume co (s.mem co).status
        (decide (co ∈ rb_elms s.sleeping)) (decide (co ∈ rb_elms s.waiting))] := by
      rw [hf.1, h2.1]
    split at h
    · split at h
      · simp only [Option.some.injEq] at h
        subst h
        obtain ⟨f1, f2, f3⟩ := hfree { s3 with curr_thread := none }
        refine ⟨Or.inr ?_, ?_, ?_⟩
        · rw [f1]; simp [hlog]
        · rw [f2]; exact hready
        · intro p hp hh
          rw [f3 p hp] at hh
          exact hthen p hp hh
      · simp only [Option.some.injEq] at h
        subst h
        exact ⟨Or.inl hlog, hready, hthen⟩
    · simp only [Option.some.injEq] at h
      subst h
      exact ⟨Or.inl hlog, hready, hthen⟩

theorem nty_coroutine_resume_log_grows (s s' : nty_schedule) (co : Ptr) (now : Nat)
    (h : nty_coroutine_resume s co now = some s') :
    (s.log ++ [dispatch.resume co (s.mem co).status
        (decide (co ∈ rb_elms s.sleeping)) (decide (co ∈ rb_elms s.waiting))]) <+: s'.log := by
  rcases (nty_coroutine_resume_frame s s' co now h).1 with h1 | h1
  · rw [h1]
  · rw [h1]
    exact ⟨[dispatch.free co], by simp⟩

theorem run_expired_log_grows (fuel : Nat) : ∀ (s s' : nty_schedule) (now : Nat),
    run_expired fuel s now = some s' → s.log <+: s'.log := by
  induction fuel with
  | zero =>
    intro s s' now h
    simp only [run_expired, Option.some.injEq] at h
    subst h; exact List.prefix_refl _
  | succ fuel ih =>
    intro s s' now h
    unfold run_expired at h
    unfold nty_schedule_expired at h
    simp only [] at h
    split at h
    · rename_i s1 heq
      simp only [Option.some.injEq] at h
      subst h
      split at heq
      · cases heq; exact List.prefix_refl _
      · split at heq
        · cases heq
        · cases heq; exact List.prefix_refl _
    · rename_i c s1 heq
      have hs1 : s1.log = s.log := by
        split at heq
        · cases heq
        · split at heq
          · cases heq; rfl
          · cases heq
      split at h
      · cases h
      · rename_i s2 hres
        have h1 := nty_coroutine_resume_log_grows _ _ _ _ hres
        have h2 := ih _ _ _ h
        rw [← hs1]
        exact ((List.prefix_append _ _).trans h1).trans h2

theorem nty_schedule_expired_pop (s : nty_schedule) (now : Nat) (n : rb_node Nat)
    (rest : List (rb_node Nat)) (hmin : s.sleeping = n :: rest)
    (hexp : (s.mem n.elm).sleep_usecs ≤ nty_coroutine_diff_usecs s.birth now) :
    nty_schedule_expired s now = (some n.elm, { s with sleeping := RB_REMOVE s.sleeping n.elm }) := by
  unfold nty_schedule_expired
  simp [RB_MIN, hmin, hexp]

/-- C2 (amended): in step 1 of the scheduler loop the coroutine popped from the
sleep tree as expired (the minimum `n` of the sleep tree, with
`sleep_usecs <= now - birth`) is passed to `nty_coroutine_resume` in the state
`nty_schedule_expired` returns: it is no longer in the sleep tree, and the wait
tree is exactly what it was before the pop, so a timed waiter whose timeout fires
is still in the wait tree at the moment it is resumed (the log entry of the call
records `sleeping = false` and `waiting = ` its membership before the pop). -/
theorem run_expired_keeps_wait_tree (fuel : Nat) (s : nty_schedule) (now : Nat) (n : rb_node Nat)
    (rest : List (rb_node Nat)) (hmin : s.sleeping = n :: rest)
    (hexp : (s.mem n.elm).sleep_usecs ≤ nty_coroutine_diff_usecs s.birth now) :
    (nty_schedule_expired s now).1 = some n.elm ∧
    n.elm ∉ rb_elms (nty_schedule_expired s now).2.sleeping ∧
    (nty_schedule_expired s now).2.waiting = s.waiting ∧
    run_expired (fuel + 1) s now =
      (nty_coroutine_resume (nty_schedule_expired s now).2 n.elm now).bind
        (fun s2 => run_expired fuel s2 now) ∧
    ∀ s', run_expired (fuel + 1) s now = some s' →
      (s.log ++ [dispatch.resume n.elm (s.mem n.elm).status false
        (decide (n.elm ∈ rb_elms s.waiting))]) <+: s'.log := by
  have hpop := nty_schedule_expired_pop s now n rest hmin hexp
  have hrun : run_expired (fuel + 1) s now =
      (nty_coroutine_resume (nty_schedule_expired s now).2 n.elm now).bind
        (fun s2 => run_expired fuel s2 now) := by
    rw [run_expired, hpop]
    simp only []
    cases nty_coroutine_resume { s with sleeping := RB_REMOVE s.sleeping n.elm } n.elm now <;> rfl
  refine ⟨by rw [hpop], ?_, by rw [hpop], hrun, ?_⟩
  · rw [hpop]; exact not_mem_rb_elms_RB_REMOVE _ _
  · intro s' hs'
    rw [hrun, hpop] at hs'
    simp only [Option.bind_eq_some] at hs'
    obtain ⟨s2, h2, h3⟩ := hs'
    have h1 := nty_coroutine_resume_log_grows _ _ _ _ h2
    have hnot : decide (n.elm ∈ rb_elms (RB_REMOVE s.sleeping n.elm)) = false := by
      simpa using not_mem_rb_elms_RB_REMOVE s.sleeping n.elm
    simp only [hnot] at h1
    exact h1.trans (run_expired_log_grows _ _ _ _ h3)

/-- An instance of `run_expired_keeps_wait_tree`: the timed waiter of
`timed_wait_state` at time 2000000, after its deadline 1000005. -/
theorem run_expired_keeps_wait_tree_witness :
    (timed_wait_state.sleeping = { key := 1000005, elm := 1 } :: [] ∧
      (timed_wait_state.mem 1).sleep_usecs ≤ nty_coroutine_diff_usecs timed_wait_state.birth 2000000) ∧
    ((nty_schedule_expired timed_wait_state 2000000).1 = some 1 ∧
      1 ∉ rb_elms (nty_schedule_expired timed_wait_state 2000000).2.sleeping ∧
      (nty_schedule_expired timed_wait_state 2000000).2.waiting = timed_wait_state.waiting ∧
      run_expired (0 + 1) timed_wait_state 2000000 =
        (nty_coroutine_resume (nty_schedule_expired timed_wait_state 2000000).2 1 2000000).bind
          (fun s2 => run_expired 0 s2 2000000) ∧
      ∀ s', run_expired (0 + 1) timed_wait_state 2000000 = some s' →
        (timed_wait_state.log ++ [dispatch.resume 1 (timed_wait_state.mem 1).status false
          (decide (1 ∈ rb_elms timed_wait_state.waiting))]) <+: s'.log) :=
  ⟨by decide, run_expired_keeps_wait_tree 0 timed_wait_state 2000000 { key := 1000005, elm := 1 } []
    (by decide) (by decide)⟩

/-- C2 fails as stated: in `timed_wait_state` coroutine 1 is in the sleep tree
and in the wait tree; at time 2000000 `nty_schedule_expired` pops it, and in the
state passed to `nty_coroutine_resume` it is still in the wait tree (the call is
logged with `waiting = true`). -/
theorem expired_waiter_resumed_in_wait_tree :
    1 ∈ rb_elms timed_wait_state.sleeping ∧ 1 ∈ rb_elms timed_wait_state.waiting ∧
    (nty_schedule_expired timed_wait_state 2000000).1 = some 1 ∧
    ¬ (1 ∉ rb_elms (nty_schedule_expired timed_wait_state 2000000).2.sleeping ∧
       1 ∉ rb_elms (nty_schedule_expired timed_wait_state 2000000).2.waiting) ∧
    (run_expired 1 timed_wait_state 2000000).map (fun s => s.log) =
      some (timed_wait_state.log ++ [dispatch.resume 1 42 false true, dispatch.free 1]) := by
  decide

/-- C3 (amended): the coroutine `nty_schedule_expired` returns when the deadline
of the sleep-tree minimum `n` is reached is resumed by step 1 of the scheduler
loop with exactly the status it had in the sleep tree: `nty_schedule_expired`
writes no coroutine object, so EXPIRED is set at the resume only if it was set
before and SLEEPING is not cleared; the log entry of the call carries the
unchanged status. -/
theorem run_expired_keeps_status (fuel : Nat) (s : nty_schedule) (now : Nat) (n : rb_node Nat)
    (rest : List (rb_node Nat)) (hmin : s.sleeping = n :: rest)
    (hexp : (s.mem n.elm).sleep_usecs ≤ nty_coroutine_diff_usecs s.birth now) :
    (nty_schedule_expired s now).1 = some n.elm ∧
    (nty_schedule_expired s now).2.mem = s.mem ∧
    tst ((nty_schedule_expired s now).2.mem n.elm).status NTY_COROUTINE_STATUS_EXPIRED
      = tst (s.mem n.elm).status NTY_COROUTINE_STATUS_EXPIRED ∧
    tst ((nty_schedule_expired s now).2.mem n.elm).status NTY_COROUTINE_STATUS_SLEEPING
      = tst (s.mem n.elm).status NTY_COROUTINE_STATUS_SLEEPING ∧
    ∀ s', run_expired (fuel + 1) s now = some s' →
      ∃ sl wt, (s.log ++ [dispatch.resume n.elm (s.mem n.elm).status sl wt]) <+: s'.log := by
  have hpop := nty_schedule_expired_pop s now n rest hmin hexp
  refine ⟨by rw [hpop], by rw [hpop], by rw [hpop], by rw [hpop], ?_⟩
  intro s' hs'
  rw [run_expired, hpop] at hs'
  simp only [] at hs'
  split at hs'
  · cases hs'
  · rename_i s2 h2
    exact ⟨_, _, (nty_coroutine_resume_log_grows _ _ _ _ h2).trans
      (run_expired_log_grows _ _ _ _ hs')⟩

/-- An instance of `run_expired_keeps_status`: the sleeper of `sleeping_state`
at time 200000, after its deadline 100005. -/
theorem run_expired_keeps_status_witness :
    (sleeping_state.sleeping = { key := 100005, elm := 1 } :: [] ∧
      (sleeping_state.mem 1).sleep_usecs ≤ nty_coroutine_diff_usecs sleeping_state.birth 200000) ∧
    ((nty_schedule_expired sleeping_state 200000).1 = some 1 ∧
      (nty_schedule_expired sleeping_state 200000).2.mem = sleeping_state.mem ∧
      tst ((nty_schedule_expired sleeping_state 200000).2.mem 1).status NTY_COROUTINE_STATUS_EXPIRED
        = tst (sleeping_state.mem 1).status NTY_COROUTINE_STATUS_EXPIRED ∧
      tst ((nty_schedule_expired sleeping_state 200000).2.mem 1).status NTY_COROUTINE_STATUS_SLEEPING
        = tst (sleeping_state.mem 1).status NTY_COROUTINE_STATUS_SLEEPING ∧
      ∀ s', run_expired (0 + 1) sleeping_state 200000 = some s' →
        ∃ sl wt, (sleeping_state.log ++
          [dispatch.resume 1 (sleeping_state.mem 1).status sl wt]) <+: s'.log) :=
  ⟨by decide, run_expired_keeps_status 0 sleeping_state 200000 { key := 100005, elm := 1 } []
    (by decide) (by decide)⟩

/-- C3 fails as stated: the coroutine of `sleeping_state` sleeps until 100005; at
time 200000 `nty_schedule_expired` returns it with SLEEPING still set and
EXPIRED clear, and `nty_coroutine_resume` is called on it with that status
(10 = READY | SLEEPING). -/
theorem expired_sleeper_resumed_without_EXPIRED :
    (sleeping_state.mem 1).sleep_usecs = 100005 ∧
    (nty_schedule_expired sleeping_state 200000).1 = some 1 ∧
    tst ((nty_schedule_expired sleeping_state 200000).2.mem 1).status
      NTY_COROUTINE_STATUS_EXPIRED = false ∧
    tst ((nty_schedule_expired sleeping_state 200000).2.mem 1).status
      NTY_COROUTINE_STATUS_SLEEPING = true ∧
    (run_expired 1 sleeping_state 200000).map (fun s => s.log) =
      some (sleeping_state.log ++ [dispatch.resume 1 10 false false, dispatch.free 1]) := by
  decide

theorem nty_schedule_sched_sleepdown_post (s : nty_schedule) (co : Ptr) (msecs now : Nat)
    (hms : 0 < msecs) (hok : sleep_tree_ok s.mem s.sleeping)
    (hno : nty_coroutine_diff_usecs s.birth now + msecs * 1000 + s.sleeping.length < U64) :
    ({ key := ((nty_schedule_sched_sleepdown s co msecs now).mem co).sleep_usecs, elm := co }
        : rb_node Nat) ∈ (nty_schedule_sched_sleepdown s co msecs now).sleeping ∧
    tst ((nty_schedule_sched_sleepdown s co msecs now).mem co).status
      NTY_COROUTINE_STATUS_SLEEPING = true ∧
    nty_coroutine_diff_usecs s.birth now + msecs * 1000
      ≤ ((nty_schedule_sched_sleepdown s co msecs now).mem co).sleep_usecs ∧
    (∀ n ∈ (nty_schedule_sched_sleepdown s co msecs now).sleeping, n.elm ≠ co →
      n.key ≠ ((nty_schedule_sched_sleepdown s co msecs now).mem co).sleep_usecs) ∧
    (∀ k, nty_coroutine_diff_usecs s.birth now + msecs * 1000 ≤ k →
      k < ((nty_schedule_sched_sleepdown s co msecs now).mem co).sleep_usecs →
      ∃ n ∈ (nty_schedule_sched_sleepdown s co msecs now).sleeping, n.elm ≠ co ∧ n.key = k) ∧
    sleep_tree_ok (nty_schedule_sched_sleepdown s co msecs now).mem
      (nty_schedule_sched_sleepdown s co msecs now).sleeping := by
  obtain ⟨k, hk1, hk2, hk3, heq⟩ :=
    nty_schedule_sched_sleepdown_spec s co msecs now hok (Nat.pos_iff_ne_zero.mp hms) hno
  have hsub := sleepdown_unlinked_sublist s co
  have hok1 := sleep_tree_ok_sublist hok hsub
  have hco1 : co ∉ rb_elms (sleepdown_unlinked s co) := sleepdown_unlinked_not_mem_of_ok hok
  have hne : ∀ n ∈ sleepdown_unlinked s co, n.elm ≠ co :=
    fun n hn e => hco1 ((mem_rb_elms _ _).2 ⟨n, hn, e⟩)
  rw [heq]
  simp only [Function.update_same]
  refine ⟨?_, ?_, hk1, ?_, ?_, ?_, ?_⟩
  · exact (mem_key_link _ _ _).2 (Or.inl rfl)
  · simp [tst_or_BIT]
  · intro n hn hnco
    rcases (mem_key_link _ _ _).1 hn with rfl | hn'
    · exact absurd rfl hnco
    · exact hk3 n hn'
  · intro j hj1 hj2
    obtain ⟨n, hn, hkey⟩ := hk2 j hj1 hj2
    exact ⟨n, (mem_key_link _ _ _).2 (Or.inr hn), hne n hn, hkey⟩
  · intro n hn
    rcases (mem_key_link _ _ _).1 hn with rfl | hn'
    · simp
    · have := hne n hn'
      simp only [Function.update, this, dite_false]
      exact hok1.1 n hn'
  · exact key_link_sorted _ _ hok1.2 hk3

/-- C4 (amended): for every `msecs > 0` and every coroutine `co` that is not in the
sleep tree, when the deadline arithmetic does not wrap around in `uint64_t`
(`(now - birth) + msecs * 1000` plus the number of entries is below `2 ^ 64`),
after `nty_schedule_sched_sleepdown(co, msecs)` the coroutine is in the sleep
tree under the key `co.sleep_usecs` with SLEEPING set, that key is the smallest
value `k >= (now - birth) + msecs * 1000` that is not the key of another entry,
and the sleep-tree invariant holds again: keys pairwise distinct (strictly
increasing) and every entry's key equal to its coroutine's `sleep_usecs`. -/
theorem sched_sleepdown_inserts (s : nty_schedule) (co : Ptr) (msecs now : Nat)
    (hms : 0 < msecs) (hok : sleep_tree_ok s.mem s.sleeping) (hco : co ∉ rb_elms s.sleeping)
    (hno : nty_coroutine_diff_usecs s.birth now + msecs * 1000 + s.sleeping.length < U64) :
    ({ key := ((nty_schedule_sched_sleepdown s co msecs now).mem co).sleep_usecs, elm := co }
        : rb_node Nat) ∈ (nty_schedule_sched_sleepdown s co msecs now).sleeping ∧
    tst ((nty_schedule_sched_sleepdown s co msecs now).mem co).status
      NTY_COROUTINE_STATUS_SLEEPING = true ∧
    nty_coroutine_diff_usecs s.birth now + msecs * 1000
      ≤ ((nty_schedule_sched_sleepdown s co msecs now).mem co).sleep_usecs ∧
    (∀ n ∈ (nty_schedule_sched_sleepdown s co msecs now).sleeping, n.elm ≠ co →
      n.key ≠ ((nty_schedule_sched_sleepdown s co msecs now).mem co).sleep_usecs) ∧
    (∀ k, nty_coroutine_diff_usecs s.birth now + msecs * 1000 ≤ k →
      k < ((nty_schedule_sched_sleepdown s co msecs now).mem co).sleep_usecs →
      ∃ n ∈ (nty_schedule_sched_sleepdown s co msecs now).sleeping, n.elm ≠ co ∧ n.key = k) ∧
    sleep_tree_ok (nty_schedule_sched_sleepdown s co msecs now).mem
      (nty_schedule_sched_sleepdown s co msecs now).sleeping :=
  nty_schedule_sched_sleepdown_post s co msecs now hms hok hno

/-- An instance of `sched_sleepdown_inserts`: coroutine 1 of
`one_coroutine_state` sleeping 100 ms at time 5. -/
theorem sched_sleepdown_inserts_witness :
    (0 < 100 ∧ sleep_tree_ok one_coroutine_state.mem one_coroutine_state.sleeping ∧
      1 ∉ rb_elms one_coroutine_state.sleeping ∧
      nty_coroutine_diff_usecs one_coroutine_state.birth 5 + 100 * 1000
        + one_coroutine_state.sleeping.length < U64) ∧
    (({ key := ((nty_schedule_sched_sleepdown one_coroutine_state 1 100 5).mem 1).sleep_usecs,
        elm := 1 } : rb_node Nat) ∈ (nty_schedule_sched_sleepdown one_coroutine_state 1 100 5).sleeping ∧
    tst ((nty_schedule_sched_sleepdown one_coroutine_state 1 100 5).mem 1).status
      NTY_COROUTINE_STATUS_SLEEPING = true ∧
    nty_coroutine_diff_usecs one_coroutine_state.birth 5 + 100 * 1000
      ≤ ((nty_schedule_sched_sleepdown one_coroutine_state 1 100 5).mem 1).sleep_usecs ∧
    (∀ n ∈ (nty_schedule_sched_sleepdown one_coroutine_state 1 100 5).sleeping, n.elm ≠ 1 →
      n.key ≠ ((nty_schedule_sched_sleepdown one_coroutine_state 1 100 5).mem 1).sleep_usecs) ∧
    (∀ k, nty_coroutine_diff_usecs one_coroutine_state.birth 5 + 100 * 1000 ≤ k →
      k < ((nty_schedule_sched_sleepdown one_coroutine_state 1 100 5).mem 1).sleep_usecs →
      ∃ n ∈ (nty_schedule_sched_sleepdown one_coroutine_state 1 100 5).sleeping,
        n.elm ≠ 1 ∧ n.key = k) ∧
    sleep_tree_ok (nty_schedule_sched_sleepdown one_coroutine_state 1 100 5).mem
      (nty_schedule_sched_sleepdown one_coroutine_state 1 100 5).sleeping) :=
  ⟨by decide, sched_sleepdown_inserts one_coroutine_state 1 100 5 (by decide) (by decide)
    (by decide) (by decide)⟩

/-- C4 fails as stated: `msecs = 18446744073709552` is a `uint64_t` value greater
than 0 for which `msecs * 1000u` wraps around to 384; at time 1000 coroutine 1 of
`one_coroutine_state` (not in the sleep tree) gets the key 1384, which is below
`(now - birth) + msecs * 1000`. -/
theorem sched_sleepdown_deadline_wraps :
    0 < 18446744073709552 ∧ 18446744073709552 < U64 ∧
    sleep_tree_ok one_coroutine_state.mem one_coroutine_state.sleeping ∧
    1 ∉ rb_elms one_coroutine_state.sleeping ∧
    ((nty_schedule_sched_sleepdown one_coroutine_state 1 18446744073709552 1000).mem 1).sleep_usecs
      = 1384 ∧
    ¬ (nty_coroutine_diff_usecs one_coroutine_state.birth 1000 + 18446744073709552 * 1000
        ≤ ((nty_schedule_sched_sleepdown one_coroutine_state 1 18446744073709552 1000).mem
            1).sleep_usecs) := by
  decide

theorem RB_FIND_wait_none {mem : Ptr → nty_coroutine} {t : List (rb_node Int)} {c : nty_coroutine} :
    RB_FIND nty_coroutine_wait_cmp mem t c = none ↔ ∀ n ∈ t, (mem n.elm).fd ≠ c.fd := by
  unfold RB_FIND
  simp only [Option.map_eq_none', List.find?_eq_none, wait_cmp_eq_zero, decide_eq_true_eq]
  constructor
  · intro h n hn e; exact h n hn e.symm
  · intro h n hn e; exact h n hn e.symm

/-- The state `nty_schedule_sched_wait` reaches before it looks at `timeout`,
when no `assert` fails: the coroutine has its WAIT bit, `fd` and `events`
written and is linked into the wait tree. -/
theorem nty_schedule_sched_wait_eq (s : nty_schedule) (co : Ptr) (fd : Int)
    (events timeout now : Nat)
    (hst : tst (s.mem co).status NTY_COROUTINE_STATUS_WAIT_READ = false ∧
      tst (s.mem co).status NTY_COROUTINE_STATUS_WAIT_WRITE = false)
    (hev : events &&& POLLIN ≠ 0 ∨ events &&& POLLOUT ≠ 0)
    (hw : wait_tree_ok s.mem s.waiting) (hco : co ∉ rb_elms s.waiting)
    (hfd : ∀ n ∈ s.waiting, n.key ≠ fd) :
    ∃ b w, (b = NTY_COROUTINE_STATUS_WAIT_READ ∨ b = NTY_COROUTINE_STATUS_WAIT_WRITE) ∧
      ({ key := fd, elm := co } : rb_node Int) ∈ w ∧
      nty_schedule_sched_wait s co fd events timeout now =
        (if timeout = NO_TIMEOUT then
          some { s with
            waiting := w
            mem := Function.update s.mem co
              { s.mem co with status := (s.mem co).status ||| BIT b, fd := fd, events := events } }
        else
          some (nty_schedule_sched_sleepdown
            { s with
              waiting := w
              mem := Function.update s.mem co
                { s.mem co with status := (s.mem co).status ||| BIT b, fd := fd, events := events } }
            co timeout now)) := by
  unfold nty_schedule_sched_wait
  simp only [hst.1, hst.2, Bool.or_self, Bool.false_eq_true, ↓reduceIte]
  have hbit : ∃ b, (b = NTY_COROUTINE_STATUS_WAIT_READ ∨ b = NTY_COROUTINE_STATUS_WAIT_WRITE) ∧ (if (events &&& POLLIN != 0) = true then some NTY_COROUTINE_STATUS_WAIT_READ
      else if (events &&& POLLOUT != 0) = true then some NTY_COROUTINE_STATUS_WAIT_WRITE
      else none) = some b := by
    by_cases h1 : events &&& POLLIN = 0
    · have h2 : events &&& POLLOUT ≠ 0 := by
        rcases hev with h | h
        · exact absurd h1 h
        · exact h
      exact ⟨NTY_COROUTINE_STATUS_WAIT_WRITE, Or.inr rfl, by simp [h1, h2]⟩
    · exact ⟨NTY_COROUTINE_STATUS_WAIT_READ, Or.inl rfl, by simp [h1]⟩
  obtain ⟨b, hb01, hb⟩ := hbit
  rw [hb]
  simp only [nty_schedule.upd, Function.update_same, Function.update_idem]
  have hnone : RB_FIND nty_coroutine_wait_cmp
      (Function.update s.mem co
        { s.mem co with status := (s.mem co).status ||| BIT b, fd := fd, events := events })
      s.waiting { s.mem co with status := (s.mem co).status ||| BIT b, fd := fd, events := events }
      = none := by
    rw [RB_FIND_wait_none]
    intro n hn
    have hne : n.elm ≠ co := fun e => hco ((mem_rb_elms _ _).2 ⟨n, hn, e⟩)
    simp only [Function.update, hne, dite_false]
    rw [← hw.1 n hn]
    exact hfd n hn
  unfold RB_INSERT
  simp only [Function.update_same, hnone]
  exact ⟨b, _, hb01, (mem_rb_link _ _ _ _ _).2 (Or.inl rfl), rfl⟩

theorem nty_schedule_sched_sleepdown_zero (s : nty_schedule) (co : Ptr) (now : Nat) :
    nty_schedule_sched_sleepdown s co 0 now =
      { s with
        sleeping := sleepdown_unlinked s co
        mem := Function.update s.mem co
          { s.mem co with
            sleep_usecs := nty_coroutine_diff_usecs s.birth now % U64
            ops := 0 } } := by
  unfold nty_schedule_sched_sleepdown sleepdown_unlinked
  split <;> simp [nty_coroutine_yield, nty_schedule.upd]

theorem nty_schedule_sched_wait_post (s : nty_schedule) (co : Ptr) (fd : Int) (events timeout now : Nat)
    (hst : tst (s.mem co).status NTY_COROUTINE_STATUS_WAIT_READ = false ∧
      tst (s.mem co).status NTY_COROUTINE_STATUS_WAIT_WRITE = false)
    (hev : events &&& POLLIN ≠ 0 ∨ events &&& POLLOUT ≠ 0)
    (hw : wait_tree_ok s.mem s.waiting) (hcow : co ∉ rb_elms s.waiting)
    (hfd : ∀ n ∈ s.waiting, n.key ≠ fd)
    (hok : sleep_tree_ok s.mem s.sleeping)
    (hto : timeout ≠ NO_TIMEOUT) :
    ∃ s', nty_schedule_sched_wait s co fd events timeout now = some s' ∧
      ({ key := fd, elm := co } : rb_node Int) ∈ s'.waiting ∧ (s'.mem co).fd = fd ∧
      (timeout = 0 → co ∉ rb_elms s'.sleeping ∧
        tst (s'.mem co).status NTY_COROUTINE_STATUS_SLEEPING
          = tst (s.mem co).status NTY_COROUTINE_STATUS_SLEEPING) ∧
      (0 < timeout →
        nty_coroutine_diff_usecs s.birth now + timeout * 1000 + s.sleeping.length < U64 →
        ({ key := (s'.mem co).sleep_usecs, elm := co } : rb_node Nat) ∈ s'.sleeping ∧
        tst (s'.mem co).status NTY_COROUTINE_STATUS_SLEEPING = true ∧
        nty_coroutine_diff_usecs s.birth now + timeout * 1000 ≤ (s'.mem co).sleep_usecs ∧
        (∀ n ∈ s'.sleeping, n.elm ≠ co → n.key ≠ (s'.mem co).sleep_usecs) ∧
        (∀ k, nty_coroutine_diff_usecs s.birth now + timeout * 1000 ≤ k →
          k < (s'.mem co).sleep_usecs → ∃ n ∈ s'.sleeping, n.elm ≠ co ∧ n.key = k)) := by
  obtain ⟨b, w, hb, hmem, heq⟩ :=
    nty_schedule_sched_wait_eq s co fd events timeout now hst hev hw hcow hfd
  rw [if_neg hto] at heq
  generalize hs4 : ({ s with
      waiting := w
      mem := Function.update s.mem co
        { s.mem co with status := (s.mem co).status ||| BIT b, fd := fd, events := events } }
      : nty_schedule) = s4 at heq
  have h4s : s4.sleeping = s.sleeping := by rw [← hs4]
  have h4b : s4.birth = s.birth := by rw [← hs4]
  have h4w : s4.waiting = w := by rw [← hs4]
  have h4fd : (s4.mem co).fd = fd := by rw [← hs4]; simp
  have h4st : (s4.mem co).status = (s.mem co).status ||| BIT b := by rw [← hs4]; simp
  have hok4 : sleep_tree_ok s4.mem s4.sleeping := by
    rw [← hs4]
    refine sleep_tree_ok_congr (fun n _ => ?_) hok
    by_cases e : n.elm = co
    · rw [e]; simp
    · simp [Function.update, e]
  refine ⟨_, heq, ?_, ?_, ?_, ?_⟩
  · obtain ⟨t, k, st, h⟩ := nty_schedule_sched_sleepdown_shape s4 co timeout now
    rw [h]; simpa [h4w] using hmem
  · obtain ⟨t, k, st, h⟩ := nty_schedule_sched_sleepdown_shape s4 co timeout now
    rw [h]; simpa using h4fd
  · intro h0
    subst h0
    rw [nty_schedule_sched_sleepdown_zero]
    refine ⟨sleepdown_unlinked_not_mem_of_ok hok4, ?_⟩
    simp only [Function.update_same, h4st, tst_or_BIT]
    rcases hb with rfl | rfl <;>
      simp [NTY_COROUTINE_STATUS_WAIT_READ, NTY_COROUTINE_STATUS_WAIT_WRITE,
        NTY_COROUTINE_STATUS_SLEEPING]
  · intro hpos hno
    have := nty_schedule_sched_sleepdown_post s4 co timeout now hpos hok4 (by rw [h4b, h4s]; exact hno)
    rw [h4b] at this
    exact ⟨this.1, this.2.1, this.2.2.1, this.2.2.2.1, this.2.2.2.2.1⟩

/-- C5 (amended): when no `assert` of `nty_schedule_sched_wait` fails (the
coroutine has neither WAIT bit, `events` has POLLIN or POLLOUT, no waiter is
registered on `fd`), whether or not `co` is still in the sleep tree, for every
`timeout` different from `NO_TIMEOUT` the call returns and puts `co` in the wait
tree under `fd`.  If `timeout > 0` and the deadline arithmetic does not wrap
around, `co` is additionally in the sleep tree with SLEEPING set, under the
smallest key `>= (now - birth) + timeout * 1000` (microseconds) that no other
entry has.  If `timeout = 0` the loop `while (msecs)` is not entered: after the
call `co` is not in the sleep tree and its SLEEPING bit is as it was before
the call. -/
theorem sched_wait_timeout (s : nty_schedule) (co : Ptr) (fd : Int) (events timeout now : Nat)
    (hst : tst (s.mem co).status NTY_COROUTINE_STATUS_WAIT_READ = false ∧
      tst (s.mem co).status NTY_COROUTINE_STATUS_WAIT_WRITE = false)
    (hev : events &&& POLLIN ≠ 0 ∨ events &&& POLLOUT ≠ 0)
    (hw : wait_tree_ok s.mem s.waiting) (hcow : co ∉ rb_elms s.waiting)
    (hfd : ∀ n ∈ s.waiting, n.key ≠ fd)
    (hok : sleep_tree_ok s.mem s.sleeping)
    (hto : timeout ≠ NO_TIMEOUT) :
    ∃ s', nty_schedule_sched_wait s co fd events timeout now = some s' ∧
      ({ key := fd, elm := co } : rb_node Int) ∈ s'.waiting ∧ (s'.mem co).fd = fd ∧
      (timeout = 0 → co ∉ rb_elms s'.sleeping ∧
        tst (s'.mem co).status NTY_COROUTINE_STATUS_SLEEPING
          = tst (s.mem co).status NTY_COROUTINE_STATUS_SLEEPING) ∧
      (0 < timeout →
        nty_coroutine_diff_usecs s.birth now + timeout * 1000 + s.sleeping.length < U64 →
        ({ key := (s'.mem co).sleep_usecs, elm := co } : rb_node Nat) ∈ s'.sleeping ∧
        tst (s'.mem co).status NTY_COROUTINE_STATUS_SLEEPING = true ∧
        nty_coroutine_diff_usecs s.birth now + timeout * 1000 ≤ (s'.mem co).sleep_usecs ∧
        (∀ n ∈ s'.sleeping, n.elm ≠ co → n.key ≠ (s'.mem co).sleep_usecs) ∧
        (∀ k, nty_coroutine_diff_usecs s.birth now + timeout * 1000 ≤ k →
          k < (s'.mem co).sleep_usecs → ∃ n ∈ s'.sleeping, n.elm ≠ co ∧ n.key = k)) :=
  nty_schedule_sched_wait_post s co fd events timeout now hst hev hw hcow hfd hok hto

/-- An instance of `sched_wait_timeout` in which the coroutine is still in the
sleep tree: coroutine 1 of `timed_wait_state` has been taken out of the wait tree
by `nty_schedule_desched_wait(7)`, which left its entry in the sleep tree; at
time 10 it parks again on descriptor 7 with a timeout of 1000 ms. -/
theorem sched_wait_timeout_witness :
    ((tst ((nty_schedule_desched_wait timed_wait_state 7).2.mem 1).status
          NTY_COROUTINE_STATUS_WAIT_READ = false ∧
        tst ((nty_schedule_desched_wait timed_wait_state 7).2.mem 1).status
          NTY_COROUTINE_STATUS_WAIT_WRITE = false) ∧
      (POLLIN &&& POLLIN ≠ 0 ∨ POLLIN &&& POLLOUT ≠ 0) ∧
      wait_tree_ok (nty_schedule_desched_wait timed_wait_state 7).2.mem
        (nty_schedule_desched_wait timed_wait_state 7).2.waiting ∧
      1 ∉ rb_elms (nty_schedule_desched_wait timed_wait_state 7).2.waiting ∧
      (∀ n ∈ (nty_schedule_desched_wait timed_wait_state 7).2.waiting, n.key ≠ 7) ∧
      sleep_tree_ok (nty_schedule_desched_wait timed_wait_state 7).2.mem
        (nty_schedule_desched_wait timed_wait_state 7).2.sleeping ∧
      1000 ≠ NO_TIMEOUT ∧
      1 ∈ rb_elms (nty_schedule_desched_wait timed_wait_state 7).2.sleeping) ∧
    ∃ s', nty_schedule_sched_wait (nty_schedule_desched_wait timed_wait_state 7).2
        1 7 POLLIN 1000 10 = some s' ∧
      ({ key := 7, elm := 1 } : rb_node Int) ∈ s'.waiting ∧ (s'.mem 1).fd = 7 ∧
      (1000 = 0 → 1 ∉ rb_elms s'.sleeping ∧
        tst (s'.mem 1).status NTY_COROUTINE_STATUS_SLEEPING
          = tst ((nty_schedule_desched_wait timed_wait_state 7).2.mem 1).status
              NTY_COROUTINE_STATUS_SLEEPING) ∧
      (0 < 1000 →
        nty_coroutine_diff_usecs (nty_schedule_desched_wait timed_wait_state 7).2.birth 10
          + 1000 * 1000 + (nty_schedule_desched_wait timed_wait_state 7).2.sleeping.length < U64 →
        ({ key := (s'.mem 1).sleep_usecs, elm := 1 } : rb_node Nat) ∈ s'.sleeping ∧
        tst (s'.mem 1).status NTY_COROUTINE_STATUS_SLEEPING = true ∧
        nty_coroutine_diff_usecs (nty_schedule_desched_wait timed_wait_state 7).2.birth 10
          + 1000 * 1000 ≤ (s'.mem 1).sleep_usecs ∧
        (∀ n ∈ s'.sleeping, n.elm ≠ 1 → n.key ≠ (s'.mem 1).sleep_usecs) ∧
        (∀ k, nty_coroutine_diff_usecs (nty_schedule_desched_wait timed_wait_state 7).2.birth 10
            + 1000 * 1000 ≤ k →
          k < (s'.mem 1).sleep_usecs → ∃ n ∈ s'.sleeping, n.elm ≠ 1 ∧ n.key = k)) :=
  ⟨by decide, sched_wait_timeout (nty_schedule_desched_wait timed_wait_state 7).2 1 7 POLLIN 1000 10
    (by decide) (by decide) (by decide) (by decide) (by decide) (by decide) (by decide)⟩

/-- C5 fails as stated: `timeout = 0` is different from `NO_TIMEOUT`, and
`nty_schedule_sched_wait(co, 7, POLLIN, 0)` on coroutine 1 of
`one_coroutine_state` puts it in the wait tree under 7 but not in the sleep tree,
and SLEEPING is not set. -/
theorem sched_wait_zero_timeout_not_in_sleep_tree :
    0 ≠ NO_TIMEOUT ∧
    ∃ s', nty_schedule_sched_wait one_coroutine_state 1 7 POLLIN 0 5 = some s' ∧
      ({ key := 7, elm := 1 } : rb_node Int) ∈ s'.waiting ∧
      1 ∉ rb_elms s'.sleeping ∧
      tst (s'.mem 1).status NTY_COROUTINE_STATUS_SLEEPING = false :=
  ⟨by decide, _, rfl, by decide, by decide, by decide⟩

/-- C6 (failing input): create, create, free of the first coroutine, create.  The
second and the third coroutine are both alive and both have id 1: the ids of
successive creates are not strictly increasing, because `nty_coroutine_free`
decrements the counter `nty_coroutine_create` takes the id from. -/
theorem create_after_free_repeats_id :
    (create_free_create.mem 2).id = 1 ∧ (create_free_create.mem 3).id = 1 ∧
    (create_free_create.mem 2).is_freed = false ∧ (create_free_create.mem 3).is_freed = false ∧
    ¬ ((create_free_create.mem 2).id < (create_free_create.mem 3).id) := by
  decide

/-- C7 (failing input): after create and free the flag `is_freed` of the coroutine
is set and the counter is 0; a second `nty_coroutine_free` of the same coroutine
is not a no-op: it takes the counter to -1, because the decrement comes before
the test of `is_freed`.  On `NULL` the call changes nothing. -/
theorem free_twice_decrements_twice :
    (create_free.mem 1).is_freed = true ∧ create_free.spawned_coroutines = 0 ∧
    (nty_coroutine_free create_free (some 1)).spawned_coroutines = -1 ∧
    (nty_coroutine_free create_free none).spawned_coroutines = create_free.spawned_coroutines := by
  decide

theorem resumed_append (a b : List dispatch) : resumed (a ++ b) = resumed a ++ resumed b := by
  induction a with
  | nil => rfl
  | cons x a ih =>
    cases x <;> simp [resumed, ih]

theorem nty_coroutine_resume_resumed (s s' : nty_schedule) (co : Ptr) (now : Nat)
    (h : nty_coroutine_resume s co now = some s') :
    resumed s'.log = resumed s.log ++ [co] := by
  rcases (nty_coroutine_resume_frame s s' co now h).1 with h1 | h1 <;>
    rw [h1, resumed_append] <;> rfl

theorem nty_coroutine_free_some (s : nty_schedule) (co : Ptr) :
    (nty_coroutine_free s (some co)).log = s.log ++ [dispatch.free co] ∧
    (nty_coroutine_free s (some co)).ready = s.ready := by
  unfold nty_coroutine_free
  simp only []
  split
  · exact ⟨rfl, rfl⟩
  · exact ⟨rfl, rfl⟩

theorem mem_rb_elms_of_mem {κ : Type} {t : List (rb_node κ)} {k : κ} {p : Ptr}
    (h : ({ key := k, elm := p } : rb_node κ) ∈ t) : p ∈ rb_elms t :=
  (mem_rb_elms t p).2 ⟨_, h, rfl⟩

theorem tst_or_exit_mask (st c : Nat) :
    tst (st ||| (BIT NTY_COROUTINE_STATUS_EXITED ||| BIT NTY_COROUTINE_STATUS_FDEOF |||
      BIT NTY_COROUTINE_STATUS_DETACH)) c
      = (tst st c || decide (NTY_COROUTINE_STATUS_EXITED = c) ||
          decide (NTY_COROUTINE_STATUS_FDEOF = c) || decide (NTY_COROUTINE_STATUS_DETACH = c)) := by
  simp [tst_eq_testBit, BIT, Nat.one_shiftLeft, Nat.testBit_two_pow, Bool.or_assoc]

theorem sleep_insert_loop_status (fuel : Nat) : ∀ (s : nty_schedule) (co : Ptr),
    ((sleep_insert_loop fuel s co).mem co).status = (s.mem co).status ∨
    ((sleep_insert_loop fuel s co).mem co).status
      = (s.mem co).status ||| BIT NTY_COROUTINE_STATUS_SLEEPING := by
  induction fuel with
  | zero => intro s co; exact Or.inl rfl
  | succ fuel ih =>
    intro s co
    unfold sleep_insert_loop RB_INSERT
    cases RB_FIND nty_coroutine_sleep_cmp s.mem s.sleeping (s.mem co) with
    | none => exact Or.inr (by simp [nty_schedule.upd])
    | some tmp =>
      have := ih (s.upd co (fun c => { c with sleep_usecs := (c.sleep_usecs + 1) % U64 })) co
      simpa [nty_schedule.upd] using this

theorem nty_schedule_sched_sleepdown_status (s : nty_schedule) (co : Ptr) (msecs now : Nat) :
    ((nty_schedule_sched_sleepdown s co msecs now).mem co).status = (s.mem co).status ∨
    ((nty_schedule_sched_sleepdown s co msecs now).mem co).status
      = (s.mem co).status ||| BIT NTY_COROUTINE_STATUS_SLEEPING := by
  unfold nty_schedule_sched_sleepdown
  simp only []
  generalize hs1 : (match RB_FIND nty_coroutine_sleep_cmp s.mem s.sleeping (s.mem co) with
    | some co_tmp => ({ s with sleeping := RB_REMOVE s.sleeping co_tmp } : nty_schedule)
    | none => s) = s1
  have h1 : s1.mem = s.mem := by
    rw [← hs1]; split <;> rfl
  by_cases hm : msecs = 0
  · left
    simp [hm, nty_coroutine_yield, nty_schedule.upd, h1]
  · simp only [hm, ne_eq, not_false_eq_true, ↓reduceIte]
    generalize hs2 : (s1.upd co fun c =>
        { c with sleep_usecs := (nty_coroutine_diff_usecs s1.birth now + msecs * 1000 % U64) % U64 })
        = s2
    have h2 : (s2.mem co).status = (s.mem co).status := by
      rw [← hs2]; simp [nty_schedule.upd, h1]
    have := sleep_insert_loop_status (s2.sleeping.length + 1) s2 co
    rw [h2] at this
    simpa [nty_coroutine_yield, nty_schedule.upd] using this

theorem nty_schedule_sched_wait_status (s s' : nty_schedule) (co : Ptr) (fd : Int)
    (events timeout now : Nat) (h : nty_schedule_sched_wait s co fd events timeout now = some s') :
    ∃ b, (b = NTY_COROUTINE_STATUS_WAIT_READ ∨ b = NTY_COROUTINE_STATUS_WAIT_WRITE) ∧
      ((s'.mem co).status = (s.mem co).status ||| BIT b ∨
        (s'.mem co).status = (s.mem co).status ||| BIT b ||| BIT NTY_COROUTINE_STATUS_SLEEPING) := by
  unfold nty_schedule_sched_wait at h
  split at h
  · cases h
  · simp only [] at h
    split at h
    · cases h
    · rename_i b hb
      have hb' : b = NTY_COROUTINE_STATUS_WAIT_READ ∨ b = NTY_COROUTINE_STATUS_WAIT_WRITE := by
        split at hb
        · left; exact (Option.some.inj hb).symm
        · split at hb
          · right; exact (Option.some.inj hb).symm
          · cases hb
      split at h
      · cases h
      · rename_i t _
        split at h
        · cases h
          exact ⟨b, hb', Or.inl (by simp [nty_schedule.upd])⟩
        · cases h
          generalize hs4 : ({ ((s.upd co fun c => { c with status := c.status ||| BIT b }).upd co
              fun c => { c with fd := fd }).upd co fun c => { c with events := events }
              with waiting := t } : nty_schedule) = s4
          have h4 : (s4.mem co).status = (s.mem co).status ||| BIT b := by
            rw [← hs4]; simp [nty_schedule.upd]
          have := nty_schedule_sched_sleepdown_status s4 co timeout now
          rw [h4] at this
          exact ⟨b, hb', this⟩

theorem exited_of_sleep (s : nty_schedule) (co : Ptr) (msecs now : Nat)
    (h : tst ((nty_coroutine_sleep s co msecs now).mem co).status NTY_COROUTINE_STATUS_EXITED = true) :
    tst (s.mem co).status NTY_COROUTINE_STATUS_EXITED = true := by
  unfold nty_coroutine_sleep at h
  split at h
  · simpa [nty_coroutine_yield, nty_schedule.upd] using h
  · rcases nty_schedule_sched_sleepdown_status s co msecs now with e | e
    · rwa [e] at h
    · rw [e, tst_or_BIT] at h
      simpa [NTY_COROUTINE_STATUS_SLEEPING, NTY_COROUTINE_STATUS_EXITED] using h

theorem exited_of_sched_wait (s s' : nty_schedule) (co : Ptr) (fd : Int)
    (events timeout now : Nat) (hw : nty_schedule_sched_wait s co fd events timeout now = some s')
    (h : tst (s'.mem co).status NTY_COROUTINE_STATUS_EXITED = true) :
    tst (s.mem co).status NTY_COROUTINE_STATUS_EXITED = true := by
  obtain ⟨b, hb, e⟩ := nty_schedule_sched_wait_status s s' co fd events timeout now hw
  rcases e with e | e <;> rw [e] at h <;> simp only [tst_or_BIT] at h <;>
    rcases hb with rfl | rfl <;>
    simpa [NTY_COROUTINE_STATUS_SLEEPING, NTY_COROUTINE_STATUS_EXITED,
      NTY_COROUTINE_STATUS_WAIT_READ, NTY_COROUTINE_STATUS_WAIT_WRITE] using h

theorem exited_of_search_wait (s : nty_schedule) (co : Ptr) (fd : Int)
    (h : tst ((nty_schedule_search_wait s fd).2.mem co).status NTY_COROUTINE_STATUS_EXITED = true) :
    tst (s.mem co).status NTY_COROUTINE_STATUS_EXITED = true := by
  rcases nty_schedule_search_wait_cases s fd with e | ⟨q, e⟩
  · rwa [e] at h
  · rw [e] at h
    by_cases hq : co = q
    · subst hq; simp [nty_schedule.upd, tst_zero] at h
    · simpa [nty_schedule.upd, Function.update, hq] using h

theorem exited_of_desched_wait (s : nty_schedule) (co : Ptr) (fd : Int)
    (h : tst ((nty_schedule_desched_wait s fd).2.mem co).status NTY_COROUTINE_STATUS_EXITED = true) :
    tst (s.mem co).status NTY_COROUTINE_STATUS_EXITED = true := by
  rcases nty_schedule_desched_wait_cases s fd with e | ⟨q, e⟩
  · rwa [e] at h
  · rw [e] at h
    by_cases hq : co = q
    · subst hq; simp [tst_zero] at h
    · simpa [Function.update, hq] using h

theorem exited_of_create (s : nty_schedule) (co : Ptr) (func : List Call)
    (h : tst ((nty_coroutine_create s func).2.mem co).status NTY_COROUTINE_STATUS_EXITED = true) :
    tst (s.mem co).status NTY_COROUTINE_STATUS_EXITED = true := by
  rw [nty_coroutine_create_eq] at h
  by_cases hq : co = s.brk
  · subst hq
    simp only [Function.update_same] at h
    have hne : tst (BIT NTY_COROUTINE_STATUS_NEW) NTY_COROUTINE_STATUS_EXITED = false := by decide
    rw [hne] at h
    cases h
  · simpa [Function.update, hq] using h

/-- A run of a coroutine that ends with EXITED set either started with EXITED set
or went through the return of the entry function, where `_exec` sets DETACH
together with EXITED. -/
theorem swapcontext_exited (calls : List Call) : ∀ (s s' : nty_schedule) (co : Ptr) (now : Nat),
    swapcontext calls s co now = some s' →
    tst (s'.mem co).status NTY_COROUTINE_STATUS_EXITED = true →
    tst (s.mem co).status NTY_COROUTINE_STATUS_EXITED = true ∨
      tst (s'.mem co).status NTY_COROUTINE_STATUS_DETACH = true := by
  induction calls with
  | nil =>
    intro s s' co now h _
    simp only [swapcontext, Option.some.injEq] at h
    subst h
    right
    simp [nty_coroutine_yield, nty_schedule.upd, tst_or_exit_mask]
  | cons c rest ih =>
    intro s s' co now h hex
    cases c with
    | sleep msecs =>
      simp only [swapcontext, Option.some.injEq] at h
      subst h
      left
      have := exited_of_sleep _ co msecs now hex
      simpa [nty_schedule.upd] using this
    | detach =>
      simp only [swapcontext] at h
      rcases ih _ _ _ _ h hex with h1 | h1
      · left
        simp only [nty_coroutine_detach, nty_schedule.upd, Function.update_same, tst_or_BIT] at h1
        simpa [NTY_COROUTINE_STATUS_DETACH, NTY_COROUTINE_STATUS_EXITED] using h1
      · exact Or.inr h1
    | renice =>
      simp only [swapcontext] at h
      have hr : ∀ p, ((nty_coroutine_renice s co).1.mem p).status = (s.mem p).status := by
        intro p
        unfold nty_coroutine_renice
        simp only []
        split <;> by_cases hp : p = co <;>
          simp [nty_coroutine_yield, nty_schedule.upd, Function.update, hp]
      split at h
      · rename_i s1 heq
        simp only [Option.some.injEq] at h
        subst h
        left
        have := hr co
        rw [heq] at this
        simp only [nty_schedule.upd, Function.update_same] at hex
        rwa [this] at hex
      · rename_i s1 heq
        have := hr co
        rw [heq] at this
        rcases ih _ _ _ _ h hex with h1 | h1
        · left; rwa [this] at h1
        · exact Or.inr h1
    | yield =>
      simp only [swapcontext, Option.some.injEq] at h
      subst h
      left
      simpa [nty_coroutine_yield, nty_schedule.upd] using hex
    | sched_wait fd events timeout =>
      simp only [swapcontext] at h
      split at h
      · cases h
      · rename_i s1 heq
        split at h
        · rcases ih _ _ _ _ h hex with h1 | h1
          · exact Or.inl (exited_of_sched_wait _ _ _ _ _ _ _ heq h1)
          · exact Or.inr h1
        · simp only [Option.some.injEq] at h
          subst h
          left
          apply exited_of_sched_wait _ _ _ _ _ _ _ heq
          simpa [nty_schedule.upd] using hex
    | desched_wait fd =>
      simp only [swapcontext] at h
      rcases ih _ _ _ _ h hex with h1 | h1
      · exact Or.inl (exited_of_desched_wait _ _ _ h1)
      · exact Or.inr h1
    | search_wait fd =>
      simp only [swapcontext] at h
      rcases ih _ _ _ _ h hex with h1 | h1
      · exact Or.inl (exited_of_search_wait _ _ _ h1)
      · exact Or.inr h1
    | cancel_wait =>
      simp only [swapcontext] at h
      rcases ih _ _ _ _ h hex with h1 | h1
      · exact Or.inl h1
      · exact Or.inr h1
    | create func =>
      simp only [swapcontext] at h
      rcases ih _ _ _ _ h hex with h1 | h1
      · exact Or.inl (exited_of_create _ _ _ h1)
      · exact Or.inr h1

theorem nty_coroutine_free_mem (s : nty_schedule) (co : Ptr) :
    ((nty_coroutine_free s (some co)).mem co).is_freed = true ∧
    ((nty_coroutine_free s (some co)).mem co).status = (s.mem co).status ∧
    (nty_coroutine_free s (some co)).spawned_coroutines = s.spawned_coroutines - 1 := by
  unfold nty_coroutine_free
  simp only []
  split
  · rename_i h; exact ⟨h, rfl, rfl⟩
  · exact ⟨by simp [nty_schedule.upd], by simp [nty_schedule.upd], rfl⟩

/-- What `nty_coroutine_resume` does with a coroutine that has exited when its run
ends: if EXITED was clear at the call and is set at the return, the call has
freed the coroutine (its log ends with the call of `nty_coroutine_free`). -/
theorem nty_coroutine_resume_exited (s s' : nty_schedule) (co : Ptr) (now : Nat)
    (hex : tst (s.mem co).status NTY_COROUTINE_STATUS_EXITED = false)
    (h : nty_coroutine_resume s co now = some s')
    (hexit : tst (s'.mem co).status NTY_COROUTINE_STATUS_EXITED = true) :
    (s'.mem co).is_freed = true ∧
    s'.log = s.log ++ [dispatch.resume co (s.mem co).status
      (decide (co ∈ rb_elms s.sleeping)) (decide (co ∈ rb_elms s.waiting)), dispatch.free co] := by
  have hfr := (nty_coroutine_resume_frame s s' co now h).1
  unfold nty_coroutine_resume at h
  simp only [] at h
  generalize hs2 : ({ (if tst (s.mem co).status NTY_COROUTINE_STATUS_NEW = true then
      nty_coroutine_init { s with log := s.log ++ [dispatch.resume co (s.mem co).status
        (decide (co ∈ rb_elms s.sleeping)) (decide (co ∈ rb_elms s.waiting))] } co
    else { s with log := s.log ++ [dispatch.resume co (s.mem co).status
        (decide (co ∈ rb_elms s.sleeping)) (decide (co ∈ rb_elms s.waiting))] })
      with curr_thread := some co } : nty_schedule) = s2 at h
  have h2 : tst (s2.mem co).status NTY_COROUTINE_STATUS_EXITED = false := by
    rw [← hs2]
    split
    · simp only [nty_coroutine_init, nty_schedule.upd, Function.update_same]
      decide
    · exact hex
  split at h
  · cases h
  · rename_i s3 hsw
    have hsw' := swapcontext_exited _ _ _ _ _ hsw
    rw [h2] at hsw'
    split at h
    · rename_i hE
      split at h
      · simp only [Option.some.injEq] at h
        subst h
        have hf := nty_coroutine_free_mem { s3 with curr_thread := none } co
        refine ⟨hf.1, ?_⟩
        rcases hfr with e | e
        · have hl := (nty_coroutine_free_some { s3 with curr_thread := none } co).1
          rw [hl] at e
          have hlen := congrArg List.length e
          have h3 : s3.log = s.log ++ [dispatch.resume co (s.mem co).status
              (decide (co ∈ rb_elms s.sleeping)) (decide (co ∈ rb_elms s.waiting))] := by
            have := (swapcontext_frame _ _ _ _ _ hsw).1
            rw [this, ← hs2]
            split <;> simp [nty_coroutine_init, nty_schedule.upd]
          simp only [h3] at e
          simp at e
        · exact e
      · rename_i hD
        rcases hsw' hE with h1 | h1
        · cases h1
        · exact absurd h1 hD
    · rename_i hE
      simp only [Option.some.injEq] at h
      subst h
      exact absurd hexit hE

/-- C11 (amended): every coroutine whose entry function returns during a call of
`nty_coroutine_resume` is freed by that call, whether or not
`nty_coroutine_detach()` was called: `_exec` sets DETACH together with EXITED and
FDEOF.  For every state in which `co` has not exited yet: (1) if the call returns
with EXITED set, it has freed `co` (`is_freed` is set and the log of the call is
the resume followed by `nty_coroutine_free(co)`); (2) if the entry function has no
call left to make (an initialised coroutine with empty context), the call
returns, EXITED is set and `co` is freed, whatever its DETACH bit was. -/
theorem resume_frees_exited (s : nty_schedule) (co : Ptr) (now : Nat)
    (hex : tst (s.mem co).status NTY_COROUTINE_STATUS_EXITED = false) :
    (∀ s', nty_coroutine_resume s co now = some s' →
      tst (s'.mem co).status NTY_COROUTINE_STATUS_EXITED = true →
      (s'.mem co).is_freed = true ∧
      s'.log = s.log ++ [dispatch.resume co (s.mem co).status
        (decide (co ∈ rb_elms s.sleeping)) (decide (co ∈ rb_elms s.waiting)), dispatch.free co]) ∧
    (tst (s.mem co).status NTY_COROUTINE_STATUS_NEW = false → (s.mem co).ctx = [] →
      ∃ s', nty_coroutine_resume s co now = some s' ∧
        tst (s'.mem co).status NTY_COROUTINE_STATUS_EXITED = true ∧
        (s'.mem co).is_freed = true) := by
  refine ⟨fun s' h hexit => nty_coroutine_resume_exited s s' co now hex h hexit, ?_⟩
  intro hnew hctx
  have hres : ∃ s', nty_coroutine_resume s co now = some s' ∧
      tst (s'.mem co).status NTY_COROUTINE_STATUS_EXITED = true := by
    unfold nty_coroutine_resume
    simp only [hnew, Bool.false_eq_true, ↓reduceIte, hctx, swapcontext]
    have hE : tst ((s.mem co).status ||| (BIT NTY_COROUTINE_STATUS_EXITED |||
        BIT NTY_COROUTINE_STATUS_FDEOF ||| BIT NTY_COROUTINE_STATUS_DETACH))
        NTY_COROUTINE_STATUS_EXITED = true := by simp [tst_or_exit_mask]
    have hD : tst ((s.mem co).status ||| (BIT NTY_COROUTINE_STATUS_EXITED |||
        BIT NTY_COROUTINE_STATUS_FDEOF ||| BIT NTY_COROUTINE_STATUS_DETACH))
        NTY_COROUTINE_STATUS_DETACH = true := by simp [tst_or_exit_mask]
    simp only [nty_coroutine_yield, nty_schedule.upd, Function.update_same, hE, hD, ↓reduceIte]
    refine ⟨_, rfl, ?_⟩
    rw [(nty_coroutine_free_mem _ co).2.1]
    simpa using hE
  obtain ⟨s', h1, h2⟩ := hres
  exact ⟨s', h1, h2, (nty_coroutine_resume_exited s s' co now hex h1 h2).1⟩

/-- An instance of `resume_frees_exited`: coroutine 1 of `returning_state`, which
never called `nty_coroutine_detach()`. -/
theorem resume_frees_exited_witness :
    (tst (returning_state.mem 1).status NTY_COROUTINE_STATUS_EXITED = false ∧
      tst (returning_state.mem 1).status NTY_COROUTINE_STATUS_DETACH = false ∧
      tst (returning_state.mem 1).status NTY_COROUTINE_STATUS_NEW = false ∧
      (returning_state.mem 1).ctx = []) ∧
    ∃ s', nty_coroutine_resume returning_state 1 5 = some s' ∧
      tst (s'.mem 1).status NTY_COROUTINE_STATUS_EXITED = true ∧
      (s'.mem 1).is_freed = true :=
  ⟨⟨by decide, by decide, by decide, rfl⟩,
    (resume_frees_exited returning_state 1 5 (by decide)).2 (by decide) rfl⟩

/-- C11 fails as stated: the entry function of coroutine 1 of
`one_coroutine_state` returns without any call of `nty_coroutine_detach()` (it
makes no call at all, and DETACH is clear when it is resumed), and the
`nty_coroutine_resume` that ran it frees it. -/
theorem undetached_coroutine_freed_on_exit :
    (one_coroutine_state.mem 1).func = [] ∧
    tst (one_coroutine_state.mem 1).status NTY_COROUTINE_STATUS_DETACH = false ∧
    (one_coroutine_state.mem 1).is_freed = false ∧
    (nty_coroutine_resume one_coroutine_state 1 5).map
        (fun s => ((s.mem 1).is_freed, s.spawned_coroutines, s.log))
      = some (true, 0, [dispatch.resume 1 1 false false, dispatch.free 1]) :=
  ⟨rfl, by decide, by decide, by decide⟩

theorem run_events_log_grows (n : Nat) : ∀ (s s' : nty_schedule) (now : Nat),
    run_events n s now = some s' → s.log <+: s'.log := by
  induction n with
  | zero =>
    intro s s' now h
    simp only [run_events, Option.some.injEq] at h
    subst h; exact List.prefix_refl _
  | succ idx ih =>
    intro s s' now h
    unfold run_events at h
    simp only [] at h
    split at h
    · cases h
    · rename_i ev _
      rcases nty_schedule_search_wait_cases { s with num_new_events := idx } ev.fd with e | ⟨q, e⟩
      · rw [e] at h
        have h' : run_events idx { s with num_new_events := idx } now = some s' := h
        have := ih { s with num_new_events := idx } s' now h'
        exact this
      · rw [e] at h
        simp only [] at h
        split at h
        · cases h
        · rename_i s4 hres
          have h1 := nty_coroutine_resume_log_grows _ _ _ _ hres
          have h2 := ih _ _ _ h
          have h0 : s.log <+: (if ev.events &&& EPOLLHUP ≠ 0 then
              (({ s with num_new_events := idx } : nty_schedule).upd q
                fun c => { c with status := 0 }).upd q
                fun c => { c with status := c.status ||| BIT NTY_COROUTINE_STATUS_FDEOF }
              else (({ s with num_new_events := idx } : nty_schedule).upd q
                fun c => { c with status := 0 })).log := by
            split <;> exact List.prefix_refl _
          exact (h0.trans ((List.prefix_append _ _).trans h1)).trans h2

/-- The state in which step 3 calls `nty_coroutine_resume` on the waiter `c` of an
event: `sched->num_new_events` is the index of the event, and the status of `c`
is 0 (set by `nty_schedule_search_wait`) with FDEOF added when the event carries
EPOLLHUP. -/
theorem run_events_waiter (idx : Nat) (s : nty_schedule) (now : Nat) (ev : epoll_event)
    (c : Ptr) (hev : s.eventlist.get? idx = some ev)
    (hfind : RB_FIND nty_coroutine_wait_cmp s.mem s.waiting
      { nty_coroutine.zero with fd := ev.fd } = some c) :
    run_events (idx + 1) s now =
      (nty_coroutine_resume
        { s with
          num_new_events := idx
          mem := Function.update s.mem c
            { s.mem c with
              status := if ev.events &&& EPOLLHUP ≠ 0 then BIT NTY_COROUTINE_STATUS_FDEOF else 0 } }
        c now).bind (fun s4 => run_events idx s4 now) := by
  rw [run_events]
  simp only [hev]
  have hs : nty_schedule_search_wait { s with num_new_events := idx } ev.fd =
      (some c, ({ s with num_new_events := idx } : nty_schedule).upd c
        (fun c => { c with status := 0 })) := by
    unfold nty_schedule_search_wait
    simp only [hfind]
  rw [hs]
  simp only []
  have hst : (if ev.events &&& EPOLLHUP ≠ 0 then
      (({ s with num_new_events := idx } : nty_schedule).upd c
        fun c => { c with status := 0 }).upd c
        fun c => { c with status := c.status ||| BIT NTY_COROUTINE_STATUS_FDEOF }
      else (({ s with num_new_events := idx } : nty_schedule).upd c
        fun c => { c with status := 0 })) =
      { s with
        num_new_events := idx
        mem := Function.update s.mem c
          { s.mem c with
            status := if ev.events &&& EPOLLHUP ≠ 0 then BIT NTY_COROUTINE_STATUS_FDEOF else 0 } } := by
    split <;> simp [nty_schedule.upd]
  rw [hst]
  cases nty_coroutine_resume _ c now <;> rfl

theorem run_events_no_waiter (idx : Nat) (s : nty_schedule) (now : Nat) (ev : epoll_event)
    (hev : s.eventlist.get? idx = some ev)
    (hfind : RB_FIND nty_coroutine_wait_cmp s.mem s.waiting
      { nty_coroutine.zero with fd := ev.fd } = none) :
    run_events (idx + 1) s now = run_events idx { s with num_new_events := idx } now := by
  rw [run_events]
  simp only [hev]
  have hs : nty_schedule_search_wait { s with num_new_events := idx } ev.fd =
      (none, { s with num_new_events := idx }) := by
    unfold nty_schedule_search_wait
    simp only [hfind]
  rw [hs]

/-- C13: for the readiness event `ev` step 3 of the scheduler loop handles next
(the event at index `idx` when `num_new_events` is `idx + 1`), in a state whose
wait tree satisfies its invariant: (1) if coroutine `c` is parked on `ev.fd` in
the wait tree, `nty_coroutine_resume` is called on `c` in a state where the
status of `c` has FDEOF set if and only if the event carries EPOLLHUP, and the
log of every run of the loop that returns starts with that call; (2) if no
coroutine is parked on `ev.fd`, the loop goes on to the next event from the same
state: no coroutine is resumed and no coroutine object is written. -/
theorem event_wakes_waiter (idx : Nat) (s : nty_schedule) (now : Nat) (ev : epoll_event)
    (hev : s.eventlist.get? idx = some ev) (hok : wait_tree_ok s.mem s.waiting) :
    (∀ c, ({ key := ev.fd, elm := c } : rb_node Int) ∈ s.waiting →
      ∃ s3 : nty_schedule,
        run_events (idx + 1) s now =
          (nty_coroutine_resume s3 c now).bind (fun s4 => run_events idx s4 now) ∧
        (∀ p, p ≠ c → s3.mem p = s.mem p) ∧ s3.log = s.log ∧
        (tst (s3.mem c).status NTY_COROUTINE_STATUS_FDEOF = true ↔ ev.events &&& EPOLLHUP ≠ 0) ∧
        ∀ s', run_events (idx + 1) s now = some s' →
          (s.log ++ [dispatch.resume c (s3.mem c).status
            (decide (c ∈ rb_elms s.sleeping)) true]) <+: s'.log) ∧
    ((∀ n ∈ s.waiting, n.key ≠ ev.fd) →
      run_events (idx + 1) s now = run_events idx { s with num_new_events := idx } now ∧
      ({ s with num_new_events := idx } : nty_schedule).mem = s.mem ∧
      ({ s with num_new_events := idx } : nty_schedule).log = s.log) := by
  refine ⟨?_, ?_⟩
  · intro c hc
    have hfind := RB_FIND_wait_of_mem hok hc { nty_coroutine.zero with fd := ev.fd } rfl
    have heq := run_events_waiter idx s now ev c hev hfind
    refine ⟨_, heq, ?_, rfl, ?_, ?_⟩
    · intro p hp
      simp [Function.update, hp]
    · simp only [Function.update_same]
      by_cases hh : ev.events &&& EPOLLHUP = 0
      · simp [hh, tst_zero]
      · simp only [ne_eq, hh, not_false_eq_true, ↓reduceIte, iff_true]
        decide
    · intro s' hs'
      rw [heq] at hs'
      simp only [Option.bind_eq_some] at hs'
      obtain ⟨s4, h4, h5⟩ := hs'
      have h1 := nty_coroutine_resume_log_grows _ _ _ _ h4
      have hw : decide (c ∈ rb_elms s.waiting) = true := by
        simpa using mem_rb_elms_of_mem hc
      simp only [Function.update_same, hw] at h1
      simp only [Function.update_same]
      exact h1.trans (run_events_log_grows _ _ _ _ h5)
  · intro hno
    have hfind : RB_FIND nty_coroutine_wait_cmp s.mem s.waiting
        { nty_coroutine.zero with fd := ev.fd } = none := by
      rw [RB_FIND_wait_none]
      intro n hn
      rw [← hok.1 n hn]
      exact hno n hn
    exact ⟨run_events_no_waiter idx s now ev hev hfind, rfl, rfl⟩

/-- An instance of `event_wakes_waiter`: the event handled first in
`two_events_state`, a hangup on descriptor 8, on which coroutine 2 is parked. -/
theorem event_wakes_waiter_witness :
    (two_events_state.eventlist.get? 1 = some { fd := 8, events := EPOLLHUP } ∧
      wait_tree_ok two_events_state.mem two_events_state.waiting ∧
      ({ key := 8, elm := 2 } : rb_node Int) ∈ two_events_state.waiting ∧
      (run_events (1 + 1) two_events_state 10).isSome = true) ∧
    ∃ s3 : nty_schedule,
      run_events (1 + 1) two_events_state 10 =
        (nty_coroutine_resume s3 2 10).bind (fun s4 => run_events 1 s4 10) ∧
      (∀ p, p ≠ 2 → s3.mem p = two_events_state.mem p) ∧ s3.log = two_events_state.log ∧
      (tst (s3.mem 2).status NTY_COROUTINE_STATUS_FDEOF = true ↔ EPOLLHUP &&& EPOLLHUP ≠ 0) ∧
      ∀ s', run_events (1 + 1) two_events_state 10 = some s' →
        (two_events_state.log ++ [dispatch.resume 2 (s3.mem 2).status
          (decide (2 ∈ rb_elms two_events_state.sleeping)) true]) <+: s'.log :=
  ⟨by decide, (event_wakes_waiter 1 two_events_state 10 { fd := 8, events := EPOLLHUP }
    (by decide) (by decide)).1 2 (by decide)⟩
theorem run_events_resumed_grows (n : Nat) (s s' : nty_schedule) (now : Nat)
    (h : run_events n s now = some s') : ∃ r, resumed s'.log = resumed s.log ++ r := by
  obtain ⟨l, hl⟩ := run_events_log_grows n s s' now h
  exact ⟨resumed l, by rw [← hl, resumed_append]⟩

/-- C12 (amended): step 3 of the scheduler loop handles the readiness events of
one poller wait from the last to the first.  Every run of the loop
`while (sched->num_new_events)` with `idx + 1` events left that returns has first
looked up the event at index `idx`, the last one, in the state the loop started
from, and resumed its waiter if there is one (nothing else is resumed for this
event); only then are the events at the indices below `idx` handled, from the
state `s1` this leaves.  So the waiter of `e_j` is resumed before the waiter of
`e_i` whenever `i < j`. -/
theorem events_handled_last_first (idx : Nat) (s s' : nty_schedule) (now : Nat)
    (h : run_events (idx + 1) s now = some s') :
    ∃ ev s1, s.eventlist.get? idx = some ev ∧
      resumed s1.log = resumed s.log ++
        (RB_FIND nty_coroutine_wait_cmp s.mem s.waiting
          { nty_coroutine.zero with fd := ev.fd }).toList ∧
      run_events idx s1 now = some s' ∧
      ∃ r, resumed s'.log = resumed s1.log ++ r := by
  cases hev : s.eventlist.get? idx with
  | none =>
    rw [run_events] at h
    simp only [hev] at h
    cases h
  | some ev =>
    cases hfind : RB_FIND nty_coroutine_wait_cmp s.mem s.waiting
        { nty_coroutine.zero with fd := ev.fd } with
    | none =>
      rw [run_events_no_waiter idx s now ev hev hfind] at h
      refine ⟨ev, { s with num_new_events := idx }, rfl, ?_, h,
        run_events_resumed_grows _ _ _ _ h⟩
      have e : (RB_FIND nty_coroutine_wait_cmp s.mem s.waiting
          { nty_coroutine.zero with fd := ev.fd }).toList = [] := by rw [hfind]; rfl
      rw [e, List.append_nil]
    | some c =>
      rw [run_events_waiter idx s now ev c hev hfind] at h
      simp only [Option.bind_eq_some] at h
      obtain ⟨s4, h4, h5⟩ := h
      refine ⟨ev, s4, rfl, ?_, h5, run_events_resumed_grows _ _ _ _ h5⟩
      have e : (RB_FIND nty_coroutine_wait_cmp s.mem s.waiting
          { nty_coroutine.zero with fd := ev.fd }).toList = [c] := by rw [hfind]; rfl
      rw [e, nty_coroutine_resume_resumed _ _ _ _ h4]

/-- An instance of `events_handled_last_first`: in `two_events_state` the event
list is descriptor 7 (waiter 1) then descriptor 8 (waiter 2), and the run of the
loop with both events left handles index 1 first and resumes its waiter 2. -/
theorem events_handled_last_first_witness :
    (run_events (1 + 1) two_events_state 10).isSome = true ∧
    ∀ s', run_events (1 + 1) two_events_state 10 = some s' →
      ∃ ev s1, two_events_state.eventlist.get? 1 = some ev ∧
        resumed s1.log = resumed two_events_state.log ++
          (RB_FIND nty_coroutine_wait_cmp two_events_state.mem two_events_state.waiting
            { nty_coroutine.zero with fd := ev.fd }).toList ∧
        run_events 1 s1 10 = some s' ∧
        ∃ r, resumed s'.log = resumed s1.log ++ r :=
  ⟨by decide, fun s' h => events_handled_last_first 1 two_events_state s' 10 h⟩

/-- C12 fails as stated: in `two_events_state` the poller has returned the events
`e0` on descriptor 7, whose waiter is coroutine 1, and `e1` on descriptor 8,
whose waiter is coroutine 2; step 3 resumes coroutine 2 first and coroutine 1
after it. -/
theorem events_resumed_in_reverse_order :
    two_events_state.num_new_events = 2 ∧
    two_events_state.eventlist.map (fun ev => ev.fd) = [7, 8] ∧
    (nty_schedule_search_wait two_events_state 7).1 = some 1 ∧
    (nty_schedule_search_wait two_events_state 8).1 = some 2 ∧
    (run_events two_events_state.num_new_events two_events_state 10).map
        (fun s => resumed s.log)
      = some (resumed two_events_state.log ++ [2, 1]) := by
  decide

theorem RB_REMOVE_head {mem : Ptr → nty_coroutine} {n : rb_node Nat} {rest : List (rb_node Nat)}
    (hok : sleep_tree_ok mem (n :: rest)) : RB_REMOVE (n :: rest) n.elm = rest := by
  unfold RB_REMOVE
  have hn : (n.elm != n.elm) = false := by simp
  rw [List.filter_cons, hn]
  simp only [Bool.false_eq_true, ↓reduceIte]
  rw [List.filter_eq_self]
  intro m hm
  have hkey : n.key < m.key := by
    have := hok.2
    simp only [List.map_cons, List.pairwise_cons, List.mem_map, forall_exists_index, and_imp,
      forall_apply_eq_imp_iff₂] at this
    exact this.1 m hm
  have h1 := hok.1 n (List.mem_cons_self _ _)
  have h2 := hok.1 m (List.mem_cons_of_mem _ hm)
  have : m.elm ≠ n.elm := by
    intro e
    rw [e] at h2
    omega
  simpa using this

theorem sleep_tree_ok_tail {mem : Ptr → nty_coroutine} {n : rb_node Nat}
    {rest : List (rb_node Nat)} (hok : sleep_tree_ok mem (n :: rest)) : sleep_tree_ok mem rest :=
  sleep_tree_ok_sublist hok (List.sublist_cons_self _ _)

theorem sleep_tree_head_lt {mem : Ptr → nty_coroutine} {n : rb_node Nat}
    {rest : List (rb_node Nat)} (hok : sleep_tree_ok mem (n :: rest)) :
    ∀ m ∈ rest, n.key < m.key := by
  have := hok.2
  simp only [List.map_cons, List.pairwise_cons, List.mem_map, forall_exists_index, and_imp,
    forall_apply_eq_imp_iff₂] at this
  exact this.1

/-- Draining a sleep tree that satisfies its invariant: the calls return the
nodes whose key is at most the scheduler-relative time, in tree order, and leave
the others. -/
theorem drain_expired_spec (fuel : Nat) : ∀ (s : nty_schedule) (now : Nat),
    sleep_tree_ok s.mem s.sleeping → s.sleeping.length ≤ fuel →
    (drain_expired fuel s now).1 = rb_elms (s.sleeping.filter
      (fun n => decide (n.key ≤ nty_coroutine_diff_usecs s.birth now))) ∧
    (drain_expired fuel s now).2 = { s with sleeping := (s.sleeping.filter
      (fun n => decide (nty_coroutine_diff_usecs s.birth now < n.key))) } := by
  induction fuel with
  | zero =>
    intro s now _ hlen
    have : s.sleeping = [] := List.length_eq_zero.mp (Nat.le_zero.mp hlen)
    simp [drain_expired, this, rb_elms]
    cases s; simp_all
  | succ fuel ih =>
    intro s now hok hlen
    cases hsl : s.sleeping with
    | nil =>
      have he : nty_schedule_expired s now = (none, s) := by
        simp [nty_schedule_expired, RB_MIN, hsl]
      simp only [drain_expired, he, List.filter_nil, rb_elms, List.map_nil, true_and]
      cases s; simp_all
    | cons n rest =>
      rw [hsl] at hok hlen
      have hkn := hok.1 n (List.mem_cons_self _ _)
      by_cases hexp : n.key ≤ nty_coroutine_diff_usecs s.birth now
      · have he := nty_schedule_expired_pop s now n rest hsl (by rw [← hkn]; exact hexp)
        have hrm : RB_REMOVE s.sleeping n.elm = rest := by rw [hsl]; exact RB_REMOVE_head hok
        rw [hrm] at he
        have := ih { s with sleeping := rest } now (sleep_tree_ok_tail hok)
          (by simpa using Nat.le_of_succ_le_succ hlen)
        simp only [drain_expired, he]
        refine ⟨?_, ?_⟩
        · rw [this.1]
          simp [List.filter_cons, hexp, rb_elms]
        · rw [this.2]
          have hn : ¬ (nty_coroutine_diff_usecs s.birth now < n.key) := by omega
          simp [List.filter_cons, hn]
      · have he : nty_schedule_expired s now = (none, s) := by
          simp only [nty_schedule_expired, RB_MIN, hsl, List.head?_cons, Option.map_some', ← hkn,
            hexp, ↓reduceIte]
        have hall : ∀ m ∈ n :: rest, nty_coroutine_diff_usecs s.birth now < m.key := by
          intro m hm
          rcases List.mem_cons.1 hm with rfl | hm'
          · omega
          · have := sleep_tree_head_lt hok m hm'
            omega
        have h1 : (n :: rest).filter
            (fun n => decide (n.key ≤ nty_coroutine_diff_usecs s.birth now)) = [] := by
          rw [List.filter_eq_nil_iff]
          intro m hm
          have := hall m hm
          simp; omega
        have h2 : (n :: rest).filter
            (fun n => decide (nty_coroutine_diff_usecs s.birth now < n.key)) = n :: rest := by
          rw [List.filter_eq_self]
          intro m hm
          simpa using hall m hm
        simp only [drain_expired, he, h1, h2, rb_elms, List.map_nil, true_and]
        rw [← hsl]

/-- C14: wake monotonicity.  For a fixed clock reading `now` and a sleep tree that
satisfies its invariant, repeated calls of `nty_schedule_expired` with nothing in
between (at least as many as the tree has nodes are allowed) return exactly the
coroutines of the tree whose deadline is `<= now - birth`, in strictly increasing
deadline order; the next call returns `NULL`; and the tree is left with exactly
the coroutines whose deadline is `> now - birth`.  No coroutine object is
written. -/
theorem wake_monotonicity (fuel : Nat) (s : nty_schedule) (now : Nat)
    (hok : sleep_tree_ok s.mem s.sleeping) (hfuel : s.sleeping.length ≤ fuel) :
    (drain_expired fuel s now).1 = rb_elms (s.sleeping.filter
      (fun n => decide ((s.mem n.elm).sleep_usecs ≤ nty_coroutine_diff_usecs s.birth now))) ∧
    (((drain_expired fuel s now).1.map (fun c => (s.mem c).sleep_usecs)).Pairwise
      (fun a b => a < b)) ∧
    (nty_schedule_expired (drain_expired fuel s now).2 now).1 = none ∧
    (drain_expired fuel s now).2.sleeping = s.sleeping.filter
      (fun n => decide (nty_coroutine_diff_usecs s.birth now < (s.mem n.elm).sleep_usecs)) ∧
    (drain_expired fuel s now).2.mem = s.mem := by
  obtain ⟨h1, h2⟩ := drain_expired_spec fuel s now hok hfuel
  have hf1 : s.sleeping.filter
      (fun n => decide ((s.mem n.elm).sleep_usecs ≤ nty_coroutine_diff_usecs s.birth now))
      = s.sleeping.filter
        (fun n => decide (n.key ≤ nty_coroutine_diff_usecs s.birth now)) := by
    apply List.filter_congr
    intro n hn
    rw [hok.1 n hn]
  have hf2 : s.sleeping.filter
      (fun n => decide (nty_coroutine_diff_usecs s.birth now < (s.mem n.elm).sleep_usecs))
      = s.sleeping.filter
        (fun n => decide (nty_coroutine_diff_usecs s.birth now < n.key)) := by
    apply List.filter_congr
    intro n hn
    rw [hok.1 n hn]
  rw [hf1, hf2, h1, h2]
  refine ⟨rfl, ?_, ?_, rfl, rfl⟩
  · have hsub : (s.sleeping.filter
        (fun n => decide (n.key ≤ nty_coroutine_diff_usecs s.birth now))).Sublist s.sleeping :=
      List.filter_sublist _
    have hok' := sleep_tree_ok_sublist hok hsub
    have : (rb_elms (s.sleeping.filter
        (fun n => decide (n.key ≤ nty_coroutine_diff_usecs s.birth now)))).map
          (fun c => (s.mem c).sleep_usecs)
        = (s.sleeping.filter
          (fun n => decide (n.key ≤ nty_coroutine_diff_usecs s.birth now))).map (fun n => n.key) := by
      simp only [rb_elms, List.map_map]
      apply List.map_congr_left
      intro n hn
      exact (hok'.1 n hn).symm
    rw [this]
    exact hok'.2
  · unfold nty_schedule_expired
    simp only [RB_MIN]
    cases hfl : s.sleeping.filter
        (fun n => decide (nty_coroutine_diff_usecs s.birth now < n.key)) with
    | nil => rfl
    | cons m rest =>
      have hm : m ∈ s.sleeping.filter
          (fun n => decide (nty_coroutine_diff_usecs s.birth now < n.key)) := by
        rw [hfl]; exact List.mem_cons_self _ _
      rw [List.mem_filter] at hm
      have hk := hok.1 m hm.1
      have hlt : nty_coroutine_diff_usecs s.birth now < m.key := by simpa using hm.2
      have : ¬ ((s.mem m.elm).sleep_usecs ≤ nty_coroutine_diff_usecs s.birth now) := by
        rw [← hk]; omega
      simp [this]


/-- An instance of `wake_monotonicity`: draining `three_sleepers_state` at time
150000 returns coroutine 2 and then coroutine 1 and leaves coroutine 3. -/
theorem wake_monotonicity_witness :
    (sleep_tree_ok three_sleepers_state.mem three_sleepers_state.sleeping ∧
      three_sleepers_state.sleeping.length ≤ 3 ∧
      (drain_expired 3 three_sleepers_state 150000).1 = [2, 1] ∧
      rb_elms (drain_expired 3 three_sleepers_state 150000).2.sleeping = [3]) ∧
    ((drain_expired 3 three_sleepers_state 150000).1 = rb_elms (three_sleepers_state.sleeping.filter
      (fun n => decide ((three_sleepers_state.mem n.elm).sleep_usecs
        ≤ nty_coroutine_diff_usecs three_sleepers_state.birth 150000))) ∧
    (((drain_expired 3 three_sleepers_state 150000).1.map
      (fun c => (three_sleepers_state.mem c).sleep_usecs)).Pairwise (fun a b => a < b)) ∧
    (nty_schedule_expired (drain_expired 3 three_sleepers_state 150000).2 150000).1 = none ∧
    (drain_expired 3 three_sleepers_state 150000).2.sleeping = three_sleepers_state.sleeping.filter
      (fun n => decide (nty_coroutine_diff_usecs three_sleepers_state.birth 150000
        < (three_sleepers_state.mem n.elm).sleep_usecs)) ∧
    (drain_expired 3 three_sleepers_state 150000).2.mem = three_sleepers_state.mem) :=
  ⟨⟨by decide, by decide, by decide, by decide⟩,
    wake_monotonicity 3 three_sleepers_state 150000 (by decide) (by decide)⟩

theorem nty_schedule_desched_sleepdown_status (s : nty_schedule) (co : Ptr) (b : Nat) (hb : b < 32)
    (hs : tst (s.mem co).status NTY_COROUTINE_STATUS_SLEEPING = true) :
    tst ((nty_schedule_desched_sleepdown s co).mem co).status b =
      ((tst (s.mem co).status b && !decide (NTY_COROUTINE_STATUS_SLEEPING = b) &&
        !decide (NTY_COROUTINE_STATUS_EXPIRED = b)) || decide (NTY_COROUTINE_STATUS_READY = b)) := by
  unfold nty_schedule_desched_sleepdown
  simp only [hs, ↓reduceIte, nty_schedule.upd, Function.update_same, tst_or_BIT,
    tst_and_CLEARBIT _ _ _ hb]

/-- C15 (amended): `nty_schedule_desched_sleepdown` is idempotent: applying it
twice gives the same scheduler and coroutine state as applying it once.  When
`co` has SLEEPING set, after the call `co` is not in the sleep tree, SLEEPING and
EXPIRED are clear and READY is set.  When `co` does not have SLEEPING set the
call changes nothing, so a coroutine that is in the sleep tree with SLEEPING
clear stays in it. -/
theorem desched_sleepdown_idempotent (s : nty_schedule) (co : Ptr) :
    nty_schedule_desched_sleepdown (nty_schedule_desched_sleepdown s co) co
      = nty_schedule_desched_sleepdown s co ∧
    (tst (s.mem co).status NTY_COROUTINE_STATUS_SLEEPING = true →
      co ∉ rb_elms (nty_schedule_desched_sleepdown s co).sleeping ∧
      tst ((nty_schedule_desched_sleepdown s co).mem co).status
        NTY_COROUTINE_STATUS_SLEEPING = false ∧
      tst ((nty_schedule_desched_sleepdown s co).mem co).status
        NTY_COROUTINE_STATUS_EXPIRED = false ∧
      tst ((nty_schedule_desched_sleepdown s co).mem co).status
        NTY_COROUTINE_STATUS_READY = true) ∧
    (tst (s.mem co).status NTY_COROUTINE_STATUS_SLEEPING = false →
      nty_schedule_desched_sleepdown s co = s) := by
  have hclear : tst (s.mem co).status NTY_COROUTINE_STATUS_SLEEPING = true →
      tst ((nty_schedule_desched_sleepdown s co).mem co).status
        NTY_COROUTINE_STATUS_SLEEPING = false := by
    intro hs
    rw [nty_schedule_desched_sleepdown_status s co _ (by decide) hs]
    simp [NTY_COROUTINE_STATUS_SLEEPING, NTY_COROUTINE_STATUS_READY]
  have hnoop : ∀ x : nty_schedule, tst (x.mem co).status NTY_COROUTINE_STATUS_SLEEPING = false →
      nty_schedule_desched_sleepdown x co = x := by
    intro x hx
    unfold nty_schedule_desched_sleepdown
    simp [hx]
  refine ⟨?_, ?_, hnoop s⟩
  · cases hs : tst (s.mem co).status NTY_COROUTINE_STATUS_SLEEPING with
    | false => rw [hnoop s hs, hnoop s hs]
    | true => exact hnoop _ (hclear hs)
  · intro hs
    refine ⟨?_, hclear hs, ?_, ?_⟩
    · unfold nty_schedule_desched_sleepdown
      simp only [hs, ↓reduceIte, nty_schedule.upd]
      exact not_mem_rb_elms_RB_REMOVE _ _
    · rw [nty_schedule_desched_sleepdown_status s co _ (by decide) hs]
      simp [NTY_COROUTINE_STATUS_EXPIRED, NTY_COROUTINE_STATUS_READY]
    · rw [nty_schedule_desched_sleepdown_status s co _ (by decide) hs]
      simp

/-- C15 fails as stated: in the state `nty_schedule_search_wait(7)` leaves from
`timed_wait_state`, coroutine 1 is in the sleep tree with status 0; after
`nty_schedule_desched_sleepdown` it is still in the sleep tree. -/
theorem desched_sleepdown_keeps_unflagged_sleeper :
    1 ∈ rb_elms (nty_schedule_search_wait timed_wait_state 7).2.sleeping ∧
    ((nty_schedule_search_wait timed_wait_state 7).2.mem 1).status = 0 ∧
    ¬ (1 ∉ rb_elms (nty_schedule_desched_sleepdown
        (nty_schedule_search_wait timed_wait_state 7).2 1).sleeping) := by
  decide

/-- C16 (failing input): one pass of step 2 from `fdeof_tail_state`, whose ready
queue is `[1, 2]` with FDEOF set on the tail, coroutine 2.  The pass frees
coroutine 2 and, because the FDEOF branch continues the loop without comparing
with `last_co_ready`, goes on: coroutine 1, which re-enqueued itself during the
pass, is taken off the queue and resumed twice more in the same pass, and the
queue is empty when the pass ends. -/
theorem drain_pass_runs_past_FDEOF_tail :
    fdeof_tail_state.ready = [1, 2] ∧
    fdeof_tail_state.ready.getLast? = some 2 ∧
    tst (fdeof_tail_state.mem 2).status NTY_COROUTINE_STATUS_FDEOF = true ∧
    (run_ready 4 fdeof_tail_state.ready.getLast? fdeof_tail_state 9).map
        (fun s => (popped s.log, resumed s.log, s.ready))
      = some (popped fdeof_tail_state.log ++ [1, 2, 1, 1],
          resumed fdeof_tail_state.log ++ [1, 1, 1], []) := by
  decide

theorem nty_schedule_min_timeout_cons (s : nty_schedule) (now : Nat) (n : rb_node Nat)
    (rest : List (rb_node Nat)) (h : s.sleeping = n :: rest) :
    nty_schedule_min_timeout s now =
      (s.mem n.elm).sleep_usecs - nty_coroutine_diff_usecs s.birth now := by
  unfold nty_schedule_min_timeout
  simp only [RB_MIN, h, List.head?_cons, Option.map_some']
  split
  · rfl
  · omega

/-- C17: `nty_schedule_min_timeout` returns `sched.default_timeout` when the sleep
tree is empty, which is 3000000 on the scheduler `nty_schedule_create` sets up;
otherwise, with `d` the deadline of the first node of the sleep tree, which is the
smallest deadline when the tree satisfies its invariant, and `t` the microseconds
elapsed since the birth of the scheduler, it returns `max(0, d - t)`: the
`uint64_t` subtraction is only made when `d > t`, so nothing wraps around and
the result stays below `2 ^ 64` with `d`. -/
theorem min_timeout_value (s : nty_schedule) (now : Nat) :
    (s.sleeping = [] → nty_schedule_min_timeout s now = s.default_timeout) ∧
    (∀ stack_size t0 : Nat,
      (nty_schedule_create stack_size t0).default_timeout = 3000000 ∧
      nty_schedule_min_timeout (nty_schedule_create stack_size t0) now = 3000000) ∧
    (∀ n rest, s.sleeping = n :: rest →
      ((nty_schedule_min_timeout s now : Int) =
        max 0 (((s.mem n.elm).sleep_usecs : Int) - (nty_coroutine_diff_usecs s.birth now : Int))) ∧
      ((s.mem n.elm).sleep_usecs < U64 → nty_schedule_min_timeout s now < U64) ∧
      (sleep_tree_ok s.mem s.sleeping →
        ∀ m ∈ s.sleeping, (s.mem n.elm).sleep_usecs ≤ (s.mem m.elm).sleep_usecs)) := by
  refine ⟨?_, ?_, ?_⟩
  · intro h
    simp [nty_schedule_min_timeout, RB_MIN, h]
  · intro stack_size t0
    exact ⟨rfl, rfl⟩
  · intro n rest h
    have hv := nty_schedule_min_timeout_cons s now n rest h
    refine ⟨?_, ?_, ?_⟩
    · rw [hv]
      omega
    · intro hd
      rw [hv]
      omega
    · intro hok m hm
      rw [h] at hok hm
      rw [← hok.1 n (List.mem_cons_self _ _), ← hok.1 m hm]
      rcases List.mem_cons.1 hm with rfl | hm'
      · exact le_refl _
      · exact le_of_lt (sleep_tree_head_lt hok m hm')

/-- An instance of `min_timeout_value`: in `sleeping_state` the only deadline is
100005; at time 40005 the timeout is 60000 and at time 200000 it is 0. -/
theorem min_timeout_value_witness :
    (sleeping_state.sleeping = { key := 100005, elm := 1 } :: [] ∧
      nty_schedule_min_timeout sleeping_state 40005 = 60000 ∧
      nty_schedule_min_timeout sleeping_state 200000 = 0) ∧
    ((nty_schedule_min_timeout sleeping_state 40005 : Int) =
      max 0 (((sleeping_state.mem 1).sleep_usecs : Int)
        - (nty_coroutine_diff_usecs sleeping_state.birth 40005 : Int))) :=
  ⟨by decide, ((min_timeout_value sleeping_state 40005).2.2 { key := 100005, elm := 1 } []
    (by decide)).1⟩

/-- C18 (failing input): on a shared stack of 6 bytes, saves of 6, 1 and 3 live
bytes in a row, each within `NTY_CO_MAX_STACKSIZE`.  After the first two the
buffer has capacity 6 and `co->stack_size` is 1; the third save finds
`co->stack_size = 1 < 3` and calls `realloc(co->stack, 3)`: the capacity goes
down from 6 to 3. -/
theorem saved_stack_capacity_shrinks :
    (save_stack_seq [([10, 11, 12, 13, 14, 15], 0), ([10, 11, 12, 13, 14, 15], 5)]
        co_stack.empty).map (fun co => (co.stack_size, co.stack.length)) = some (1, 6) ∧
    (save_stack_seq [([10, 11, 12, 13, 14, 15], 0), ([10, 11, 12, 13, 14, 15], 5),
        ([10, 11, 12, 13, 14, 15], 3)]
        co_stack.empty).map (fun co => (co.stack_size, co.stack.length)) = some (3, 3) ∧
    6 - 0 ≤ NTY_CO_MAX_STACKSIZE ∧ 6 - 5 ≤ NTY_CO_MAX_STACKSIZE ∧ 6 - 3 ≤ NTY_CO_MAX_STACKSIZE := by
  decide

/-- C20 (failing input): in `stale_key_state` coroutine 1 is the only node of
the sleep tree, under key 100005, and coroutine 2 is not in the sleep tree but
its `sleep_usecs` field holds 100005.  `nty_schedule_sched_sleepdown(co2, 5)` at
time 100006 looks up `co2` with `RB_FIND`, which compares `sleep_usecs`, finds
coroutine 1 and removes it: afterwards the sleep tree holds coroutine 2 alone,
and coroutine 1, whose fields are untouched and whose SLEEPING bit is still set,
is no longer a member. -/
theorem sched_sleepdown_removes_other_sleeper :
    stale_key_state.sleeping = [{ key := 100005, elm := 1 }] ∧
    2 ∉ rb_elms stale_key_state.sleeping ∧
    (stale_key_state.mem 2).sleep_usecs = 100005 ∧
    RB_FIND nty_coroutine_sleep_cmp stale_key_state.mem stale_key_state.sleeping
      (stale_key_state.mem 2) = some 1 ∧
    (nty_schedule_sched_sleepdown stale_key_state 2 5 100006).sleeping
      = [{ key := 105006, elm := 2 }] ∧
    1 ∉ rb_elms (nty_schedule_sched_sleepdown stale_key_state 2 5 100006).sleeping ∧
    ((nty_schedule_sched_sleepdown stale_key_state 2 5 100006).mem 1).sleep_usecs = 100005 ∧
    tst ((nty_schedule_sched_sleepdown stale_key_state 2 5 100006).mem 1).status
      NTY_COROUTINE_STATUS_SLEEPING = true := by
  decide

theorem rb_link_wait_sorted (mem : Ptr → nty_coroutine) (t : List (rb_node Int)) (n : rb_node Int)
    (hk : ∀ m ∈ t, m.key = (mem m.elm).fd) (hn : n.key = (mem n.elm).fd)
    (hs : (t.map (fun n => n.key)).Pairwise (fun a b => a < b))
    (hfree : ∀ m ∈ t, m.key ≠ n.key) :
    ((rb_link nty_coroutine_wait_cmp mem t n).map (fun n => n.key)).Pairwise (fun a b => a < b) := by
  induction t with
  | nil => simp [rb_link]
  | cons a t ih =>
    have hka := hk a (List.mem_cons_self _ _)
    have hfa := hfree a (List.mem_cons_self _ _)
    simp only [List.map_cons, List.pairwise_cons, List.mem_map, forall_exists_index, and_imp,
      forall_apply_eq_imp_iff₂] at hs
    unfold rb_link
    split
    · rename_i hlt
      rw [wait_cmp_neg, ← hn, ← hka] at hlt
      simp only [List.map_cons, List.pairwise_cons, List.mem_cons, List.mem_map, forall_eq_or_imp,
        forall_exists_index, and_imp, forall_apply_eq_imp_iff₂]
      refine ⟨⟨hlt, fun m hm => lt_trans hlt (hs.1 m hm)⟩, hs.1, hs.2⟩
    · rename_i hlt
      rw [wait_cmp_neg, ← hn, ← hka] at hlt
      have hlt2 : a.key < n.key := by omega
      simp only [List.map_cons, List.pairwise_cons, List.mem_map, forall_exists_index, and_imp,
        forall_apply_eq_imp_iff₂, mem_rb_link]
      refine ⟨?_, ih (fun m hm => hk m (List.mem_cons_of_mem _ hm)) hs.2
        (fun m hm => hfree m (List.mem_cons_of_mem _ hm))⟩
      rintro m (rfl | hm)
      · exact hlt2
      · exact hs.1 m hm

theorem wait_tree_ok_congr {mem mem' : Ptr → nty_coroutine} {t : List (rb_node Int)}
    (h : ∀ n ∈ t, (mem' n.elm).fd = (mem n.elm).fd) (hok : wait_tree_ok mem t) :
    wait_tree_ok mem' t :=
  ⟨fun n hn => by rw [h n hn]; exact hok.1 n hn, hok.2⟩

theorem wait_tree_ok_sublist {mem : Ptr → nty_coroutine} {t u : List (rb_node Int)}
    (h : u.Sublist t) (hok : wait_tree_ok mem t) : wait_tree_ok mem u :=
  ⟨fun n hn => hok.1 n (h.subset hn), hok.2.sublist (h.map _)⟩

/-- Linking a coroutine whose key collides with no node of the tree, as
`RB_INSERT` does when its search returns `NULL`, keeps the wait-tree invariant. -/
theorem wait_tree_ok_link (mem : Ptr → nty_coroutine) (t : List (rb_node Int)) (co : Ptr)
    (c : nty_coroutine) (hok : wait_tree_ok mem t)
    (hnone : RB_FIND nty_coroutine_wait_cmp (Function.update mem co c) t c = none) :
    wait_tree_ok (Function.update mem co c)
      (rb_link nty_coroutine_wait_cmp (Function.update mem co c) t { key := c.fd, elm := co }) := by
  rw [RB_FIND_wait_none] at hnone
  have hne : ∀ n ∈ t, n.elm ≠ co := by
    intro n hn e
    apply hnone n hn
    rw [e, Function.update_same]
  have hsame : ∀ n ∈ t, (Function.update mem co c) n.elm = mem n.elm := by
    intro n hn
    simp [Function.update, hne n hn]
  have hk : ∀ m ∈ t, m.key = ((Function.update mem co c) m.elm).fd := by
    intro m hm
    rw [hsame m hm]; exact hok.1 m hm
  refine ⟨?_, rb_link_wait_sorted _ t _ hk (by simp) hok.2 ?_⟩
  · intro n hn
    rcases (mem_rb_link _ _ _ _ _).1 hn with rfl | hn'
    · simp
    · exact hk n hn'
  · intro m hm
    rw [hk m hm]
    exact hnone m hm

/-- A call of `nty_schedule_sched_wait` that does not trap keeps the wait-tree
invariant. -/
theorem nty_schedule_sched_wait_tree_ok (s s' : nty_schedule) (co : Ptr) (fd : Int)
    (events timeout now : Nat)
    (h : nty_schedule_sched_wait s co fd events timeout now = some s')
    (hok : wait_tree_ok s.mem s.waiting) : wait_tree_ok s'.mem s'.waiting := by
  unfold nty_schedule_sched_wait at h
  split at h
  · cases h
  · simp only [] at h
    split at h
    · cases h
    · rename_i b _
      simp only [nty_schedule.upd, Function.update_same, Function.update_idem] at h
      split at h
      · cases h
      · rename_i t hins
        unfold RB_INSERT at hins
        simp only [Function.update_same] at hins
        split at hins
        · cases hins
        · rename_i hnone
          simp only [Prod.mk.injEq, true_and] at hins
          have hlink := wait_tree_ok_link s.mem s.waiting co _ hok hnone
          simp only [] at hlink
          rw [hins] at hlink
          split at h
          · cases h
            exact hlink
          · cases h
            generalize hs4 : ({ s with
                mem := Function.update s.mem co
                  { s.mem co with status := (s.mem co).status ||| BIT b, fd := fd, events := events }
                waiting := t } : nty_schedule) = s4 at *
            obtain ⟨t', k, st, hh⟩ := nty_schedule_sched_sleepdown_shape s4 co timeout now
            rw [hh]
            have hlink4 : wait_tree_ok s4.mem s4.waiting := by rw [← hs4]; exact hlink
            refine wait_tree_ok_congr (fun n _ => ?_) hlink4
            by_cases e : n.elm = co
            · rw [e]; simp
            · simp [Function.update, e]

theorem nty_schedule_search_wait_tree_ok (s : nty_schedule) (fd : Int)
    (hok : wait_tree_ok s.mem s.waiting) :
    wait_tree_ok (nty_schedule_search_wait s fd).2.mem (nty_schedule_search_wait s fd).2.waiting := by
  rcases nty_schedule_search_wait_cases s fd with h | ⟨q, h⟩
  · rw [h]; exact hok
  · rw [h]
    refine wait_tree_ok_congr (fun n _ => ?_) hok
    by_cases e : n.elm = q
    · rw [e]; simp [nty_schedule.upd]
    · simp [nty_schedule.upd, Function.update, e]

theorem nty_schedule_desched_wait_tree_ok (s : nty_schedule) (fd : Int)
    (hok : wait_tree_ok s.mem s.waiting) :
    wait_tree_ok (nty_schedule_desched_wait s fd).2.mem
      (nty_schedule_desched_wait s fd).2.waiting := by
  rcases nty_schedule_desched_wait_cases s fd with h | ⟨q, h⟩
  · rw [h]; exact hok
  · rw [h]
    refine wait_tree_ok_congr (fun n _ => ?_) (wait_tree_ok_sublist (RB_REMOVE_sublist _ _) hok)
    by_cases e : n.elm = q
    · rw [e]; simp
    · simp [Function.update, e]

theorem wait_step_tree_ok (s s' : nty_schedule) (op : wait_op) (h : wait_step s op = some s')
    (hok : wait_tree_ok s.mem s.waiting) : wait_tree_ok s'.mem s'.waiting := by
  cases op with
  | sched_wait co fd events timeout now =>
    exact nty_schedule_sched_wait_tree_ok s s' co fd events timeout now h hok
  | search_wait fd =>
    simp only [wait_step, Option.some.injEq] at h
    rw [← h]; exact nty_schedule_search_wait_tree_ok s fd hok
  | desched_wait fd =>
    simp only [wait_step, Option.some.injEq] at h
    rw [← h]; exact nty_schedule_desched_wait_tree_ok s fd hok
  | cancel_wait co =>
    simp only [wait_step, Option.some.injEq] at h
    rw [← h]
    exact wait_tree_ok_sublist (RB_REMOVE_sublist _ _) hok

theorem wait_run_tree_ok (ops : List wait_op) : ∀ (s s' : nty_schedule),
    wait_run ops s = some s' → wait_tree_ok s.mem s.waiting → wait_tree_ok s'.mem s'.waiting := by
  induction ops with
  | nil =>
    intro s s' h hok
    simp only [wait_run, Option.some.injEq] at h
    rw [← h]; exact hok
  | cons op ops ih =>
    intro s s' h hok
    simp only [wait_run] at h
    split at h
    · cases h
    · rename_i s1 h1
      exact ih s1 s' h (wait_step_tree_ok s s1 op h1 hok)

/-- A call of `nty_schedule_sched_wait` on a descriptor that some node of the
wait tree currently carries traps: `RB_INSERT` returns that node (or another
one with the same descriptor) and `assert(co_tmp == NULL)` fails. -/
theorem nty_schedule_sched_wait_occupied (s : nty_schedule) (co : Ptr) (fd : Int)
    (events timeout now : Nat) (n : rb_node Int) (hn : n ∈ s.waiting)
    (hfd : (s.mem n.elm).fd = fd) :
    nty_schedule_sched_wait s co fd events timeout now = none := by
  unfold nty_schedule_sched_wait
  split
  · rfl
  · simp only []
    split
    · rfl
    · rename_i b _
      simp only [nty_schedule.upd, Function.update_same, Function.update_idem]
      split
      · rfl
      · rename_i t hins
        exfalso
        unfold RB_INSERT at hins
        simp only [Function.update_same] at hins
        split at hins
        · cases hins
        · rename_i hnone
          rw [RB_FIND_wait_none] at hnone
          apply hnone n hn
          by_cases e : n.elm = co
          · rw [e]; simp
          · simp [Function.update, e, hfd]

theorem wait_tree_ok_nodup {mem : Ptr → nty_coroutine} {t : List (rb_node Int)}
    (hok : wait_tree_ok mem t) : (rb_elms t).Nodup := by
  unfold rb_elms List.Nodup
  rw [List.pairwise_map]
  have h2 := hok.2
  rw [List.pairwise_map] at h2
  refine List.Pairwise.imp_of_mem ?_ h2
  intro a b ha hb hlt e
  rw [hok.1 a ha, hok.1 b hb, e] at hlt
  exact lt_irrefl _ hlt

/-- C19: the wait-tree key invariant.  In every state `s` reached from a state
with an empty wait tree by a sequence of calls of `nty_schedule_sched_wait`,
`nty_schedule_search_wait`, `nty_schedule_desched_wait` and
`nty_schedule_cancel_wait` none of which traps, every node of the wait tree is
stored under the current `fd` of its coroutine, no two nodes carry the same
`fd`, the keys increase strictly along the tree, no coroutine is linked twice,
and `nty_schedule_sched_wait` on a descriptor that a coroutine of the tree
carries traps whatever its other arguments are. -/
theorem wait_tree_key_invariant (ops : List wait_op) (s0 : nty_schedule)
    (h0 : s0.waiting = []) :
    ∀ s, wait_run ops s0 = some s →
      (∀ n ∈ s.waiting, n.key = (s.mem n.elm).fd) ∧
      (∀ n ∈ s.waiting, ∀ m ∈ s.waiting, (s.mem n.elm).fd = (s.mem m.elm).fd → n = m) ∧
      (s.waiting.map (fun n => n.key)).Pairwise (fun a b => a < b) ∧
      (rb_elms s.waiting).Nodup ∧
      ∀ (co : Ptr) (fd : Int) (events timeout now : Nat),
        (∃ n ∈ s.waiting, (s.mem n.elm).fd = fd) →
        nty_schedule_sched_wait s co fd events timeout now = none := by
  intro s hrun
  have hok0 : wait_tree_ok s0.mem s0.waiting := by
    rw [h0]; exact ⟨fun n hn => (by cases hn), List.Pairwise.nil⟩
  have hok := wait_run_tree_ok ops s0 s hrun hok0
  refine ⟨hok.1, ?_, hok.2, wait_tree_ok_nodup hok, ?_⟩
  · intro n hn m hm e
    rw [← hok.1 n hn, ← hok.1 m hm] at e
    exact key_injective_of_pairwise hok.2 hn hm e
  · rintro co fd events timeout now ⟨n, hn, hfd⟩
    exact nty_schedule_sched_wait_occupied s co fd events timeout now n hn hfd

/-- An instance of `wait_tree_key_invariant`: on a scheduler with two new
coroutines, coroutine 1 parks on descriptor 7 and coroutine 2 on descriptor 8
with a timeout; `nty_schedule_search_wait(7)`, `nty_schedule_desched_wait(8)` and
`nty_schedule_cancel_wait` of coroutine 1 follow, and coroutine 2 parks on
descriptor 7.  No call traps, and the wait tree ends as the single node of
coroutine 2 under 7. -/
theorem wait_tree_key_invariant_witness :
    (two_coroutines_state.waiting = [] ∧
      (wait_run [wait_op.sched_wait 1 7 POLLIN NO_TIMEOUT 5, wait_op.sched_wait 2 8 POLLOUT 100 5,
          wait_op.search_wait 7, wait_op.desched_wait 8, wait_op.cancel_wait 1,
          wait_op.sched_wait 2 7 POLLIN NO_TIMEOUT 9] two_coroutines_state).map
        (fun s => s.waiting) = some [{ key := 7, elm := 2 }]) ∧
    ∀ s, wait_run [wait_op.sched_wait 1 7 POLLIN NO_TIMEOUT 5, wait_op.sched_wait 2 8 POLLOUT 100 5,
        wait_op.search_wait 7, wait_op.desched_wait 8, wait_op.cancel_wait 1,
        wait_op.sched_wait 2 7 POLLIN NO_TIMEOUT 9] two_coroutines_state = some s →
      (∀ n ∈ s.waiting, n.key = (s.mem n.elm).fd) ∧
      (∀ n ∈ s.waiting, ∀ m ∈ s.waiting, (s.mem n.elm).fd = (s.mem m.elm).fd → n = m) ∧
      (s.waiting.map (fun n => n.key)).Pairwise (fun a b => a < b) ∧
      (rb_elms s.waiting).Nodup ∧
      ∀ (co : Ptr) (fd : Int) (events timeout now : Nat),
        (∃ n ∈ s.waiting, (s.mem n.elm).fd = fd) →
        nty_schedule_sched_wait s co fd events timeout now = none :=
  ⟨by decide, wait_tree_key_invariant _ two_coroutines_state (by decide)⟩

theorem realloc_length (buf : List Nat) (n : Nat) : (realloc buf n).length = n := by
  simp only [realloc, List.length_append, List.length_take, List.length_replicate]
  omega

theorem memcpy_fits (dst : List Nat) (off : Nat) (src : List Nat)
    (h : off + src.length ≤ dst.length) :
    memcpy dst off src = some (dst.take off ++ src ++ dst.drop (off + src.length)) := by
  simp [memcpy, h]

theorem memcpy_length (dst : List Nat) (off : Nat) (src r : List Nat)
    (h : memcpy dst off src = some r) :
    off + src.length ≤ dst.length ∧ r.length = dst.length := by
  unfold memcpy at h
  split at h
  · rename_i hfit
    cases h
    refine ⟨hfit, ?_⟩
    simp only [List.length_append, List.length_take, List.length_drop]
    omega
  · cases h

theorem save_stack_buffer_length (shared : List Nat) (sp : Nat) (co : co_stack)
    (hinv : co.stack_size ≤ co.stack.length) :
    shared.length - sp ≤ (save_stack_buffer shared sp co).length := by
  unfold save_stack_buffer
  split
  · rw [realloc_length]
  · omega

/-- The copy `_save_stack` makes is the `memcpy` of the live bytes to the start of
the buffer `save_stack_buffer` gives, and the call returns exactly when it passes
the `assert` and that copy stays inside the buffer. -/
theorem _save_stack_eq (shared : List Nat) (sp : Nat) (co : co_stack)
    (hmax : shared.length - sp ≤ NTY_CO_MAX_STACKSIZE) :
    _save_stack shared sp co =
      (memcpy (save_stack_buffer shared sp co) 0
        ((shared.drop sp).take (shared.length - sp))).map
        (fun stack => { stack := stack, stack_size := shared.length - sp }) := by
  simp only [_save_stack, hmax, not_true_eq_false, ↓reduceIte, save_stack_buffer]
  split <;> simp_all

theorem _save_stack_invariant (shared : List Nat) (sp : Nat) (co co' : co_stack)
    (h : _save_stack shared sp co = some co') :
    shared.length - sp ≤ NTY_CO_MAX_STACKSIZE ∧ co'.stack_size = shared.length - sp ∧
      co'.stack_size ≤ co'.stack.length ∧
      co'.stack.length = (save_stack_buffer shared sp co).length := by
  have hmax : shared.length - sp ≤ NTY_CO_MAX_STACKSIZE := by
    by_contra hcon
    simp [_save_stack, hcon] at h
  rw [_save_stack_eq shared sp co hmax] at h
  simp only [Option.map_eq_some'] at h
  obtain ⟨stack, hm, rfl⟩ := h
  obtain ⟨h1, h2⟩ := memcpy_length _ _ _ _ hm
  refine ⟨hmax, rfl, ?_, h2⟩
  simp only [zero_add, List.length_take, List.length_drop] at h1
  simp only
  omega

/-- A `_save_stack` that passes its `assert` on a buffer at least as large as the
size last saved returns. -/
theorem _save_stack_returns (shared : List Nat) (sp : Nat) (co : co_stack)
    (hmax : shared.length - sp ≤ NTY_CO_MAX_STACKSIZE) (hinv : co.stack_size ≤ co.stack.length) :
    ∃ stack, memcpy (save_stack_buffer shared sp co) 0
        ((shared.drop sp).take (shared.length - sp)) = some stack ∧
      stack = shared.drop sp ++ (save_stack_buffer shared sp co).drop (shared.length - sp) ∧
      _save_stack shared sp co = some { stack := stack, stack_size := shared.length - sp } := by
  have hbuf := save_stack_buffer_length shared sp co hinv
  have hlive : (shared.drop sp).take (shared.length - sp) = shared.drop sp :=
    List.take_of_length_le (by simp)
  have hfit := memcpy_fits (save_stack_buffer shared sp co) 0 (shared.drop sp)
    (by simpa using hbuf)
  refine ⟨_, by rw [hlive]; exact hfit, by simp, ?_⟩
  rw [_save_stack_eq shared sp co hmax, hlive, hfit]
  rfl

theorem save_stack_seq_invariant (calls : List (List Nat × Nat)) : ∀ (co co' : co_stack),
    co.stack_size ≤ co.stack.length → save_stack_seq calls co = some co' →
    co'.stack_size ≤ co'.stack.length := by
  induction calls with
  | nil =>
    intro co co' h hs
    simp only [save_stack_seq, Option.some.injEq] at hs
    subst hs; exact h
  | cons c rest ih =>
    intro co co' h hs
    obtain ⟨shared, sp⟩ := c
    simp only [save_stack_seq] at hs
    split at hs
    · cases hs
    · rename_i co1 h1
      exact ih co1 co' (_save_stack_invariant shared sp co co1 h1).2.2.1 hs

theorem save_stack_seq_returns (calls : List (List Nat × Nat)) : ∀ (co : co_stack),
    co.stack_size ≤ co.stack.length →
    (∀ c ∈ calls, c.1.length - c.2 ≤ NTY_CO_MAX_STACKSIZE) →
    ∃ co', save_stack_seq calls co = some co' := by
  induction calls with
  | nil => intro co _ _; exact ⟨co, rfl⟩
  | cons c rest ih =>
    intro co hinv h
    obtain ⟨shared, sp⟩ := c
    obtain ⟨stack, -, -, e1⟩ :=
      _save_stack_returns shared sp co (h _ (List.mem_cons_self _ _)) hinv
    obtain ⟨co', e⟩ := ih _ (_save_stack_invariant shared sp co _ e1).2.2.1
      (fun c hc => h c (List.mem_cons_of_mem _ hc))
    exact ⟨co', by simp only [save_stack_seq, e1, e]⟩

/-- Save followed by load on a buffer at least as large as the size last saved:
both copies stay in bounds, the live bytes come back to the top of the shared
stack and the bytes below them are untouched. -/
theorem _load_stack_after_save (shared shared' : List Nat) (sp : Nat) (co : co_stack)
    (hinv : co.stack_size ≤ co.stack.length)
    (hmax : shared.length - sp ≤ NTY_CO_MAX_STACKSIZE)
    (hlen : shared'.length = shared.length) :
    ∃ co' loaded, _save_stack shared sp co = some co' ∧
      co'.stack_size = shared.length - sp ∧
      _load_stack shared' co' = some loaded ∧
      loaded.length = shared.length ∧
      loaded.drop (shared.length - co'.stack_size) = shared.drop sp ∧
      loaded.take (shared.length - co'.stack_size)
        = shared'.take (shared.length - co'.stack_size) := by
  obtain ⟨stack, -, hstack, hsave⟩ := _save_stack_returns shared sp co hmax hinv
  have hll : (shared.drop sp).length = shared.length - sp := by simp
  have htake : stack.take (shared.length - sp) = shared.drop sp := by
    rw [hstack, List.take_append_of_le_length (by rw [hll])]
    exact List.take_of_length_le (by rw [hll])
  have hslen : shared.length - sp ≤ stack.length := by
    rw [hstack, List.length_append, hll]; omega
  have hfit := memcpy_fits shared' (shared.length - (shared.length - sp)) (shared.drop sp)
    (by rw [hll, hlen]; omega)
  have h1 : (shared'.take (shared.length - (shared.length - sp))).length
      = shared.length - (shared.length - sp) := by
    rw [List.length_take, hlen]; omega
  have hz : List.drop (shared.length - (shared.length - sp) + (shared.drop sp).length) shared' = [] :=
    List.drop_of_length_le (by rw [hll, hlen]; omega)
  have hd : List.drop (shared.length - (shared.length - sp))
      (List.take (shared.length - (shared.length - sp)) shared') = [] :=
    List.drop_of_length_le (by rw [h1])
  refine ⟨_, List.take (shared.length - (shared.length - sp)) shared' ++ List.drop sp shared ++
      List.drop (shared.length - (shared.length - sp) + (List.drop sp shared).length) shared',
    hsave, rfl, ?_, ?_, ?_, ?_⟩
  · simp only [_load_stack, hlen, htake, not_lt.2 hslen, ↓reduceIte]
    exact hfit
  · simp only [List.length_append, List.length_take, List.length_drop, hlen]
    omega
  · simp only [List.append_assoc, hz, List.append_nil]
    rw [List.drop_append_of_le_length (by rw [h1]), hd, List.nil_append]
  · simp only [List.append_assoc, hz, List.append_nil]
    rw [List.take_append_of_le_length (by rw [h1]), List.take_of_length_le (by rw [h1])]

/-- C9: stack save/load round trip.  With the shared stack a byte array `shared`
(`top` is its length `S`), for the heap buffer `co` left by any sequence of
earlier saves on the coroutine (from the empty buffer of `nty_coroutine_create`,
no `assert` failing) and every stack pointer `sp` whose live size `top - sp`
passes the `assert`, `_save_stack` returns with `co.stack_size = top - sp`; after
arbitrary overwriting of the shared stack (`shared'`, of the same size)
`_load_stack` stays in bounds and gives a stack whose bytes in
`[top - co.stack_size, top)` are the bytes that were in `[sp, top)` at the save,
and whose bytes below `top - co.stack_size` are those of `shared'`, unchanged. -/
theorem save_load_round_trip (calls : List (List Nat × Nat)) (shared shared' : List Nat)
    (sp : Nat) (hcalls : ∀ c ∈ calls, c.1.length - c.2 ≤ NTY_CO_MAX_STACKSIZE)
    (hmax : shared.length - sp ≤ NTY_CO_MAX_STACKSIZE)
    (hlen : shared'.length = shared.length) :
    ∃ co co' loaded, save_stack_seq calls co_stack.empty = some co ∧
      _save_stack shared sp co = some co' ∧
      co'.stack_size = shared.length - sp ∧
      _load_stack shared' co' = some loaded ∧
      loaded.length = shared.length ∧
      loaded.drop (shared.length - co'.stack_size) = shared.drop sp ∧
      loaded.take (shared.length - co'.stack_size)
        = shared'.take (shared.length - co'.stack_size) := by
  obtain ⟨co, hco⟩ :=
    save_stack_seq_returns calls co_stack.empty (by simp [co_stack.empty]) hcalls
  have hinv := save_stack_seq_invariant calls co_stack.empty co (by simp [co_stack.empty]) hco
  obtain ⟨co', loaded, h⟩ := _load_stack_after_save shared shared' sp co hinv hmax hlen
  exact ⟨co, co', loaded, hco, h⟩

/-- An instance of `save_load_round_trip`: after a save of 1 live byte, a shared
stack of 6 bytes is saved at `sp = 2` (the buffer has to grow from 1 byte to 4)
and loaded onto an overwritten stack. -/
theorem save_load_round_trip_witness :
    ((∀ c ∈ [([10, 11, 12, 13, 14, 15], 5)], c.1.length - c.2 ≤ NTY_CO_MAX_STACKSIZE) ∧
      [20, 21, 22, 23, 24, 25].length - 2 ≤ NTY_CO_MAX_STACKSIZE ∧
      [0, 1, 2, 3, 4, 5].length = [20, 21, 22, 23, 24, 25].length ∧
      (save_stack_seq [([10, 11, 12, 13, 14, 15], 5)] co_stack.empty).bind
          (fun co => (_save_stack [20, 21, 22, 23, 24, 25] 2 co).bind
            (fun co' => _load_stack [0, 1, 2, 3, 4, 5] co'))
        = some [0, 1, 22, 23, 24, 25]) ∧
    ∃ co co' loaded, save_stack_seq [([10, 11, 12, 13, 14, 15], 5)] co_stack.empty = some co ∧
      _save_stack [20, 21, 22, 23, 24, 25] 2 co = some co' ∧
      co'.stack_size = [20, 21, 22, 23, 24, 25].length - 2 ∧
      _load_stack [0, 1, 2, 3, 4, 5] co' = some loaded ∧
      loaded.length = [20, 21, 22, 23, 24, 25].length ∧
      loaded.drop ([20, 21, 22, 23, 24, 25].length - co'.stack_size)
        = [20, 21, 22, 23, 24, 25].drop 2 ∧
      loaded.take ([20, 21, 22, 23, 24, 25].length - co'.stack_size)
        = [0, 1, 2, 3, 4, 5].take ([20, 21, 22, 23, 24, 25].length - co'.stack_size) :=
  ⟨by decide, save_load_round_trip [([10, 11, 12, 13, 14, 15], 5)] [20, 21, 22, 23, 24, 25]
    [0, 1, 2, 3, 4, 5] 2 (by decide) (by decide) (by decide)⟩

/-- C21: copy-bound safety of stack saving.  After every sequence of
`_save_stack` calls on one coroutine that starts from the empty buffer of
`nty_coroutine_create` (`stack = NULL`, `stack_size = 0`) and in which no
`assert` fails, the sequence has returned, and at the next call, whatever the
shared stack and the stack pointer are, the heap buffer after the optional
`realloc` has at least `top - sp` bytes, which is the number of bytes `memcpy`
writes; when the call passes its `assert`, the `memcpy` of the live bytes to the
start of that buffer stays inside it and leaves its size as it is, and the call
returns the buffer so filled: nothing is written past its end. -/
theorem save_stack_copy_in_bounds (calls : List (List Nat × Nat))
    (hcalls : ∀ c ∈ calls, c.1.length - c.2 ≤ NTY_CO_MAX_STACKSIZE) :
    ∃ co, save_stack_seq calls co_stack.empty = some co ∧
      ∀ (shared : List Nat) (sp : Nat),
        shared.length - sp ≤ (save_stack_buffer shared sp co).length ∧
        ((shared.drop sp).take (shared.length - sp)).length = shared.length - sp ∧
        (shared.length - sp ≤ NTY_CO_MAX_STACKSIZE →
          ∃ stack, memcpy (save_stack_buffer shared sp co) 0
              ((shared.drop sp).take (shared.length - sp)) = some stack ∧
            stack.length = (save_stack_buffer shared sp co).length ∧
            _save_stack shared sp co
              = some { stack := stack, stack_size := shared.length - sp }) := by
  obtain ⟨co, hco⟩ :=
    save_stack_seq_returns calls co_stack.empty (by simp [co_stack.empty]) hcalls
  have hinv := save_stack_seq_invariant calls co_stack.empty co (by simp [co_stack.empty]) hco
  refine ⟨co, hco, fun shared sp => ?_⟩
  have hbuf := save_stack_buffer_length shared sp co hinv
  have hlive : ((shared.drop sp).take (shared.length - sp)).length = shared.length - sp := by
    simp
  refine ⟨hbuf, hlive, fun hmax => ?_⟩
  obtain ⟨stack, hm, -, hs⟩ := _save_stack_returns shared sp co hmax hinv
  exact ⟨stack, hm, (memcpy_length _ _ _ _ hm).2, hs⟩

/-- An instance of `save_stack_copy_in_bounds`: on a shared stack of 6 bytes, a
save of 6 live bytes followed by a save of 1 live byte; every next save finds a
buffer that holds its live bytes. -/
theorem save_stack_copy_in_bounds_witness :
    (∀ c ∈ [([10, 11, 12, 13, 14, 15], 0), ([10, 11, 12, 13, 14, 15], 5)],
        c.1.length - c.2 ≤ NTY_CO_MAX_STACKSIZE) ∧
    ∃ co, save_stack_seq [([10, 11, 12, 13, 14, 15], 0), ([10, 11, 12, 13, 14, 15], 5)]
        co_stack.empty = some co ∧
      ∀ (shared : List Nat) (sp : Nat),
        shared.length - sp ≤ (save_stack_buffer shared sp co).length ∧
        ((shared.drop sp).take (shared.length - sp)).length = shared.length - sp ∧
        (shared.length - sp ≤ NTY_CO_MAX_STACKSIZE →
          ∃ stack, memcpy (save_stack_buffer shared sp co) 0
              ((shared.drop sp).take (shared.length - sp)) = some stack ∧
            stack.length = (save_stack_buffer shared sp co).length ∧
            _save_stack shared sp co
              = some { stack := stack, stack_size := shared.length - sp }) :=
  ⟨by decide, save_stack_copy_in_bounds
    [([10, 11, 12, 13, 14, 15], 0), ([10, 11, 12, 13, 14, 15], 5)] (by decide)⟩

end NtyCo
